import Mathlib

/-!
# Per-flow packet statistics: header codec, flow registry, accumulators, report

A shallow embedding of `stats-header.cc`, `stats-data.h` and `stats-data.cc`.

Conventions of the embedding.
* Unsigned machine integers are `Nat`, reduced modulo `2 ^ w` wherever the C++
  arithmetic can wrap (`uint16_t`, `uint32_t`, `uint64_t`).
* A simulator `Time` is an integer count of clock ticks (nanoseconds, the unit the
  code assumes when it labels `GetDouble () / 1000.0` as microseconds).
* A report file is a list of lines and a line is a list of comma-separated cells.
  A `double` sent to the stream is kept as the exact rational it stands for; the
  rounding and the six-digit formatting of the stream are not represented.
* Spreadsheet formulas are kept as syntax trees together with the text they are
  written as, and are given a value over a sheet by exact rational arithmetic.
-/

namespace ns3

/-! ## Byte buffers (the part of `Buffer::Iterator` the header codec uses) -/

/-- Bytes under a `Buffer::Iterator` placed at the start of a buffer: `data` holds
the bytes that are available, `past` is what a read beyond them yields (the
iterator reads without a length check of its own in this code base). -/
structure Buffer where
  data : List Nat
  past : Nat → Nat

/-- One byte at offset `pos` from the start: `Buffer::Iterator::ReadU8`. -/
def Buffer.ReadU8 (b : Buffer) (pos : Nat) : Nat :=
  (b.data.getD pos (b.past pos)) % 256

/-- Four bytes, most significant first: `Buffer::Iterator::ReadNtohU32`. -/
def Buffer.ReadNtohU32 (b : Buffer) (pos : Nat) : Nat :=
  ((b.ReadU8 pos * 256 + b.ReadU8 (pos + 1)) * 256 + b.ReadU8 (pos + 2)) * 256
    + b.ReadU8 (pos + 3)

/-- Eight bytes, most significant first: `Buffer::Iterator::ReadNtohU64`. -/
def Buffer.ReadNtohU64 (b : Buffer) (pos : Nat) : Nat :=
  (((((((b.ReadU8 pos * 256 + b.ReadU8 (pos + 1)) * 256 + b.ReadU8 (pos + 2)) * 256
    + b.ReadU8 (pos + 3)) * 256 + b.ReadU8 (pos + 4)) * 256 + b.ReadU8 (pos + 5)) * 256
    + b.ReadU8 (pos + 6)) * 256) + b.ReadU8 (pos + 7)

/-- Bytes written by `Buffer::Iterator::WriteHtonU32`. -/
def WriteHtonU32 (data : Nat) : List Nat :=
  [data / 2 ^ 24 % 256, data / 2 ^ 16 % 256, data / 2 ^ 8 % 256, data % 256]

/-- Bytes written by `Buffer::Iterator::WriteHtonU64`. -/
def WriteHtonU64 (data : Nat) : List Nat :=
  [data / 2 ^ 56 % 256, data / 2 ^ 48 % 256, data / 2 ^ 40 % 256, data / 2 ^ 32 % 256,
   data / 2 ^ 24 % 256, data / 2 ^ 16 % 256, data / 2 ^ 8 % 256, data % 256]

/-! ## `StatsHeader` -/

/-- Fields of `StatsHeader`: `m_seq`, `m_nodeId`, `m_appId` are `uint32_t`, `m_ts` is
`uint64_t`. -/
structure StatsHeader where
  m_seq : Nat
  m_ts : Nat
  m_nodeId : Nat
  m_appId : Nat
deriving DecidableEq, Repr

/-- Every field fits its machine type. -/
def StatsHeader.valid (h : StatsHeader) : Prop :=
  h.m_seq < 2 ^ 32 ∧ h.m_ts < 2 ^ 64 ∧ h.m_nodeId < 2 ^ 32 ∧ h.m_appId < 2 ^ 32

instance (h : StatsHeader) : Decidable h.valid := by
  unfold StatsHeader.valid; infer_instance

/-- Size reported by `StatsHeader::GetSerializedSize`. -/
def StatsHeader.GetSerializedSize (_h : StatsHeader) : Nat := 4 + 8 + 4 + 4

/-- Bytes written by `StatsHeader::Serialize`, in the order of the four writes. -/
def StatsHeader.Serialize (h : StatsHeader) : List Nat :=
  WriteHtonU32 h.m_seq ++ WriteHtonU64 h.m_ts ++ WriteHtonU32 h.m_nodeId
    ++ WriteHtonU32 h.m_appId

/-- Result of `StatsHeader::Deserialize`: the header after the four reads and the
returned size. The function reads through the iterator unconditionally. -/
def StatsHeader.Deserialize (start : Buffer) : StatsHeader × Nat :=
  let h : StatsHeader :=
    { m_seq := start.ReadNtohU32 0
      m_ts := start.ReadNtohU64 4
      m_nodeId := start.ReadNtohU32 12
      m_appId := start.ReadNtohU32 16 }
  (h, h.GetSerializedSize)

/-- Error value the specification names for a header that cannot be decoded. -/
inductive DecodeError where
  | MalformedHeaderError
deriving DecidableEq, Repr

/-- Decoding seen through the specification's interface `decode(buffer) -> record`:
`Deserialize` has no failing branch, so the outcome is always a record. -/
def StatsHeader.decode (start : Buffer) : Except DecodeError StatsHeader :=
  Except.ok (StatsHeader.Deserialize start).1


/-- Accessor `StatsHeader::GetSeq`. -/
def StatsHeader.GetSeq (h : StatsHeader) : Nat := h.m_seq

/-- Accessor `StatsHeader::GetNodeId`. -/
def StatsHeader.GetNodeId (h : StatsHeader) : Nat := h.m_nodeId

/-- Accessor `StatsHeader::GetApplicationId`. -/
def StatsHeader.GetApplicationId (h : StatsHeader) : Nat := h.m_appId

/-! ## Simulator time and packets -/

/-- Modelled from the spec: the simulator's `Time`, a count of simulated-clock ticks.
The class itself belongs to the simulator library; it is taken as an integer tick
count on which `-` is integer subtraction. -/
abbrev Time := Int

/-- Tick count as a time: `TimeStep`. -/
def TimeStep (ts : Nat) : Time := (ts : Int)

/-- Accessor `StatsHeader::GetTs`. -/
def StatsHeader.GetTs (h : StatsHeader) : Time := TimeStep h.m_ts

/-- Value of `t.GetDouble () / 1000.0` (microseconds for nanosecond ticks). -/
def Time.micro (t : Time) : ℚ := (t : ℚ) / 1000

/-- Value of `t.GetSeconds ()` for nanosecond ticks. -/
def Time.GetSeconds (t : Time) : ℚ := (t : ℚ) / 1000000000

/-- A packet as this code sees it: the bytes its buffer holds. -/
structure Packet where
  m_buffer : Buffer

/-- Size of the packet in bytes, a `uint32_t`: `Packet::GetSize`. -/
def Packet.GetSize (p : Packet) : Nat := p.m_buffer.data.length % 2 ^ 32

/-- Header found at the start of the packet: `Packet::PeekHeader`, which runs
`Deserialize` on the packet's buffer. -/
def Packet.PeekHeader (p : Packet) : StatsHeader := (StatsHeader.Deserialize p.m_buffer).1

/-! ## Report files: cells, lines, formulas -/

/-- Spreadsheet functions the report applies to a range of cells. -/
inductive RangeFn where
  | SUM
  | SUMSQ
  | MEDIAN
  | MAX
deriving DecidableEq, Repr

/-- Formula syntax as the code writes it. A column is the character code that is
sent to the stream, rows are the numbers sent to the stream; `paren` is a pair of
brackets written around a sub-formula. -/
inductive Expr where
  | num (n : Int)
  | ref (col : Nat) (row : Int)
  | range (f : RangeFn) (col : Nat) (r1 r2 : Nat)
  | paren (e : Expr)
  | add (a b : Expr)
  | sub (a b : Expr)
  | mul (a b : Expr)
  | div (a b : Expr)
  | sq (a : Expr)
  | sqrt (a : Expr)
deriving DecidableEq, Repr

/-- Name of a range function in formula text. -/
def RangeFn.render : RangeFn → String
  | RangeFn.SUM => "SUM"
  | RangeFn.SUMSQ => "SUMSQ"
  | RangeFn.MEDIAN => "MEDIAN"
  | RangeFn.MAX => "MAX"

/-- Character with the given code, as text. -/
def colText (c : Nat) : String := String.singleton (Char.ofNat c)

/-- Text of a formula, without the leading `=`. -/
def Expr.render : Expr → String
  | Expr.num n => toString n
  | Expr.ref c r => colText c ++ toString r
  | Expr.range f c r1 r2 =>
      f.render ++ "(" ++ colText c ++ toString r1 ++ ":" ++ colText c ++ toString r2 ++ ")"
  | Expr.paren e => "(" ++ e.render ++ ")"
  | Expr.add a b => a.render ++ "+" ++ b.render
  | Expr.sub a b => a.render ++ "-" ++ b.render
  | Expr.mul a b => a.render ++ "*" ++ b.render
  | Expr.div a b => a.render ++ "/" ++ b.render
  | Expr.sq a => a.render ++ "^2"
  | Expr.sqrt a => "SQRT(" ++ a.render ++ ")"

/-- One comma-separated cell of a report line. `int` is an integer sent to the
stream, `real` a `double` sent to the stream, `formula` a text starting with `=`. -/
inductive Cell where
  | empty
  | text (s : String)
  | int (n : Int)
  | real (q : ℚ)
  | formula (e : Expr)
deriving DecidableEq, Repr

/-- Whether a cell is the given text. -/
def Cell.isText (label : String) : Cell → Bool
  | Cell.text s => s == label
  | _ => false

/-- A report line: its cells from left to right. A blank line has no cell. -/
abbrev Line := List Cell

/-- A report file read as a sheet: line `k` (from 1) is spreadsheet row `k`. -/
abbrev Sheet := List Line

/-- File contents by file name; a file never written is empty. -/
abbrev FileSystem := String → Sheet

/-- Effect of `std::ofstream out (name)` followed by writing `ls`: the file is
replaced. -/
def FileSystem.create (fs : FileSystem) (name : String) (ls : List Line) : FileSystem :=
  fun n => if n = name then ls else fs n

/-- Effect of `std::ofstream out (name, std::ios::app)` followed by writing `ls`. -/
def FileSystem.append (fs : FileSystem) (name : String) (ls : List Line) : FileSystem :=
  fun n => if n = name then fs n ++ ls else fs n

/-! ## Value of a formula over a sheet -/

/-- Number held by a cell, if it holds one. -/
def Cell.value? : Cell → Option ℚ
  | Cell.int n => some (n : ℚ)
  | Cell.real q => some q
  | _ => none

/-- Cell at column number `col` and row `row`, both counted from 1. -/
def Sheet.cell (s : Sheet) (col row : Nat) : Cell :=
  match s.get? (row - 1) with
  | none => Cell.empty
  | some l => if col = 0 ∨ row = 0 then Cell.empty else l.getD (col - 1) Cell.empty

/-- Column number named by a one-letter column name `A` .. `Z`. -/
def columnNumber (c : Nat) : Option Nat :=
  if 65 ≤ c ∧ c ≤ 90 then some (c - 64) else none

/-- Numbers found in column `col` between rows `r1` and `r2` (in either order), top
to bottom; cells that hold no number are skipped, as spreadsheet functions do. -/
def Sheet.rangeValues (s : Sheet) (col r1 r2 : Nat) : List ℚ :=
  ((List.range (max r1 r2 + 1 - min r1 r2)).map (fun k => min r1 r2 + k)).filterMap
    (fun r => (s.cell col r).value?)

/-- Median of a list of numbers; none for the empty list. -/
def median? (vs : List ℚ) : Option ℚ :=
  let sorted := vs.insertionSort (fun a b => a ≤ b)
  let n := sorted.length
  if n = 0 then none
  else if n % 2 = 1 then sorted.get? (n / 2)
  else
    match sorted.get? (n / 2 - 1), sorted.get? (n / 2) with
    | some a, some b => some ((a + b) / 2)
    | _, _ => none

/-- Value of a range function over the numbers of a range. -/
def RangeFn.apply : RangeFn → List ℚ → Option ℚ
  | RangeFn.SUM, vs => some vs.sum
  | RangeFn.SUMSQ, vs => some (vs.map (fun v => v * v)).sum
  | RangeFn.MEDIAN, vs => median? vs
  | RangeFn.MAX, [] => some 0
  | RangeFn.MAX, v :: vs => some (vs.foldl max v)

/-- Exact square root of a rational, when it is rational. -/
def ratSqrt? (q : ℚ) : Option ℚ :=
  if 0 ≤ q ∧ Nat.sqrt q.num.natAbs * Nat.sqrt q.num.natAbs = q.num.natAbs
      ∧ Nat.sqrt q.den * Nat.sqrt q.den = q.den then
    some ((Nat.sqrt q.num.natAbs : ℚ) / (Nat.sqrt q.den : ℚ))
  else none

/-- Value of a formula over a sheet in exact rational arithmetic; none stands for a
spreadsheet error (division by zero, a column name that is not a letter, a referenced
cell without a number) or for a root that is not rational. -/
def Expr.eval (s : Sheet) : Expr → Option ℚ
  | Expr.num n => some (n : ℚ)
  | Expr.ref c r =>
      match columnNumber c with
      | none => none
      | some col => (s.cell col r.toNat).value?
  | Expr.range f c r1 r2 =>
      match columnNumber c with
      | none => none
      | some col => f.apply (s.rangeValues col r1 r2)
  | Expr.paren e => e.eval s
  | Expr.add a b =>
      match a.eval s, b.eval s with
      | some x, some y => some (x + y)
      | _, _ => none
  | Expr.sub a b =>
      match a.eval s, b.eval s with
      | some x, some y => some (x - y)
      | _, _ => none
  | Expr.mul a b =>
      match a.eval s, b.eval s with
      | some x, some y => some (x * y)
      | _, _ => none
  | Expr.div a b =>
      match a.eval s, b.eval s with
      | some x, some y => if y = 0 then none else some (x / y)
      | _, _ => none
  | Expr.sq a =>
      match a.eval s with
      | some x => some (x * x)
      | none => none
  | Expr.sqrt a =>
      match a.eval s with
      | some x => ratSqrt? x
      | none => none

/-- Formula under the outermost `SQRT`, if the formula is a square root. -/
def Expr.radicand? : Expr → Option Expr
  | Expr.sqrt a => some a
  | _ => none

/-! ## `ScalarData`, `VectorData`, `NetFlowId` -/

/-- Running scalars of one flow. `totalRxPackets` and `totalTxPackets` are
`uint32_t`, `totalRxBytes` is `uint64_t`, `packetSizeInBytes` is `uint16_t`; the
constructor zeroes the three totals and the times start at zero. The constructor
leaves `packetSizeInBytes` unset; it is assigned by the first arrival before any use
and starts at 0 here. -/
structure ScalarData where
  totalRxPackets : Nat := 0
  totalTxPackets : Nat := 0
  totalRxBytes : Nat := 0
  packetSizeInBytes : Nat := 0
  firstPacketSent : Time := 0
  lastPacketSent : Time := 0
  firstPacketReceived : Time := 0
  lastPacketReceived : Time := 0
  firstDelay : Time := 0
  lastDelay : Time := 0
deriving DecidableEq, Repr

/-- Value of an `int` after an arithmetic result `z`: `z` itself when it lies in the
range of `int`. Outside that range C++ leaves the result of signed arithmetic
undefined; the embedding then takes the two's-complement value. -/
def wrapInt (z : Int) : Int := (z + 2 ^ 31) % 2 ^ 32 - 2 ^ 31

/-- State of a `VectorData<Time>`: its column title, the `int` count of rows written
to file and the samples kept in memory. -/
structure VectorData where
  m_name : String
  m_numValuesWrittenToFile : Int
  m_vd : List (Time × Time)
deriving DecidableEq, Repr

/-- Append to the in-memory samples: `VectorData::AddValueToVector`. -/
def VectorData.AddValueToVector (v : VectorData) (time t : Time) : VectorData :=
  { v with m_vd := v.m_vd ++ [(time, t)] }

/-- Row written by `VectorData::WriteValueToFile`: flow index, time and sequence
number, then one empty cell per step of the `for` loop in single-file mode, then the
value. -/
def VectorData.sampleRow (time t : Time) (singleFile : Bool) (flowIndex seqNo : Nat) : Line :=
  [Cell.int flowIndex, Cell.real (Time.micro time), Cell.int seqNo]
    ++ (if singleFile then List.replicate flowIndex Cell.empty else [])
    ++ [Cell.real (Time.micro t)]

/-- Append one row to the file and count it: `VectorData::WriteValueToFile`. The
count is the `int` member `m_numValuesWrittenToFile`, incremented without a check. -/
def VectorData.WriteValueToFile (v : VectorData) (fs : FileSystem) (fileName : String)
    (time t : Time) (singleFile : Bool) (flowIndex seqNo : Nat) : VectorData × FileSystem :=
  ({ v with m_numValuesWrittenToFile := wrapInt (v.m_numValuesWrittenToFile + 1) },
   fs.append fileName [VectorData.sampleRow time t singleFile flowIndex seqNo])

/-- Start the file with the title row: `VectorData::WriteFileHeader`. -/
def VectorData.WriteFileHeader (v : VectorData) (fs : FileSystem) (fileName : String) :
    FileSystem :=
  fs.create fileName
    [[Cell.text "Flow Index", Cell.text "Time [us]", Cell.text "Sequence Id", Cell.text v.m_name]]

/-- Count of rows written to file: `VectorData::GetNValuesWrittenToFile`. -/
def VectorData.GetNValuesWrittenToFile (v : VectorData) : Int := v.m_numValuesWrittenToFile

/-- Flow key with its index; the four ids are `uint32_t`, `index` is `uint16_t`. -/
structure NetFlowId where
  sourceNodeId : Nat
  sourceAppId : Nat
  sinkNodeId : Nat
  sinkAppId : Nat
  index : Nat
deriving DecidableEq, Repr

/-- Comparison `operator== (NetFlowId, NetFlowId)`: the four ids, not the index. -/
def NetFlowId.same (f1 f2 : NetFlowId) : Bool :=
  (f1.sourceNodeId == f2.sourceNodeId) && (f1.sourceAppId == f2.sourceAppId)
    && (f1.sinkNodeId == f2.sinkNodeId) && (f1.sinkAppId == f2.sinkAppId)

/-- The four ids that make up the identity of a flow. -/
def NetFlowId.key (f : NetFlowId) : Nat × Nat × Nat × Nat :=
  (f.sourceNodeId, f.sourceAppId, f.sinkNodeId, f.sinkAppId)

/-! ## `FlowData`: the accumulator of one flow -/

/-- Members of `FlowData`. -/
structure FlowData where
  m_flowId : NetFlowId
  m_fileName : String
  m_fileNamePrefix : String
  m_scalarData : ScalarData
  m_delayVector : VectorData
  m_fileWriteEnable : Bool
  m_memoryWriteEnable : Bool
deriving DecidableEq, Repr

/-- File name built from the flow ids when every flow has a file of its own. -/
def FlowData.autoName (fileNamePrefix : String) (fid : NetFlowId) : String :=
  fileNamePrefix ++ "-Flow_" ++ toString fid.index
    ++ "-SourceNode_" ++ toString fid.sourceNodeId
    ++ "-SourceApp_" ++ toString fid.sourceAppId
    ++ "-SinkNode_" ++ toString fid.sinkNodeId
    ++ "-SinkApp_" ++ toString fid.sinkAppId ++ ".csv"

/-- Constructor `FlowData::FlowData (fid, fn, singleFile)`: the new accumulator and
the files after the title row has been written where the constructor writes it. -/
def FlowData.construct (fs : FileSystem) (fid : NetFlowId) (fn : String) (singleFile : Bool) :
    FlowData × FileSystem :=
  let m_fileNamePrefix := "Stats"
  let m_delayVector : VectorData :=
    { m_name := "Delay [us]", m_numValuesWrittenToFile := 0, m_vd := [] }
  let m_fileWriteEnable := true
  let m_fileName :=
    if m_fileWriteEnable && (fn == "noname" && !singleFile) then
      FlowData.autoName m_fileNamePrefix fid
    else fn
  let fs1 :=
    if m_fileWriteEnable then
      if fid.index = 0 then m_delayVector.WriteFileHeader fs m_fileName
      else if !singleFile then m_delayVector.WriteFileHeader fs m_fileName
      else fs
    else fs
  ({ m_flowId := fid, m_fileName := m_fileName, m_fileNamePrefix := m_fileNamePrefix,
     m_scalarData := {}, m_delayVector := m_delayVector,
     m_fileWriteEnable := m_fileWriteEnable, m_memoryWriteEnable := false }, fs1)

/-- Scalars after one arrival: the assignments of `FlowData::PacketReceived` in the
order of the source, with the wrap-around of each machine type. -/
def FlowData.updateScalars (sd : ScalarData) (now : Time) (packet : Packet) : ScalarData :=
  let statsHeader := packet.PeekHeader
  let totalRxPackets := (sd.totalRxPackets + 1) % 2 ^ 32
  let packetSizeInBytes := packet.GetSize % 2 ^ 16
  let totalRxBytes := (sd.totalRxBytes + packetSizeInBytes) % 2 ^ 64
  let currentSequenceNumber := statsHeader.GetSeq
  let totalTxPackets :=
    if (currentSequenceNumber + 1) % 2 ^ 32 > sd.totalTxPackets then
      (currentSequenceNumber + 1) % 2 ^ 32
    else sd.totalTxPackets
  let lastPacketReceived := now
  let lastPacketSent := statsHeader.GetTs
  let lastDelay := lastPacketReceived - lastPacketSent
  let first := totalRxPackets == 1
  { totalRxPackets := totalRxPackets
    totalTxPackets := totalTxPackets
    totalRxBytes := totalRxBytes
    packetSizeInBytes := packetSizeInBytes
    firstPacketSent := if first then lastPacketSent else sd.firstPacketSent
    lastPacketSent := lastPacketSent
    firstPacketReceived := if first then lastPacketReceived else sd.firstPacketReceived
    lastPacketReceived := lastPacketReceived
    firstDelay := if first then lastDelay else sd.firstDelay
    lastDelay := lastDelay }

/-- Member `FlowData::PacketReceived (packet, singleFile)` at simulated time `now`:
the accumulator and the files afterwards. -/
def FlowData.PacketReceived (fd : FlowData) (fs : FileSystem) (now : Time) (packet : Packet)
    (singleFile : Bool) : FlowData × FileSystem :=
  let sd := FlowData.updateScalars fd.m_scalarData now packet
  let currentSequenceNumber := packet.PeekHeader.GetSeq
  let written :=
    if fd.m_fileWriteEnable then
      fd.m_delayVector.WriteValueToFile fs fd.m_fileName sd.lastPacketReceived sd.lastDelay
        singleFile fd.m_flowId.index currentSequenceNumber
    else (fd.m_delayVector, fs)
  let stored :=
    if fd.m_memoryWriteEnable then
      written.1.AddValueToVector sd.lastPacketReceived sd.lastDelay
    else written.1
  ({ fd with m_scalarData := sd, m_delayVector := stored }, written.2)

/-- Row number `row` used in the delay formulas of `FlowData::Finalize`. -/
def FlowData.formulaRow (fd : FlowData) (singleFile : Bool) (allRxPackets : Nat) : Nat :=
  if singleFile then (allRxPackets + 1) % 2 ^ 32
  else (fd.m_scalarData.totalRxPackets + 1) % 2 ^ 32

/-- Column character `column` used in the delay formulas of `FlowData::Finalize`:
`'D' + (char) index`, kept as the character code. -/
def FlowData.formulaColumn (fd : FlowData) (singleFile : Bool) : Nat :=
  if singleFile then (68 + fd.m_flowId.index % 2 ^ 8) % 2 ^ 8 else 68

/-- Formula `=SUM(range)/n` of the average-delay line. -/
def FlowData.meanFormula (column row n : Nat) : Expr :=
  Expr.div (Expr.range RangeFn.SUM column 2 row) (Expr.num n)

/-- Formula `=MEDIAN(range)`. -/
def FlowData.medianFormula (column row : Nat) : Expr :=
  Expr.range RangeFn.MEDIAN column 2 row

/-- Formula `=MAX(range)`. -/
def FlowData.maxFormula (column row : Nat) : Expr :=
  Expr.range RangeFn.MAX column 2 row

/-- Formula `=SQRT((SUMSQ(range)-(SUM(range)/n)^2)/m)` of the jitter line, where `m`
is the `uint32_t` value of `totalRxPackets - 1`. -/
def FlowData.jitterFormula (column row n : Nat) : Expr :=
  Expr.sqrt
    (Expr.div
      (Expr.paren
        (Expr.sub (Expr.range RangeFn.SUMSQ column 2 row)
          (Expr.sq (Expr.paren (Expr.div (Expr.range RangeFn.SUM column 2 row) (Expr.num n))))))
      (Expr.num (((n : Int) - 1) % 2 ^ 32)))

/-- Lines that `FlowData::Finalize` sends to the stream, in order. The three
throughput lines are written only under their `if`. -/
def FlowData.finalizeBlock (fd : FlowData) (singleFile : Bool) (allRxPackets : Nat) :
    List Line :=
  let sd := fd.m_scalarData
  let row := fd.formulaRow singleFile allRxPackets
  let column := fd.formulaColumn singleFile
  let diffRx : Time := sd.lastPacketReceived - sd.firstPacketReceived
  let diffTx : Time := sd.lastPacketSent - sd.firstPacketSent
  let txBytes : Nat := (sd.totalTxPackets * sd.packetSizeInBytes) % 2 ^ 32
  [ [],
    [Cell.text "Flow Index", Cell.text "Source Node", Cell.text "Source App",
      Cell.text "Sink Node", Cell.text "Sink App"],
    [Cell.int fd.m_flowId.index, Cell.int fd.m_flowId.sourceNodeId,
      Cell.int fd.m_flowId.sourceAppId, Cell.int fd.m_flowId.sinkNodeId,
      Cell.int fd.m_flowId.sinkAppId],
    [Cell.text "Number of packets for flow", Cell.int sd.totalRxPackets,
      Cell.int fd.m_delayVector.GetNValuesWrittenToFile],
    [],
    [Cell.text "E2E average delay [us]",
      Cell.formula (FlowData.meanFormula column row sd.totalRxPackets)],
    [Cell.text "E2E median delay [us]", Cell.formula (FlowData.medianFormula column row)],
    [Cell.text "E2E max delay [us]", Cell.formula (FlowData.maxFormula column row)],
    [Cell.text "Jitter [us]",
      Cell.formula (FlowData.jitterFormula column row sd.totalRxPackets)],
    [],
    [Cell.text "Rx", Cell.text "First packet [us]:", Cell.real sd.firstPacketReceived.micro],
    [Cell.text "Rx", Cell.text "Last packet [us]:", Cell.real sd.lastPacketReceived.micro],
    [Cell.text "Rx", Cell.text "Duration of sending packets [s]:", Cell.real diffRx.GetSeconds],
    [Cell.text "Rx", Cell.text "Count of packets:", Cell.int sd.totalRxPackets],
    [Cell.text "Rx", Cell.text "Bytes:", Cell.int sd.totalRxBytes] ]
  ++ (if diffRx.GetSeconds ≠ 0 then
        [[Cell.text "Rx", Cell.text "Throughput [bps]:",
          Cell.real ((sd.totalRxBytes : ℚ) * 8 / diffRx.GetSeconds)]]
      else [])
  ++ [ [],
    [Cell.text "Tx", Cell.text "First packet [us]:", Cell.real sd.firstPacketSent.micro],
    [Cell.text "Tx", Cell.text "Last packet [us]:", Cell.real sd.lastPacketSent.micro],
    [Cell.text "Tx", Cell.text "Duration of sending packets [s]:", Cell.real diffTx.GetSeconds],
    [Cell.text "Tx", Cell.text "Count of packets:", Cell.int sd.totalTxPackets],
    [Cell.text "Tx", Cell.text "Bytes:", Cell.int txBytes] ]
  ++ (if diffTx.GetSeconds ≠ 0 then
        [[Cell.text "Tx", Cell.text "Throughput [bps]:",
          Cell.real ((txBytes : ℚ) * 8 / diffTx.GetSeconds)]]
      else [])
  ++ [ [],
    [Cell.empty, Cell.text "Lost packets:",
      Cell.int (((sd.totalTxPackets : Int) - (sd.totalRxPackets : Int)) % 2 ^ 32)] ]
  ++ (if (sd.lastPacketReceived - sd.firstPacketSent : Time).GetSeconds ≠ 0 then
        [[Cell.empty, Cell.text "Real throughput [bps]:",
          Cell.real ((sd.totalRxBytes : ℚ) * 8
            / (sd.lastPacketReceived - sd.firstPacketSent : Time).GetSeconds)]]
      else [])

/-- Member `FlowData::Finalize (singleFile, allRxPackets)`: the files afterwards. -/
def FlowData.Finalize (fd : FlowData) (fs : FileSystem) (singleFile : Bool)
    (allRxPackets : Nat) : FileSystem :=
  if fd.m_fileWriteEnable then
    fs.append fd.m_fileName (fd.finalizeBlock singleFile allRxPackets)
  else fs

/-- Row stride `flowDataRaws` that `StatsFlows::Finalize` assumes for the block of
one flow. -/
def flowDataRaws : Nat := 26

/-! ## `StatsFlows`: the registry of flows -/

/-- Members of `StatsFlows`; `m_allRxPackets` is `uint32_t`. -/
structure StatsFlows where
  m_flowIds : List NetFlowId
  m_flowData : List FlowData
  m_fileName : String
  m_allRxPackets : Nat
  m_singleFile : Bool
deriving DecidableEq, Repr

/-- Constructor `StatsFlows::StatsFlows (fn)`: no flow yet, single-file mode exactly
when a file name other than `noname` is given. -/
def StatsFlows.construct (fn : String) : StatsFlows :=
  { m_flowIds := [], m_flowData := [], m_fileName := fn, m_allRxPackets := 0,
    m_singleFile := fn != "noname" }

/-- Ways in which a call can fail to produce a result in the embedding: the loop did
not leave within the steps granted, or a vector was subscripted out of range. -/
inductive Fault where
  | fuel
  | index
deriving DecidableEq, Repr

/-- Lookup loop of `StatsFlows::PacketReceived`,
`for (i = 0; i < m_flowIds.size (); i++) if (fid == m_flowIds[i]) break;`
run from the current value of the `uint16_t` counter `i` for at most `fuel` tests of
the loop condition; the result is the value of `i` after the loop. -/
def StatsFlows.findLoop (m_flowIds : List NetFlowId) (fid : NetFlowId) :
    Nat → Nat → Except Fault Nat
  | 0, _ => Except.error Fault.fuel
  | fuel + 1, i =>
    if h : i < m_flowIds.length then
      if fid.same (m_flowIds.get ⟨i, h⟩) then Except.ok i
      else StatsFlows.findLoop m_flowIds fid fuel ((i + 1) % 2 ^ 16)
    else Except.ok i

/-- One delivered packet: the arguments of `StatsFlows::PacketReceived` and the
simulated time at which it is called. -/
structure Arrival where
  now : Time
  packet : Packet
  sinkNodeId : Nat
  sinkAppId : Nat

/-- The four ids under which an arrival is looked up. -/
def Arrival.key (a : Arrival) : Nat × Nat × Nat × Nat :=
  (a.packet.PeekHeader.GetNodeId, a.packet.PeekHeader.GetApplicationId, a.sinkNodeId,
    a.sinkAppId)

/-- Outcome of `StatsFlows::PacketReceived`: the registry and the files afterwards,
and the value of `i` in the final call `m_flowData[i].PacketReceived`. -/
structure Delivered where
  flows : StatsFlows
  files : FileSystem
  i : Nat

/-- Member `StatsFlows::PacketReceived (packet, sinkNodeId, sinkAppId)`. -/
def StatsFlows.PacketReceived (fuel : Nat) (s : StatsFlows) (fs : FileSystem) (a : Arrival) :
    Except Fault Delivered :=
  let m_allRxPackets := (s.m_allRxPackets + 1) % 2 ^ 32
  let statsHeader := a.packet.PeekHeader
  let fid : NetFlowId :=
    { sourceNodeId := statsHeader.GetNodeId, sourceAppId := statsHeader.GetApplicationId,
      sinkNodeId := a.sinkNodeId, sinkAppId := a.sinkAppId, index := 0 }
  match StatsFlows.findLoop s.m_flowIds fid fuel 0 with
  | Except.error e => Except.error e
  | Except.ok i =>
    let registered : List NetFlowId × List FlowData × FileSystem :=
      if i = s.m_flowIds.length then
        let fid1 := { fid with index := i }
        let made := FlowData.construct fs fid1 s.m_fileName s.m_singleFile
        (s.m_flowIds ++ [fid1], s.m_flowData ++ [made.1], made.2)
      else (s.m_flowIds, s.m_flowData, fs)
    match registered.2.1.get? i with
    | none => Except.error Fault.index
    | some fd =>
      let got := fd.PacketReceived registered.2.2 a.now a.packet s.m_singleFile
      Except.ok
        { flows :=
            { s with m_flowIds := registered.1, m_flowData := registered.2.1.set i got.1,
                     m_allRxPackets := m_allRxPackets }
          files := got.2
          i := i }

/-- Where one arrival was delivered: the position `i` of the accumulator in
`m_flowData` and the flow index that accumulator carries. -/
structure Dispatch where
  pos : Nat
  flowIndex : Nat
deriving DecidableEq, Repr

/-- Flow index carried by the accumulator at position `i`. -/
def StatsFlows.indexAt (s : StatsFlows) (i : Nat) : Nat :=
  match s.m_flowData.get? i with
  | some fd => fd.m_flowId.index
  | none => 0

/-- A sequence of calls of `StatsFlows::PacketReceived`, each with the same number
of loop steps granted: the final registry and files, and where each arrival went. -/
def StatsFlows.run (fuel : Nat) (s : StatsFlows) (fs : FileSystem) :
    List Arrival → Except Fault (StatsFlows × FileSystem × List Dispatch)
  | [] => Except.ok (s, fs, [])
  | a :: rest =>
    match StatsFlows.PacketReceived fuel s fs a with
    | Except.error e => Except.error e
    | Except.ok d =>
      match StatsFlows.run fuel d.flows d.files rest with
      | Except.error e => Except.error e
      | Except.ok (s1, fs1, tr) =>
        Except.ok (s1, fs1, { pos := d.i, flowIndex := d.flows.indexAt d.i } :: tr)

/-- Arrival carrying the given header in a packet of exactly the header bytes. -/
def Arrival.ofHeader (now : Time) (h : StatsHeader) (sinkNodeId sinkAppId : Nat) : Arrival :=
  { now := now, packet := { m_buffer := { data := h.Serialize, past := fun _ => 0 } },
    sinkNodeId := sinkNodeId, sinkAppId := sinkAppId }

/-! ## Sample inputs -/

/-- Accumulator of a flow from node 0, application 0 to node 1, application 0 with
index 0 and a report file of its own, as the constructor leaves it. -/
def sampleFlow : FlowData :=
  (FlowData.construct (fun _ => []) ⟨0, 0, 1, 0, 0⟩ "noname" false).1

/-- Files after the constructor of `sampleFlow` has run on an empty file system. -/
def sampleFiles : FileSystem :=
  (FlowData.construct (fun _ => []) ⟨0, 0, 1, 0, 0⟩ "noname" false).2

/-- Packet of exactly the twenty header bytes with the given sequence number and
send timestamp, from node 0, application 0. -/
def samplePacket (seq ts : Nat) : Packet :=
  { m_buffer := { data := (StatsHeader.mk seq ts 0 0).Serialize, past := fun _ => 0 } }

/-- Packet of `n` zero bytes. -/
def zeroPacket (n : Nat) : Packet :=
  { m_buffer := { data := List.replicate n 0, past := fun _ => 0 } }

/-- Cell after the label `Lost packets:` in a block of report lines. -/
def lostPacketsWritten (block : List Line) : Option Cell :=
  match block.find? (fun l => Cell.isText "Lost packets:" (l.getD 1 Cell.empty)) with
  | some l => l.get? 2
  | none => none

/-- Accumulator and files after `sampleFlow` has received, at 10 us, one packet with
sequence number 0 sent at 5 us. -/
def sampleOnce : FlowData × FileSystem :=
  sampleFlow.PacketReceived sampleFiles 10000 (samplePacket 0 5000) false

/-- Accumulator and files after the packet with sequence number 0 has been delivered
a second time, at 20 us. -/
def sampleTwice : FlowData × FileSystem :=
  sampleOnce.1.PacketReceived sampleOnce.2 20000 (samplePacket 0 5000) false

/-- Accumulator and files after `sampleFlow` has received three packets with
sequence numbers 0, 1, 2 at 10, 20, 35 us, sent at 5, 12, 30 us. -/
def sampleThree : FlowData × FileSystem :=
  let one := sampleFlow.PacketReceived sampleFiles 10000 (samplePacket 0 5000) false
  let two := one.1.PacketReceived one.2 20000 (samplePacket 1 12000) false
  two.1.PacketReceived two.2 35000 (samplePacket 2 30000) false

/-- Report file of `sampleThree` once `FlowData::Finalize` has run. -/
def sampleThreeReport : Sheet :=
  (sampleThree.1.Finalize sampleThree.2 false 3) sampleThree.1.m_fileName

/-- The specification's radicand of the jitter, in its words
`(sumOfSquares - sum^2 / n) / (n - 1)`: the unbiased sample variance. -/
def specJitterRadicand (ds : List ℚ) : ℚ :=
  ((ds.map (fun d => d ^ 2)).sum - ds.sum ^ 2 / (ds.length : ℚ)) / ((ds.length : ℚ) - 1)

/-- Flow id under which `StatsFlows::PacketReceived` looks an arrival up: the local
`fid` before an index is assigned. -/
def Arrival.fid (a : Arrival) : NetFlowId :=
  { sourceNodeId := a.packet.PeekHeader.GetNodeId,
    sourceAppId := a.packet.PeekHeader.GetApplicationId,
    sinkNodeId := a.sinkNodeId, sinkAppId := a.sinkAppId, index := 0 }

/-- Shape of the registry in every state that arises from the empty registry: the
accumulators carry the keys of the key list in the same order, there are at most
`2 ^ 16` keys, no two keys have the same four ids, and the key at position `k` has
index `k`. -/
def StatsFlows.wellFormed (s : StatsFlows) : Prop :=
  s.m_flowData.map (fun fd => fd.m_flowId) = s.m_flowIds ∧
  s.m_flowIds.length ≤ 2 ^ 16 ∧
  (s.m_flowIds.map NetFlowId.key).Nodup ∧
  ∀ k id, s.m_flowIds.get? k = some id → id.index = k

/-- Arrivals of 65537 flows that differ in the sink node id, one packet each. -/
def manyFlows : List Arrival :=
  (List.range 65537).map (fun k => Arrival.ofHeader 0 (StatsHeader.mk 0 0 0 0) k 0)

/-- Three arrivals at sink node 1: two of the flow from node 0 with one of the flow
from node 2 in between. -/
def sampleArrivals : List Arrival :=
  [ Arrival.ofHeader 10000 (StatsHeader.mk 0 5000 0 0) 1 0,
    Arrival.ofHeader 20000 (StatsHeader.mk 0 12000 2 0) 1 0,
    Arrival.ofHeader 35000 (StatsHeader.mk 1 30000 0 0) 1 0 ]

/-! ## `StatsFlows::Finalize`: the aggregate block -/

/-- Value of an unsigned number converted to `int` (32 bits, two's complement). -/
def toInt32 (n : Nat) : Int :=
  if n % 2 ^ 32 < 2 ^ 31 then ((n % 2 ^ 32 : Nat) : Int)
  else ((n % 2 ^ 32 : Nat) : Int) - 2 ^ 32

/-- Local `lastRow` of `StatsFlows::Finalize`: `int lastRow = m_allRxPackets + 1`,
the sum being taken in `uint32_t` before the conversion. -/
def StatsFlows.lastRow (s : StatsFlows) : Int := toInt32 ((s.m_allRxPackets + 1) % 2 ^ 32)

/-- Local `nFlows` of `StatsFlows::Finalize`: `int nFlows = m_flowIds.size ()`. -/
def StatsFlows.nFlows (s : StatsFlows) : Int := toInt32 s.m_flowIds.length

/-- Row numbers streamed by a loop `for (int i=1; i<nFlows; i++)` of
`StatsFlows::Finalize` for the line with offset `k`: `lastRow+i*flowDataRaws+k` for
`i = 1 .. nFlows - 1`. The `int` sums are taken exactly. -/
def StatsFlows.laterRows (lastRow nFlows k : Int) : List Int :=
  (List.range (nFlows.toNat - 1)).map
    (fun (j : Nat) => lastRow + ((j : Int) + 1) * (flowDataRaws : Int) + k)

/-- All row numbers of the line with offset `k`: `lastRow+k`, which is streamed
before the loop, then the rows of the loop. -/
def StatsFlows.aggregateRows (lastRow nFlows k : Int) : List Int :=
  (lastRow + k) :: StatsFlows.laterRows lastRow nFlows k

/-- Formula text `init+Xr1+Xr2+...`: one reference to column `col` per row, appended
to `init` from left to right. -/
def addRefs (init : Expr) (col : Nat) (rows : List Int) : Expr :=
  rows.foldl (fun e r => Expr.add e (Expr.ref col r)) init

/-- Sum `Xr0+Xr1+...` over the rows of the line with offset `k`. -/
def StatsFlows.refSum (col : Nat) (lastRow nFlows k : Int) : Expr :=
  addRefs (Expr.ref col (lastRow + k)) col (StatsFlows.laterRows lastRow nFlows k)

/-- Formula `=(B..+B..)/1000/nFlows` of the four delay lines; column `B` is 66. -/
def StatsFlows.delayFormula (lastRow nFlows k : Int) : Expr :=
  Expr.div (Expr.div (Expr.paren (StatsFlows.refSum 66 lastRow nFlows k)) (Expr.num 1000))
    (Expr.num nFlows)

/-- Formula `=C..+C..` of the line of all Tx packets; column `C` is 67. -/
def StatsFlows.txFormula (lastRow nFlows : Int) : Expr :=
  StatsFlows.refSum 67 lastRow nFlows 21

/-- Formula `=C..+C..` of the line of all lost packets (the text kept in `oss`). -/
def StatsFlows.lostFormula (lastRow nFlows : Int) : Expr :=
  StatsFlows.refSum 67 lastRow nFlows 25

/-- Formula `=100*(C..+C..)/(N+C..+C..)` of the line of lost packets in per cent. -/
def StatsFlows.lostPercentFormula (lastRow nFlows : Int) (allRxPackets : Nat) : Expr :=
  Expr.div (Expr.mul (Expr.num 100) (Expr.paren (StatsFlows.lostFormula lastRow nFlows)))
    (Expr.paren (addRefs (Expr.num allRxPackets) 67 (StatsFlows.aggregateRows lastRow nFlows 25)))

/-- Formula `=(C..+C..)/1000/nFlows` of the real-throughput line. -/
def StatsFlows.throughputFormula (lastRow nFlows : Int) : Expr :=
  Expr.div (Expr.div (Expr.paren (StatsFlows.refSum 67 lastRow nFlows 26)) (Expr.num 1000))
    (Expr.num nFlows)

/-- Lines that `StatsFlows::Finalize` sends to the stream after the loop over the
accumulators. -/
def StatsFlows.aggregateBlock (s : StatsFlows) : List Line :=
  [ [],
    [Cell.text "AVERAGE RESULTS FOR ALL FLOWS"],
    [Cell.text "Average E2E Delay [ms]:",
      Cell.formula (StatsFlows.delayFormula s.lastRow s.nFlows 6)],
    [Cell.text "Median E2E Delay [ms]:",
      Cell.formula (StatsFlows.delayFormula s.lastRow s.nFlows 7)],
    [Cell.text "Max of E2E Delay [ms]:",
      Cell.formula (StatsFlows.delayFormula s.lastRow s.nFlows 8)],
    [Cell.text "Jitter of E2E Delay [ms]:",
      Cell.formula (StatsFlows.delayFormula s.lastRow s.nFlows 9)],
    [Cell.text "Number of all Tx packets:",
      Cell.formula (StatsFlows.txFormula s.lastRow s.nFlows)],
    [Cell.text "Number of all Rx packets:", Cell.int s.m_allRxPackets],
    [Cell.text "Number of all lost packets:",
      Cell.formula (StatsFlows.lostFormula s.lastRow s.nFlows)],
    [Cell.text "Lost packets [%]:",
      Cell.formula (StatsFlows.lostPercentFormula s.lastRow s.nFlows s.m_allRxPackets)],
    [Cell.text "Real troughput [kbps]:",
      Cell.formula (StatsFlows.throughputFormula s.lastRow s.nFlows)] ]

/-- First loop of `StatsFlows::Finalize`,
`for (uint16_t i = 0; i < m_flowData.size (); i++) m_flowData[i].Finalize (...)`,
run from the current value of `i` for at most `fuel` tests of the loop condition. -/
def StatsFlows.finalizeLoop (m_flowData : List FlowData) (singleFile : Bool)
    (allRxPackets : Nat) : Nat → Nat → FileSystem → Except Fault FileSystem
  | 0, _, _ => Except.error Fault.fuel
  | fuel + 1, i, fs =>
    if h : i < m_flowData.length then
      StatsFlows.finalizeLoop m_flowData singleFile allRxPackets fuel ((i + 1) % 2 ^ 16)
        ((m_flowData.get ⟨i, h⟩).Finalize fs singleFile allRxPackets)
    else Except.ok fs

/-- Member `StatsFlows::Finalize`: every accumulator is finalized in order, then the
aggregate block is appended to the file `m_fileName`. -/
def StatsFlows.Finalize (fuel : Nat) (s : StatsFlows) (fs : FileSystem) :
    Except Fault FileSystem :=
  match StatsFlows.finalizeLoop s.m_flowData s.m_singleFile s.m_allRxPackets fuel 0 fs with
  | Except.error e => Except.error e
  | Except.ok fs1 => Except.ok (fs1.append s.m_fileName s.aggregateBlock)

/-- Cell references of a formula, as column character and row number, in the order
in which they stand in the formula text. -/
def Expr.refs : Expr → List (Nat × Int)
  | Expr.num _ => []
  | Expr.ref c r => [(c, r)]
  | Expr.range _ _ _ _ => []
  | Expr.paren e => e.refs
  | Expr.add a b => a.refs ++ b.refs
  | Expr.sub a b => a.refs ++ b.refs
  | Expr.mul a b => a.refs ++ b.refs
  | Expr.div a b => a.refs ++ b.refs
  | Expr.sq a => a.refs
  | Expr.sqrt a => a.refs

/-- Registry states that arise from the empty registry of `StatsFlows (fn)` by calls
of `StatsFlows::PacketReceived` that return, together with the files at that
point. -/
def StatsFlows.reachable (fn : String) (s : StatsFlows) (fs : FileSystem) : Prop :=
  ∃ (fuel : Nat) (fs0 : FileSystem) (as : List Arrival) (tr : List Dispatch),
    StatsFlows.run fuel (StatsFlows.construct fn) fs0 as = Except.ok (s, fs, tr)

/-- Spreadsheet name of column number `n` (from 1): `A` .. `Z`, `AA`, `AB`, ...;
`fuel` bounds the number of letters. -/
def columnNameAux : Nat → Nat → String
  | 0, _ => ""
  | fuel + 1, n =>
    if n = 0 then "" else columnNameAux fuel ((n - 1) / 26) ++ colText (65 + (n - 1) % 26)

/-- Spreadsheet name of column number `n` (from 1). -/
def columnName (n : Nat) : String := columnNameAux n n

/-- Accumulator and files after a sequence of arrivals (time and packet), oldest
first, each handled by `FlowData::PacketReceived`. -/
def FlowData.receiveAll (fd : FlowData) (fs : FileSystem) (singleFile : Bool)
    (arrivals : List (Time × Packet)) : FlowData × FileSystem :=
  arrivals.foldl (fun st x => st.1.PacketReceived st.2 x.1 x.2 singleFile) (fd, fs)

/-- Scalars after a sequence of arrivals (time and packet), oldest first. -/
def FlowData.scalarsAfter (sd : ScalarData) (arrivals : List (Time × Packet)) : ScalarData :=
  arrivals.foldl (fun sd x => FlowData.updateScalars sd x.1 x.2) sd

/-- Accumulator of the flow with index `k` in a registry that writes all flows to
the one file `all.csv`, as the constructor leaves it. -/
def flowWithIndex (k : Nat) : FlowData :=
  (FlowData.construct (fun _ => []) ⟨0, 0, 1, 0, k⟩ "all.csv" true).1

/-- Line of a block whose first two cells are the given side (`Rx` or `Tx`) and the
label `Throughput [bps]:`. -/
def throughputLine (side : String) (block : List Line) : Option Line :=
  block.find? (fun l => Cell.isText side (l.getD 0 Cell.empty)
    && Cell.isText "Throughput [bps]:" (l.getD 1 Cell.empty))

/-- Line of a block whose second cell is the label `Real throughput [bps]:`. -/
def realThroughputLine (block : List Line) : Option Line :=
  block.find? (fun l => Cell.isText "Real throughput [bps]:" (l.getD 1 Cell.empty))

/-- An accumulator that has received `2 ^ 32 - 1` packets: `sampleOnce` with the
counter of received packets at the end of its range. -/
def wornFlow : FlowData :=
  { sampleOnce.1 with
    m_scalarData := { sampleOnce.1.m_scalarData with totalRxPackets := 4294967295 } }

/-- One arrival at 10 us followed by `2 ^ 32` arrivals at 20 us. -/
def wrapArrivals : List (Time × Packet) :=
  (10000, samplePacket 0 5000) :: List.replicate 4294967296 (20000, samplePacket 1 12000)

/-- Accumulator and files after `sampleFlow` has received one packet at the very
time at which it was sent (5 us): all three durations are zero. -/
def sampleInstant : FlowData × FileSystem :=
  sampleFlow.PacketReceived sampleFiles 5000 (samplePacket 0 5000) false

/-- Arrivals of 65536 flows that differ in the sink node id (0 to 65535), one packet
each. -/
def fullFlows : List Arrival :=
  (List.range 65536).map (fun k => Arrival.ofHeader 0 (StatsHeader.mk 0 0 0 0) k 0)

/-- An arrival of one more flow, with sink node id 65536. -/
def extraFlow : Arrival := Arrival.ofHeader 0 (StatsHeader.mk 0 0 0 0) 65536 0

/-- An arrival at sink node 1, application 0, whose packet has no bytes at all. -/
def emptyPacketArrival : Arrival :=
  { now := 10000, packet := zeroPacket 0, sinkNodeId := 1, sinkAppId := 0 }

/-- Files after `FlowData::Finalize` has run on each accumulator of a list in
order. -/
def finalizeAll (l : List FlowData) (singleFile : Bool) (allRxPackets : Nat)
    (fs : FileSystem) : FileSystem :=
  l.foldl (fun fs fd => fd.Finalize fs singleFile allRxPackets) fs

/-- A registry of one flow, written to the one file `all.csv`, whose counter of all
received packets is `2 ^ 32 - 1`. -/
def wornRegistry : StatsFlows :=
  { m_flowIds := [⟨0, 0, 1, 0, 0⟩],
    m_flowData := [{ flowWithIndex 0 with
      m_scalarData := { sampleThree.1.m_scalarData with totalRxPackets := 4294967295 } }],
    m_fileName := "all.csv", m_allRxPackets := 4294967295, m_singleFile := true }

/-- Title row that `VectorData::WriteFileHeader` writes for the delay vector. -/
def titleRow : Line :=
  [Cell.text "Flow Index", Cell.text "Time [us]", Cell.text "Sequence Id",
    Cell.text "Delay [us]"]

/-- State of a registry that writes all flows to the one file `fn`, together with
the files, after `c` arrivals: the registry is well-formed, every accumulator writes
to `fn`, the counter of all received packets is `c` modulo `2 ^ 32`, and once a flow
is registered the file is the title row followed by `c` sample rows. -/
def StatsFlows.singleFileInv (fn : String) (s : StatsFlows) (fs : FileSystem) (c : Nat) :
    Prop :=
  s.wellFormed ∧ s.m_singleFile = true ∧ s.m_fileName = fn ∧
  (∀ fd ∈ s.m_flowData, fd.m_fileName = fn ∧ fd.m_fileWriteEnable = true) ∧
  s.m_allRxPackets = c % 2 ^ 32 ∧
  (s.m_flowIds = [] → c = 0) ∧
  (s.m_flowIds ≠ [] → ∃ rows : List Line, fs fn = titleRow :: rows ∧ rows.length = c ∧
    ∀ r ∈ rows, ∃ (time t : Time) (k seqNo : Nat), r = VectorData.sampleRow time t true k seqNo)

/-- The `i`-th cell reference of the formula `f` names the last cell of `line`, and
`line` is the row of the sheet `R` with the referenced row number. -/
def refersTo (R : Sheet) (f : Expr) (i : Nat) (line : Line) : Prop :=
  ∃ (c : Nat) (r : Int), f.refs.get? i = some (c, r) ∧ 1 ≤ r ∧
    columnNumber c = some line.length ∧ R.get? (r.toNat - 1) = some line

/-- Arrivals of one flow at sink node 1: one packet received at 10 us (sent at 5 us),
then `n` packets received at 20 us (sent at 12 us). -/
def flowRun (n : Nat) : List Arrival :=
  Arrival.ofHeader 10000 (StatsHeader.mk 0 5000 0 0) 1 0
    :: List.replicate n (Arrival.ofHeader 20000 (StatsHeader.mk 1 12000 0 0) 1 0)

/-- A run of `2 ^ 32 - 1` arrivals of one flow. -/
def bigRun : List Arrival := flowRun 4294967294

/-! ## The text of a sample row, item by item -/

/-- One item sent to the output stream while a report line is written: a value, the
separator `","`, or `std::endl`. -/
inductive Item where
  | value (c : Cell)
  | comma
  | endl
deriving DecidableEq, Repr

/-- Loop `for (int i = 0; i < flowIndex; ++i) out << ",";` of
`VectorData::WriteValueToFile`, run from the current value of `i`: the items sent.
`flowIndex` is a `uint16_t`, so the `int` counter never leaves its range. -/
def VectorData.commaLoop (flowIndex : Nat) (i : Nat) : List Item :=
  if i < flowIndex then Item.comma :: VectorData.commaLoop flowIndex (i + 1) else []
termination_by flowIndex - i

/-- Items that `VectorData::WriteValueToFile` sends to the stream, in order: flow
index, time in microseconds and sequence number, each followed by a separator, the
separators of the loop in single-file mode, the value in microseconds and the end of
the line. -/
def VectorData.rowItems (time t : Time) (singleFile : Bool) (flowIndex seqNo : Nat) :
    List Item :=
  [Item.value (Cell.int flowIndex), Item.comma, Item.value (Cell.real (Time.micro time)),
    Item.comma, Item.value (Cell.int seqNo), Item.comma]
    ++ (if singleFile then VectorData.commaLoop flowIndex 0 else [])
    ++ [Item.value (Cell.real (Time.micro t)), Item.endl]

/-- Cells of the first line of a stream of items as a spreadsheet reads it, `cur`
being what the cell under way holds so far: a separator ends a cell and starts an
empty one, the end of the line ends the last cell. -/
def lineCells : List Item → Cell → Line
  | [], cur => [cur]
  | Item.endl :: _, cur => [cur]
  | Item.comma :: rest, cur => cur :: lineCells rest Cell.empty
  | Item.value c :: rest, _ => lineCells rest c

/-- Cells of a line that is not blank, read from the items sent to the stream. -/
def rowCells (items : List Item) : Line := lineCells items Cell.empty

/-- The lookup loop of `StatsFlows::PacketReceived` with a count of the comparisons
`fid == m_flowIds[i]` it has made: the result is the value of `i` after the loop
and the count, which starts at `c`. -/
def StatsFlows.findLoopCount (m_flowIds : List NetFlowId) (fid : NetFlowId) :
    Nat → Nat → Nat → Except Fault (Nat × Nat)
  | 0, _, _ => Except.error Fault.fuel
  | fuel + 1, i, c =>
    if h : i < m_flowIds.length then
      if fid.same (m_flowIds.get ⟨i, h⟩) then Except.ok (i, c + 1)
      else StatsFlows.findLoopCount m_flowIds fid fuel ((i + 1) % 2 ^ 16) (c + 1)
    else Except.ok (i, c)

/-- Delay of an arrival as `FlowData::PacketReceived` computes it: the time of the
call minus the send timestamp of the header. -/
def Arrival.delay (a : Arrival) : Time := a.now - a.packet.PeekHeader.GetTs

/-- Row that an arrival contributes to the one report file when it is delivered to
the accumulator of the flow with index `k`. -/
def Arrival.row (a : Arrival) (k : Nat) : Line :=
  VectorData.sampleRow a.now a.delay true k a.packet.PeekHeader.GetSeq

/-- The cells of column number `col` (from 1) in the given rows that are not empty,
top to bottom. -/
def columnCells (rows : List Line) (col : Nat) : List Cell :=
  (rows.map (fun r => r.getD (col - 1) Cell.empty)).filter (fun c => decide (c ≠ Cell.empty))

/-- Delays of the arrivals with the given four ids, in the order of arrival. -/
def flowDelays (as : List Arrival) (key : Nat × Nat × Nat × Nat) : List Time :=
  (as.filter (fun a => decide (a.key = key))).map Arrival.delay

/-- A later arrival of the second flow of `sampleArrivals` (from node 2 to node 1),
received at 50 us and sent at 42 us. -/
def laterArrival : Arrival := Arrival.ofHeader 50000 (StatsHeader.mk 1 42000 2 0) 1 0

/-- Four arrivals at sink node 1 of two flows in turn: the flow from node 0 (received
at 10 and 20 us, sent at 5 and 12 us) and the flow from node 2 (received at 12 and
35 us, sent at 6 and 30 us). -/
def twoFlowRun : List Arrival :=
  [ Arrival.ofHeader 10000 (StatsHeader.mk 0 5000 0 0) 1 0,
    Arrival.ofHeader 12000 (StatsHeader.mk 0 6000 2 0) 1 0,
    Arrival.ofHeader 20000 (StatsHeader.mk 1 12000 0 0) 1 0,
    Arrival.ofHeader 35000 (StatsHeader.mk 1 30000 2 0) 1 0 ]

end ns3

namespace ns3

/-! ## Header codec -/

/-- Reading back what `Serialize` wrote returns the header, whatever lies past the
twenty bytes. -/
theorem deserialize_serialize (h : StatsHeader) (past : Nat → Nat) (hv : h.valid) :
    (StatsHeader.Deserialize ⟨h.Serialize, past⟩).1 = h := by
  obtain ⟨h1, h2, h3, h4⟩ := hv
  cases h with
  | mk s t n a =>
    simp only at h1 h2 h3 h4
    simp only [StatsHeader.Deserialize, StatsHeader.Serialize, WriteHtonU32, WriteHtonU64,
      Buffer.ReadNtohU32, Buffer.ReadNtohU64, Buffer.ReadU8, List.cons_append,
      List.nil_append, List.getD_cons_succ, List.getD_cons_zero, Nat.reduceAdd,
      Nat.mod_mod, StatsHeader.mk.injEq]
    refine ⟨?_, ?_, ?_, ?_⟩ <;> omega

/-- C1: decoding the bytes written by `Serialize` gives back the same four fields,
for every header whose fields fit their machine types. -/
theorem C1_deserialize_serialize (h : StatsHeader) (past : Nat → Nat) (hv : h.valid) :
    (StatsHeader.Deserialize ⟨h.Serialize, past⟩).1 = h ∧
    StatsHeader.decode ⟨h.Serialize, past⟩ = Except.ok h := by
  have e := deserialize_serialize h past hv
  exact ⟨e, by simp [StatsHeader.decode, e]⟩

theorem C1_deserialize_serialize_witness :
    (StatsHeader.mk 7 123456789012 3 1).valid ∧
    (StatsHeader.Deserialize ⟨(StatsHeader.mk 7 123456789012 3 1).Serialize, fun _ => 0⟩).1
      = StatsHeader.mk 7 123456789012 3 1 :=
  ⟨by decide, (C1_deserialize_serialize _ _ (by decide)).1⟩

/-- C2: `Serialize` writes exactly 20 bytes, the size `GetSerializedSize` reports;
byte `i` of each field is its base-256 digit of weight `256 ^ (width - 1 - i)`, so
the most significant byte comes first: sequence number in bytes 0-3, send timestamp
in bytes 4-11, source node id in bytes 12-15, source application id in bytes 16-19. -/
theorem C2_serialize_layout (h : StatsHeader) :
    h.GetSerializedSize = 20 ∧ h.Serialize.length = 20 ∧
    (∀ i : Fin 4, h.Serialize.get? i.val = some (h.m_seq / 256 ^ (3 - i.val) % 256)) ∧
    (∀ i : Fin 8, h.Serialize.get? (4 + i.val) = some (h.m_ts / 256 ^ (7 - i.val) % 256)) ∧
    (∀ i : Fin 4, h.Serialize.get? (12 + i.val) = some (h.m_nodeId / 256 ^ (3 - i.val) % 256)) ∧
    (∀ i : Fin 4, h.Serialize.get? (16 + i.val) = some (h.m_appId / 256 ^ (3 - i.val) % 256)) := by
  refine ⟨rfl, rfl, ?_, ?_, ?_, ?_⟩ <;> intro i <;> fin_cases i <;>
    simp [StatsHeader.Serialize, WriteHtonU32, WriteHtonU64]

/-- C3 (as stated, refuted): the empty buffer has fewer than 20 bytes available, yet
decoding it does not fail with `MalformedHeaderError`; it returns a record. -/
theorem C3_short_buffer_not_rejected :
    (Buffer.mk [] (fun _ => 0)).data.length < 20 ∧
    StatsHeader.decode (Buffer.mk [] (fun _ => 0))
      ≠ Except.error DecodeError.MalformedHeaderError ∧
    StatsHeader.decode (Buffer.mk [] (fun _ => 0)) = Except.ok (StatsHeader.mk 0 0 0 0) := by
  refine ⟨by decide, by simp [StatsHeader.decode], ?_⟩
  simp [StatsHeader.decode, StatsHeader.Deserialize, Buffer.ReadNtohU32, Buffer.ReadNtohU64,
    Buffer.ReadU8]

/-- C3 (amended): `Deserialize` has no failure outcome. For every buffer, short ones
included, decoding returns a record and the size 20; when exactly 20 bytes are
available the record depends on those bytes alone. -/
theorem C3_deserialize_never_fails (b : Buffer) :
    (∃ h, StatsHeader.decode b = Except.ok h) ∧ (StatsHeader.Deserialize b).2 = 20 ∧
    (b.data.length = 20 →
      ∀ past, StatsHeader.decode ⟨b.data, past⟩ = StatsHeader.decode b) := by
  refine ⟨⟨_, rfl⟩, rfl, ?_⟩
  intro hlen past
  have hget : ∀ k, k < 20 → (Buffer.mk b.data past).ReadU8 k = b.ReadU8 k := by
    intro k hk
    have hk2 : k < b.data.length := by omega
    simp [Buffer.ReadU8, List.getElem?_eq_getElem hk2]
  simp only [StatsHeader.decode, StatsHeader.Deserialize, Buffer.ReadNtohU32,
    Buffer.ReadNtohU64]
  simp only [hget 0 (by omega), hget 1 (by omega), hget 2 (by omega), hget 3 (by omega),
    hget 4 (by omega), hget 5 (by omega), hget 6 (by omega), hget 7 (by omega),
    hget 8 (by omega), hget 9 (by omega), hget 10 (by omega), hget 11 (by omega),
    hget 12 (by omega), hget 13 (by omega), hget 14 (by omega), hget 15 (by omega),
    hget 16 (by omega), hget 17 (by omega), hget 18 (by omega), hget 19 (by omega),
    Nat.reduceAdd, Nat.zero_add]

theorem C3_deserialize_never_fails_witness :
    (StatsHeader.mk 1 2 3 4).Serialize.length = 20 ∧
    StatsHeader.decode ⟨(StatsHeader.mk 1 2 3 4).Serialize, fun _ => 255⟩
      = StatsHeader.decode ⟨(StatsHeader.mk 1 2 3 4).Serialize, fun _ => 0⟩ :=
  ⟨rfl, (C3_deserialize_never_fails ⟨(StatsHeader.mk 1 2 3 4).Serialize, fun _ => 0⟩).2.2 rfl
    (fun _ => 255)⟩

/-! ## Arrival update of one accumulator -/

/-- Header of a sample packet, for field values that fit their machine types. -/
theorem peekHeader_samplePacket (seq ts : Nat) (h1 : seq < 2 ^ 32) (h2 : ts < 2 ^ 64) :
    (samplePacket seq ts).PeekHeader = StatsHeader.mk seq ts 0 0 :=
  deserialize_serialize (StatsHeader.mk seq ts 0 0) (fun _ => 0)
    ⟨h1, h2, by norm_num, by norm_num⟩

/-- The scalars after `FlowData::PacketReceived` are those of `updateScalars`. -/
theorem packetReceived_scalars (fd : FlowData) (fs : FileSystem) (now : Time) (packet : Packet)
    (singleFile : Bool) :
    (fd.PacketReceived fs now packet singleFile).1.m_scalarData
      = FlowData.updateScalars fd.m_scalarData now packet := rfl

/-- C5 (as stated, refuted): for sequence number `2 ^ 32 - 1` the inferred count
stays 0, while `max (0, s + 1)` over the naturals is `2 ^ 32`. -/
theorem C5_top_sequence_number_not_counted :
    (samplePacket 4294967295 0).PeekHeader.GetSeq = 4294967295 ∧
    sampleFlow.m_scalarData.totalTxPackets = 0 ∧
    (sampleFlow.PacketReceived sampleFiles 0 (samplePacket 4294967295 0)
      false).1.m_scalarData.totalTxPackets = 0 ∧
    (sampleFlow.PacketReceived sampleFiles 0 (samplePacket 4294967295 0)
      false).1.m_scalarData.totalTxPackets
      ≠ max sampleFlow.m_scalarData.totalTxPackets
          ((samplePacket 4294967295 0).PeekHeader.GetSeq + 1) := by
  have hp := peekHeader_samplePacket 4294967295 0 (by decide) (by decide)
  have h0 : sampleFlow.m_scalarData.totalTxPackets = 0 := rfl
  have h1 : (sampleFlow.PacketReceived sampleFiles 0 (samplePacket 4294967295 0)
      false).1.m_scalarData.totalTxPackets = 0 := by
    rw [packetReceived_scalars]
    simp [FlowData.updateScalars, hp, StatsHeader.GetSeq, h0]
  refine ⟨by rw [hp]; rfl, h0, h1, ?_⟩
  rw [h1, h0, hp]
  simp [StatsHeader.GetSeq]

/-- C5 (amended): `totalTxPackets` after an arrival with sequence number `s` is the
larger of its value before and `(s + 1) mod 2 ^ 32`; this is `max (before, s + 1)`
whenever `s + 1 < 2 ^ 32`. A fresh accumulator that receives sequence numbers 0 and
2 ends with `totalTxPackets = 3` and `totalRxPackets = 2`. -/
theorem C5_totalTxPackets_update (fd : FlowData) (fs : FileSystem) (now : Time)
    (packet : Packet) (singleFile : Bool) :
    (fd.PacketReceived fs now packet singleFile).1.m_scalarData.totalTxPackets
      = max fd.m_scalarData.totalTxPackets ((packet.PeekHeader.GetSeq + 1) % 2 ^ 32) ∧
    (packet.PeekHeader.GetSeq + 1 < 2 ^ 32 →
      (fd.PacketReceived fs now packet singleFile).1.m_scalarData.totalTxPackets
        = max fd.m_scalarData.totalTxPackets (packet.PeekHeader.GetSeq + 1)) ∧
    (∀ (fs1 fs2 : FileSystem) (now1 now2 : Time) (p1 p2 : Packet),
      fd.m_scalarData.totalTxPackets = 0 → fd.m_scalarData.totalRxPackets = 0 →
      p1.PeekHeader.GetSeq = 0 → p2.PeekHeader.GetSeq = 2 →
      (((fd.PacketReceived fs1 now1 p1 singleFile).1.PacketReceived fs2 now2 p2
          singleFile).1.m_scalarData.totalTxPackets = 3 ∧
       ((fd.PacketReceived fs1 now1 p1 singleFile).1.PacketReceived fs2 now2 p2
          singleFile).1.m_scalarData.totalRxPackets = 2)) := by
  have key : (fd.PacketReceived fs now packet singleFile).1.m_scalarData.totalTxPackets
      = max fd.m_scalarData.totalTxPackets ((packet.PeekHeader.GetSeq + 1) % 2 ^ 32) := by
    rw [packetReceived_scalars]
    simp only [FlowData.updateScalars]
    split <;> omega
  refine ⟨key, ?_, ?_⟩
  · intro hlt
    rw [key, Nat.mod_eq_of_lt hlt]
  · intro fs1 fs2 now1 now2 p1 p2 htx hrx h1 h2
    simp only [packetReceived_scalars, FlowData.updateScalars, htx, hrx, h1, h2]
    decide

theorem C5_totalTxPackets_update_witness :
    ((samplePacket 2 7).PeekHeader.GetSeq + 1 < 2 ^ 32 ∧
      (sampleFlow.PacketReceived sampleFiles 20 (samplePacket 2 7)
        false).1.m_scalarData.totalTxPackets
        = max sampleFlow.m_scalarData.totalTxPackets ((samplePacket 2 7).PeekHeader.GetSeq + 1)) ∧
    (samplePacket 0 5).PeekHeader.GetSeq = 0 ∧ (samplePacket 2 7).PeekHeader.GetSeq = 2 ∧
    ((sampleFlow.PacketReceived sampleFiles 10 (samplePacket 0 5) false).1.PacketReceived
        sampleFiles 20 (samplePacket 2 7) false).1.m_scalarData.totalTxPackets = 3 ∧
    ((sampleFlow.PacketReceived sampleFiles 10 (samplePacket 0 5) false).1.PacketReceived
        sampleFiles 20 (samplePacket 2 7) false).1.m_scalarData.totalRxPackets = 2 := by
  have h1 : (samplePacket 0 5).PeekHeader.GetSeq = 0 := by
    rw [peekHeader_samplePacket 0 5 (by decide) (by decide)]; rfl
  have h2 : (samplePacket 2 7).PeekHeader.GetSeq = 2 := by
    rw [peekHeader_samplePacket 2 7 (by decide) (by decide)]; rfl
  have h3 : (samplePacket 2 7).PeekHeader.GetSeq + 1 < 2 ^ 32 := by
    rw [h2]; norm_num
  exact ⟨⟨h3, (C5_totalTxPackets_update sampleFlow sampleFiles 20 (samplePacket 2 7)
      false).2.1 h3⟩, h1, h2,
    (C5_totalTxPackets_update sampleFlow sampleFiles 10 (samplePacket 0 5) false).2.2
      sampleFiles sampleFiles 10 20 (samplePacket 0 5) (samplePacket 2 7) rfl rfl h1 h2⟩

/-- Size of a packet of `n` zero bytes. -/
theorem getSize_zeroPacket (n : Nat) : (zeroPacket n).GetSize = n % 2 ^ 32 := by
  simp [Packet.GetSize, zeroPacket]

/-- C6 (as stated, refuted): a packet of 65536 bytes leaves a last-packet size of 0
and adds nothing to `totalRxBytes`. -/
theorem C6_large_packet_size_truncated :
    (zeroPacket 65536).GetSize = 65536 ∧
    (sampleFlow.PacketReceived sampleFiles 0 (zeroPacket 65536)
      false).1.m_scalarData.packetSizeInBytes = 0 ∧
    (sampleFlow.PacketReceived sampleFiles 0 (zeroPacket 65536)
      false).1.m_scalarData.totalRxBytes = 0 ∧
    sampleFlow.m_scalarData.totalRxBytes + (zeroPacket 65536).GetSize = 65536 := by
  have hs : (zeroPacket 65536).GetSize = 65536 :=
    (getSize_zeroPacket 65536).trans (by norm_num)
  have h0 : sampleFlow.m_scalarData.totalRxBytes = 0 := rfl
  have e1 : ∀ p : Packet, (sampleFlow.PacketReceived sampleFiles 0 p
      false).1.m_scalarData.packetSizeInBytes = p.GetSize % 2 ^ 16 := fun _ => rfl
  have e2 : ∀ p : Packet, (sampleFlow.PacketReceived sampleFiles 0 p
      false).1.m_scalarData.totalRxBytes
        = (sampleFlow.m_scalarData.totalRxBytes + p.GetSize % 2 ^ 16) % 2 ^ 64 :=
    fun _ => rfl
  refine ⟨hs, ?_, ?_, ?_⟩
  · rw [e1, hs]; norm_num
  · rw [e2, hs, h0]; norm_num
  · rw [h0, hs]

/-- C6 (amended): after an arrival of a packet of `n` bytes the last-packet size is
`n mod 2 ^ 16`, `totalRxBytes` has grown by that amount modulo `2 ^ 64` and
`totalRxPackets` by 1 modulo `2 ^ 32`; when `n < 2 ^ 16` and neither total is at the
end of its range these are `n`, the previous bytes plus `n`, and the previous count
plus 1. -/
theorem C6_size_bytes_packets_update (fd : FlowData) (fs : FileSystem) (now : Time)
    (packet : Packet) (singleFile : Bool) :
    ((fd.PacketReceived fs now packet singleFile).1.m_scalarData.packetSizeInBytes
        = packet.GetSize % 2 ^ 16 ∧
     (fd.PacketReceived fs now packet singleFile).1.m_scalarData.totalRxBytes
        = (fd.m_scalarData.totalRxBytes + packet.GetSize % 2 ^ 16) % 2 ^ 64 ∧
     (fd.PacketReceived fs now packet singleFile).1.m_scalarData.totalRxPackets
        = (fd.m_scalarData.totalRxPackets + 1) % 2 ^ 32) ∧
    (packet.GetSize < 2 ^ 16 → fd.m_scalarData.totalRxBytes + packet.GetSize < 2 ^ 64 →
      fd.m_scalarData.totalRxPackets + 1 < 2 ^ 32 →
      ((fd.PacketReceived fs now packet singleFile).1.m_scalarData.packetSizeInBytes
          = packet.GetSize ∧
       (fd.PacketReceived fs now packet singleFile).1.m_scalarData.totalRxBytes
          = fd.m_scalarData.totalRxBytes + packet.GetSize ∧
       (fd.PacketReceived fs now packet singleFile).1.m_scalarData.totalRxPackets
          = fd.m_scalarData.totalRxPackets + 1)) := by
  refine ⟨⟨rfl, rfl, rfl⟩, ?_⟩
  intro h1 h2 h3
  simp only [packetReceived_scalars, FlowData.updateScalars]
  rw [Nat.mod_eq_of_lt h1, Nat.mod_eq_of_lt h2, Nat.mod_eq_of_lt h3]
  exact ⟨rfl, rfl, rfl⟩

theorem C6_size_bytes_packets_update_witness :
    (samplePacket 0 5).GetSize = 20 ∧
    (sampleFlow.PacketReceived sampleFiles 10 (samplePacket 0 5)
      false).1.m_scalarData.packetSizeInBytes = 20 ∧
    (sampleFlow.PacketReceived sampleFiles 10 (samplePacket 0 5)
      false).1.m_scalarData.totalRxBytes = 20 ∧
    (sampleFlow.PacketReceived sampleFiles 10 (samplePacket 0 5)
      false).1.m_scalarData.totalRxPackets = 1 :=
  ⟨rfl, (C6_size_bytes_packets_update sampleFlow sampleFiles 10 (samplePacket 0 5) false).2
    (by decide) (by decide) (by decide)⟩

/-! ## The block written by `FlowData::Finalize` -/

/-- A duration prints as zero seconds exactly when it is zero ticks. -/
theorem getSeconds_eq_zero (t : Time) : Time.GetSeconds t = 0 ↔ t = 0 := by
  simp [Time.GetSeconds]

/-- Number of lines of the block: 23 fixed lines and one more for each of the three
durations that is not zero. -/
theorem finalizeBlock_length (fd : FlowData) (singleFile : Bool) (allRxPackets : Nat) :
    (fd.finalizeBlock singleFile allRxPackets).length
      = 23
        + (if fd.m_scalarData.lastPacketReceived - fd.m_scalarData.firstPacketReceived ≠ 0
            then 1 else 0)
        + (if fd.m_scalarData.lastPacketSent - fd.m_scalarData.firstPacketSent ≠ 0
            then 1 else 0)
        + (if fd.m_scalarData.lastPacketReceived - fd.m_scalarData.firstPacketSent ≠ 0
            then 1 else 0) := by
  simp only [FlowData.finalizeBlock, getSeconds_eq_zero, List.length_append, List.length_cons,
    List.length_nil, ne_eq, ite_not]
  split_ifs <;> rfl

/-- Scalars of `sampleOnce`. -/
theorem sampleOnce_scalars :
    sampleOnce.1.m_scalarData =
      { totalRxPackets := 1, totalTxPackets := 1, totalRxBytes := 20, packetSizeInBytes := 20,
        firstPacketSent := 5000, lastPacketSent := 5000, firstPacketReceived := 10000,
        lastPacketReceived := 10000, firstDelay := 5000, lastDelay := 5000 } := by
  have hp := peekHeader_samplePacket 0 5000 (by norm_num) (by norm_num)
  have hs : (samplePacket 0 5000).GetSize = 20 := rfl
  have h0 : sampleFlow.m_scalarData = {} := rfl
  simp only [sampleOnce, packetReceived_scalars, FlowData.updateScalars, hp, hs, h0,
    StatsHeader.GetSeq, StatsHeader.GetTs, TimeStep]
  norm_num

/-- Scalars of `sampleTwice`. -/
theorem sampleTwice_scalars :
    sampleTwice.1.m_scalarData =
      { totalRxPackets := 2, totalTxPackets := 1, totalRxBytes := 40, packetSizeInBytes := 20,
        firstPacketSent := 5000, lastPacketSent := 5000, firstPacketReceived := 10000,
        lastPacketReceived := 20000, firstDelay := 5000, lastDelay := 15000 } := by
  have hp := peekHeader_samplePacket 0 5000 (by norm_num) (by norm_num)
  have hs : (samplePacket 0 5000).GetSize = 20 := rfl
  simp only [sampleTwice, packetReceived_scalars, FlowData.updateScalars, hp, hs,
    sampleOnce_scalars, StatsHeader.GetSeq, StatsHeader.GetTs, TimeStep]
  norm_num

/-- The cell after `Lost packets:` holds the `uint32_t` difference of the two
counters. -/
theorem lostPacketsWritten_finalizeBlock (fd : FlowData) (singleFile : Bool)
    (allRxPackets : Nat) :
    lostPacketsWritten (fd.finalizeBlock singleFile allRxPackets)
      = some (Cell.int (((fd.m_scalarData.totalTxPackets : Int)
          - (fd.m_scalarData.totalRxPackets : Int)) % 2 ^ 32)) := by
  simp only [lostPacketsWritten, FlowData.finalizeBlock]
  split_ifs <;> simp [List.find?, Cell.isText]

/-- Scalars of `sampleThree`. -/
theorem sampleThree_scalars :
    sampleThree.1.m_scalarData =
      { totalRxPackets := 3, totalTxPackets := 3, totalRxBytes := 60, packetSizeInBytes := 20,
        firstPacketSent := 5000, lastPacketSent := 30000, firstPacketReceived := 10000,
        lastPacketReceived := 35000, firstDelay := 5000, lastDelay := 5000 } := by
  have hp0 := peekHeader_samplePacket 0 5000 (by norm_num) (by norm_num)
  have hp1 := peekHeader_samplePacket 1 12000 (by norm_num) (by norm_num)
  have hp2 := peekHeader_samplePacket 2 30000 (by norm_num) (by norm_num)
  have hs : ∀ a b, (samplePacket a b).GetSize = 20 := fun _ _ => rfl
  have h0 : sampleFlow.m_scalarData = {} := rfl
  simp only [sampleThree, packetReceived_scalars, FlowData.updateScalars, hp0, hp1, hp2, hs, h0,
    StatsHeader.GetSeq, StatsHeader.GetTs, TimeStep]
  norm_num

/-- Content of a file right after lines were appended to it. -/
theorem append_same (fs : FileSystem) (name : String) (ls : List Line) :
    (fs.append name ls) name = fs name ++ ls := by
  unfold FileSystem.append
  simp

/-- Content of another file after lines were appended to a file. -/
theorem append_other (fs : FileSystem) (name other : String) (ls : List Line)
    (h : other ≠ name) : (fs.append name ls) other = fs other := by
  unfold FileSystem.append
  simp [h]

/-- Content of a file right after it was created. -/
theorem create_same (fs : FileSystem) (name : String) (ls : List Line) :
    (fs.create name ls) name = ls := by
  unfold FileSystem.create
  simp

/-- Report file of `sampleThree` before `Finalize`: the title row and three rows. -/
theorem sampleThree_rows :
    sampleThree.2 sampleThree.1.m_fileName =
      [ [Cell.text "Flow Index", Cell.text "Time [us]", Cell.text "Sequence Id",
          Cell.text "Delay [us]"],
        [Cell.int 0, Cell.real 10, Cell.int 0, Cell.real 5],
        [Cell.int 0, Cell.real 20, Cell.int 1, Cell.real 8],
        [Cell.int 0, Cell.real 35, Cell.int 2, Cell.real 5] ] := by
  have hp0 := peekHeader_samplePacket 0 5000 (by norm_num) (by norm_num)
  have hp1 := peekHeader_samplePacket 1 12000 (by norm_num) (by norm_num)
  have hp2 := peekHeader_samplePacket 2 30000 (by norm_num) (by norm_num)
  simp only [sampleThree, FlowData.PacketReceived, FlowData.updateScalars, hp0, hp1, hp2,
    StatsHeader.GetSeq, StatsHeader.GetTs, TimeStep, sampleFlow, sampleFiles,
    FlowData.construct, VectorData.WriteValueToFile, VectorData.WriteFileHeader,
    VectorData.sampleRow, Time.micro]
  norm_num
  simp only [append_same, create_same, List.cons_append, List.nil_append]

/-- Report file of `sampleThree` after `Finalize`: the four rows, then the block. -/
theorem sampleThreeReport_eq :
    sampleThreeReport =
      [ [Cell.text "Flow Index", Cell.text "Time [us]", Cell.text "Sequence Id",
          Cell.text "Delay [us]"],
        [Cell.int 0, Cell.real 10, Cell.int 0, Cell.real 5],
        [Cell.int 0, Cell.real 20, Cell.int 1, Cell.real 8],
        [Cell.int 0, Cell.real 35, Cell.int 2, Cell.real 5] ]
      ++ sampleThree.1.finalizeBlock false 3 := by
  have he : sampleThree.1.m_fileWriteEnable = true := rfl
  simp only [sampleThreeReport, FlowData.Finalize, he, if_true, append_same, sampleThree_rows]

/-- Delay cells of the report of `sampleThree`: column D, rows 2 to 4. -/
theorem sampleThree_delays : Sheet.rangeValues sampleThreeReport 4 2 4 = [5, 8, 5] := by
  rw [sampleThreeReport_eq]
  simp [Sheet.rangeValues, Sheet.cell, Cell.value?, List.range_succ, List.filterMap]

/-- Formula cells of delay lines in the block of `sampleThree`. -/
theorem sampleThree_formulas :
    sampleThreeReport.get? 9 = some [Cell.text "E2E average delay [us]",
      Cell.formula (FlowData.meanFormula 68 4 3)] ∧
    sampleThreeReport.get? 11 = some [Cell.text "E2E max delay [us]",
      Cell.formula (FlowData.maxFormula 68 4)] ∧
    sampleThreeReport.get? 12 = some [Cell.text "Jitter [us]",
      Cell.formula (FlowData.jitterFormula 68 4 3)] := by
  rw [sampleThreeReport_eq]
  simp [FlowData.finalizeBlock, FlowData.formulaRow, FlowData.formulaColumn, sampleThree_scalars]

/-- An arithmetic result in the range of `int` is the value of the `int`. -/
theorem wrapInt_of_range (z : Int) (h1 : -(2 : Int) ^ 31 ≤ z) (h2 : z < 2 ^ 31) :
    wrapInt z = z := by
  unfold wrapInt
  omega

/-- C7: after an arrival at time `now` with send timestamp `ts`, `lastPacketReceived`
is `now`, `lastPacketSent` is `ts` and `lastDelay` is `now - ts`; with file writing
enabled exactly one row is appended to the flow's file, its last cell holds the delay
`now - ts` (in microseconds) and no other file changes; the `int` count of rows
written is one more than before whenever that is in the range of `int`. For arrivals
at 10, 20, 35 us sent at 5, 12, 30 us the delay cells are 5, 8, 5, the written mean
formula `SUM/n` has value 6 and the written maximum formula has value 8. -/
theorem C7_times_delay_and_sample_row (fd : FlowData) (fs : FileSystem) (now : Time)
    (packet : Packet) (singleFile : Bool) :
    (fd.PacketReceived fs now packet singleFile).1.m_scalarData.lastPacketReceived = now ∧
    (fd.PacketReceived fs now packet singleFile).1.m_scalarData.lastPacketSent
      = (packet.PeekHeader.m_ts : Int) ∧
    (fd.PacketReceived fs now packet singleFile).1.m_scalarData.lastDelay
      = now - (packet.PeekHeader.m_ts : Int) ∧
    (fd.m_fileWriteEnable = true →
      ∃ row : Line,
        (fd.PacketReceived fs now packet singleFile).2 = fs.append fd.m_fileName [row] ∧
        row.getLast? = some (Cell.real (Time.micro (now - (packet.PeekHeader.m_ts : Int)))) ∧
        (fd.PacketReceived fs now packet singleFile).2 fd.m_fileName
          = fs fd.m_fileName ++ [row] ∧
        (-(2 : Int) ^ 31 ≤ fd.m_delayVector.m_numValuesWrittenToFile →
          fd.m_delayVector.m_numValuesWrittenToFile + 1 < 2 ^ 31 →
          (fd.PacketReceived fs now packet singleFile).1.m_delayVector.m_numValuesWrittenToFile
            = fd.m_delayVector.m_numValuesWrittenToFile + 1)) ∧
    (sampleThree.1.m_scalarData.lastDelay = 5000 ∧
      Sheet.rangeValues sampleThreeReport 4 2 4 = [5, 8, 5] ∧
      sampleThreeReport.get? 9 = some [Cell.text "E2E average delay [us]",
        Cell.formula (FlowData.meanFormula 68 4 3)] ∧
      (FlowData.meanFormula 68 4 3).eval sampleThreeReport = some 6 ∧
      sampleThreeReport.get? 11 = some [Cell.text "E2E max delay [us]",
        Cell.formula (FlowData.maxFormula 68 4)] ∧
      (FlowData.maxFormula 68 4).eval sampleThreeReport = some 8) := by
  refine ⟨rfl, rfl, rfl, ?_, ?_⟩
  · intro he
    refine ⟨VectorData.sampleRow now (now - (packet.PeekHeader.m_ts : Int)) singleFile
      fd.m_flowId.index packet.PeekHeader.GetSeq, ?_, ?_, ?_, ?_⟩
    · simp [FlowData.PacketReceived, he, VectorData.WriteValueToFile, FlowData.updateScalars,
        StatsHeader.GetTs, TimeStep]
    · unfold VectorData.sampleRow
      exact List.getLast?_concat _
    · simp [FlowData.PacketReceived, he, VectorData.WriteValueToFile, FlowData.updateScalars,
        StatsHeader.GetTs, TimeStep, append_same]
    · intro h1 h2
      have hw := wrapInt_of_range (fd.m_delayVector.m_numValuesWrittenToFile + 1)
        (by omega) h2
      cases hm : fd.m_memoryWriteEnable <;>
        simp [FlowData.PacketReceived, he, hm, VectorData.WriteValueToFile,
          VectorData.AddValueToVector, hw]
  · refine ⟨by rw [sampleThree_scalars], sampleThree_delays, sampleThree_formulas.1, ?_,
      sampleThree_formulas.2.1, ?_⟩
    · simp [FlowData.meanFormula, Expr.eval, columnNumber, RangeFn.apply, sampleThree_delays]
      norm_num
    · simp [FlowData.maxFormula, Expr.eval, columnNumber, RangeFn.apply, sampleThree_delays]
      norm_num

theorem C7_times_delay_and_sample_row_witness :
    sampleFlow.m_fileWriteEnable = true ∧
    -(2 : Int) ^ 31 ≤ sampleFlow.m_delayVector.m_numValuesWrittenToFile ∧
    sampleFlow.m_delayVector.m_numValuesWrittenToFile + 1 < 2 ^ 31 ∧
    ∃ row : Line,
      (sampleFlow.PacketReceived sampleFiles 10000 (samplePacket 0 5000) false).2
        = sampleFiles.append sampleFlow.m_fileName [row] ∧
      row.getLast? = some (Cell.real (Time.micro
        (10000 - ((samplePacket 0 5000).PeekHeader.m_ts : Int)))) ∧
      (sampleFlow.PacketReceived sampleFiles 10000 (samplePacket 0 5000) false).2
        sampleFlow.m_fileName = sampleFiles sampleFlow.m_fileName ++ [row] ∧
      (sampleFlow.PacketReceived sampleFiles 10000 (samplePacket 0 5000)
        false).1.m_delayVector.m_numValuesWrittenToFile
        = sampleFlow.m_delayVector.m_numValuesWrittenToFile + 1 := by
  have h0 : sampleFlow.m_delayVector.m_numValuesWrittenToFile = 0 := rfl
  have h1 : -(2 : Int) ^ 31 ≤ sampleFlow.m_delayVector.m_numValuesWrittenToFile := by
    rw [h0]; norm_num
  have h2 : sampleFlow.m_delayVector.m_numValuesWrittenToFile + 1 < 2 ^ 31 := by
    rw [h0]; norm_num
  obtain ⟨row, r1, r2, r3, r4⟩ := (C7_times_delay_and_sample_row sampleFlow sampleFiles 10000
    (samplePacket 0 5000) false).2.2.2.1 rfl
  exact ⟨rfl, h1, h2, row, r1, r2, r3, r4 h1 h2⟩

/-- C8 (as stated, refuted): after sequence number 0 has been delivered twice the
counters are 1 sent and 2 received; the number written after `Lost packets:` is
4294967295, not the signed difference -1. -/
theorem C8_duplicate_delivery_loss_written_unsigned :
    sampleTwice.1.m_scalarData.totalTxPackets = 1 ∧
    sampleTwice.1.m_scalarData.totalRxPackets = 2 ∧
    lostPacketsWritten (sampleTwice.1.finalizeBlock false 2) = some (Cell.int 4294967295) ∧
    lostPacketsWritten (sampleTwice.1.finalizeBlock false 2)
      ≠ some (Cell.int ((sampleTwice.1.m_scalarData.totalTxPackets : Int)
          - (sampleTwice.1.m_scalarData.totalRxPackets : Int))) := by
  have h := lostPacketsWritten_finalizeBlock sampleTwice.1 false 2
  rw [sampleTwice_scalars] at h ⊢
  simp only at h ⊢
  refine ⟨trivial, trivial, ?_, ?_⟩
  · rw [h]; norm_num
  · rw [h]; norm_num

/-- C8 (amended): the number written after `Lost packets:` is the difference
`totalTxPackets - totalRxPackets` reduced modulo `2 ^ 32` (the `uint32_t` result);
it equals the difference whenever `totalRxPackets` does not exceed
`totalTxPackets`. -/
theorem C8_lost_packets_written (fd : FlowData) (singleFile : Bool) (allRxPackets : Nat) :
    lostPacketsWritten (fd.finalizeBlock singleFile allRxPackets)
      = some (Cell.int (((fd.m_scalarData.totalTxPackets : Int)
          - (fd.m_scalarData.totalRxPackets : Int)) % 2 ^ 32)) ∧
    (fd.m_scalarData.totalRxPackets ≤ fd.m_scalarData.totalTxPackets →
      fd.m_scalarData.totalTxPackets < 2 ^ 32 →
      lostPacketsWritten (fd.finalizeBlock singleFile allRxPackets)
        = some (Cell.int ((fd.m_scalarData.totalTxPackets : Int)
            - (fd.m_scalarData.totalRxPackets : Int)))) := by
  refine ⟨lostPacketsWritten_finalizeBlock fd singleFile allRxPackets, ?_⟩
  intro h1 h2
  rw [lostPacketsWritten_finalizeBlock]
  congr 2
  apply Int.emod_eq_of_lt <;> omega

theorem C8_lost_packets_written_witness :
    sampleThree.1.m_scalarData.totalRxPackets ≤ sampleThree.1.m_scalarData.totalTxPackets ∧
    sampleThree.1.m_scalarData.totalTxPackets < 2 ^ 32 ∧
    lostPacketsWritten (sampleThree.1.finalizeBlock false 3)
      = some (Cell.int ((sampleThree.1.m_scalarData.totalTxPackets : Int)
          - (sampleThree.1.m_scalarData.totalRxPackets : Int))) :=
  ⟨by rw [sampleThree_scalars], by rw [sampleThree_scalars]; norm_num,
    (C8_lost_packets_written sampleThree.1 false 3).2 (by rw [sampleThree_scalars])
      (by rw [sampleThree_scalars]; norm_num)⟩

/-- C9 (code at the failing input): for the delay samples 5, 8, 5 the jitter formula
written by `Finalize` is `SQRT((SUMSQ(D2:D4)-(SUM(D2:D4)/3)^2)/2)`; its radicand has
value `(114 - 6 ^ 2) / 2 = 39`, while the unbiased sample variance
`(114 - 18 ^ 2 / 3) / 2` of the samples is 3. -/
theorem C9_jitter_radicand_is_not_sample_variance :
    Sheet.rangeValues sampleThreeReport 4 2 4 = [5, 8, 5] ∧
    sampleThreeReport.get? 12 = some [Cell.text "Jitter [us]",
      Cell.formula (FlowData.jitterFormula 68 4 3)] ∧
    (FlowData.jitterFormula 68 4 3).render = "SQRT((SUMSQ(D2:D4)-(SUM(D2:D4)/3)^2)/2)" ∧
    (∃ r, (FlowData.jitterFormula 68 4 3).radicand? = some r ∧
      r.eval sampleThreeReport = some 39) ∧
    specJitterRadicand [5, 8, 5] = 3 := by
  refine ⟨sampleThree_delays, sampleThree_formulas.2.2, by decide, ⟨_, rfl, ?_⟩, ?_⟩
  · simp [Expr.eval, columnNumber, RangeFn.apply, sampleThree_delays]
    norm_num
  · simp only [specJitterRadicand]
    norm_num

/-- C10 (code at the failing input): after a single arrival the receive-side and
send-side durations are zero, the two throughput lines are not written and the
block has 24 lines, not the 26 of the row stride: the Tx packet count is on the 20th
line (the 21st holds the Tx bytes), the lost packets on the 23rd and the real
throughput on the 24th. -/
theorem C10_single_arrival_block_has_24_lines :
    flowDataRaws = 26 ∧
    (sampleOnce.1.finalizeBlock true 1).length = 24 ∧
    (sampleOnce.1.finalizeBlock true 1).get? 19
      = some [Cell.text "Tx", Cell.text "Count of packets:", Cell.int 1] ∧
    (sampleOnce.1.finalizeBlock true 1).get? 20
      = some [Cell.text "Tx", Cell.text "Bytes:", Cell.int 20] ∧
    (sampleOnce.1.finalizeBlock true 1).get? 22
      = some [Cell.empty, Cell.text "Lost packets:", Cell.int 0] ∧
    (sampleOnce.1.finalizeBlock true 1).get? 23
      = some [Cell.empty, Cell.text "Real throughput [bps]:", Cell.real 32000000] ∧
    (sampleOnce.1.finalizeBlock true 1).get? 24 = none := by
  refine ⟨rfl, ?_, ?_, ?_, ?_, ?_, ?_⟩
  · rw [finalizeBlock_length, sampleOnce_scalars]; norm_num
  all_goals
    simp only [FlowData.finalizeBlock, sampleOnce_scalars, getSeconds_eq_zero]
    norm_num [Time.GetSeconds]

/-! ## Flow identity in the registry -/

/-- The comparison of two flow ids is equality of their four ids. -/
theorem same_iff_key (f1 f2 : NetFlowId) : f1.same f2 = true ↔ f1.key = f2.key := by
  simp [NetFlowId.same, NetFlowId.key, and_assoc]

/-- The key of the looked-up flow id is the key of the arrival. -/
theorem fid_key (a : Arrival) : a.fid.key = a.key := rfl

/-- What the lookup loop returns when it returns: a position below `2 ^ 16` that
either holds a key with the same four ids, or is the length of the list while no
position from the start value on holds such a key. -/
theorem findLoop_sound (ids : List NetFlowId) (fid : NetFlowId) :
    ∀ (fuel i p : Nat), i ≤ ids.length → i < 2 ^ 16 →
      StatsFlows.findLoop ids fid fuel i = Except.ok p →
      p < 2 ^ 16 ∧
      ((∃ id, ids[p]? = some id ∧ id.key = fid.key) ∨
       (p = ids.length ∧ ∀ q id, i ≤ q → ids[q]? = some id → id.key ≠ fid.key)) := by
  intro fuel
  induction fuel with
  | zero => intro i p _ _ h; simp [StatsFlows.findLoop] at h
  | succ n ih =>
    intro i p hle hlt h
    unfold StatsFlows.findLoop at h
    by_cases hi : i < ids.length
    · rw [dif_pos hi] at h
      by_cases hm : fid.same (ids.get ⟨i, hi⟩) = true
      · rw [if_pos hm] at h
        injection h with h
        subst h
        refine ⟨hlt, Or.inl ⟨ids.get ⟨i, hi⟩, ?_, ?_⟩⟩
        · simp [List.getElem?_eq_getElem hi]
        · exact ((same_iff_key _ _).1 hm).symm
      · rw [if_neg hm] at h
        have hmod : (i + 1) % 2 ^ 16 ≤ i + 1 := Nat.mod_le _ _
        have hlt2 : (i + 1) % 2 ^ 16 < 2 ^ 16 := Nat.mod_lt _ (by norm_num)
        obtain ⟨hp, hcase⟩ := ih ((i + 1) % 2 ^ 16) p (by omega) hlt2 h
        refine ⟨hp, ?_⟩
        rcases hcase with hfound | ⟨hlen, hnone⟩
        · exact Or.inl hfound
        · refine Or.inr ⟨hlen, ?_⟩
          intro q id hq hget
          by_cases hqi : q = i
          · subst hqi
            intro hk
            apply hm
            rw [same_iff_key]
            have : ids.get ⟨q, hi⟩ = id := by
              have := List.getElem?_eq_getElem hi
              rw [this] at hget
              injection hget
            rw [this, hk]
          · apply hnone q id _ hget
            have : (i + 1) % 2 ^ 16 ≤ i + 1 := hmod
            omega
    · rw [dif_neg hi] at h
      injection h with h
      subst h
      refine ⟨hlt, Or.inr ⟨by omega, ?_⟩⟩
      intro q id hq hget
      have : q < ids.length := by
        rcases List.getElem?_eq_some.1 hget with ⟨hq2, _⟩
        exact hq2
      omega

/-- The lookup loop returns when it is granted more steps than there are keys left
to test, provided a key with the same four ids lies ahead or the list has fewer than
`2 ^ 16` keys. -/
theorem findLoop_total (ids : List NetFlowId) (fid : NetFlowId) (hlen : ids.length ≤ 2 ^ 16) :
    ∀ (fuel i : Nat), i ≤ ids.length → ids.length < fuel + i →
      ((∃ q id, i ≤ q ∧ ids[q]? = some id ∧ id.key = fid.key) ∨ ids.length < 2 ^ 16) →
      ∃ p, StatsFlows.findLoop ids fid fuel i = Except.ok p := by
  intro fuel
  induction fuel with
  | zero => intro i h1 h2 _; omega
  | succ n ih =>
    intro i hle hfuel hcase
    unfold StatsFlows.findLoop
    by_cases hi : i < ids.length
    · rw [dif_pos hi]
      by_cases hm : fid.same (ids.get ⟨i, hi⟩) = true
      · rw [if_pos hm]; exact ⟨i, rfl⟩
      · rw [if_neg hm]
        have hahead : (∃ q id, i + 1 ≤ q ∧ ids[q]? = some id ∧ id.key = fid.key)
            ∨ ids.length < 2 ^ 16 := by
          rcases hcase with ⟨q, id, hq, hget, hk⟩ | hsmall
          · left
            refine ⟨q, id, ?_, hget, hk⟩
            by_contra hlt
            have hqi : q = i := by omega
            subst hqi
            apply hm
            rw [same_iff_key]
            have : ids.get ⟨q, hi⟩ = id := by
              have := List.getElem?_eq_getElem hi
              rw [this] at hget
              injection hget
            rw [this, hk]
          · exact Or.inr hsmall
        have hnowrap : (i + 1) % 2 ^ 16 = i + 1 := by
          apply Nat.mod_eq_of_lt
          rcases hahead with ⟨q, id, hq, hget, _⟩ | hsmall
          · rcases List.getElem?_eq_some.1 hget with ⟨hq2, _⟩
            omega
          · omega
        rw [hnowrap]
        exact ih (i + 1) (by omega) (by omega) hahead
    · rw [dif_neg hi]; exact ⟨i, rfl⟩

/-- What a returning call of `StatsFlows::PacketReceived` has done: the loop returned
the position `i`; the key list is unchanged when `i` is an existing position and has
the new key, with index `i`, appended when `i` is the length of the list; the
accumulator at position `i` of the (possibly extended) list was replaced by one that
carries the same flow id. -/
theorem packetReceived_ok (fuel : Nat) (s : StatsFlows) (fs : FileSystem) (a : Arrival)
    (d : Delivered) (h : StatsFlows.PacketReceived fuel s fs a = Except.ok d) :
    StatsFlows.findLoop s.m_flowIds a.fid fuel 0 = Except.ok d.i ∧
    ∃ (D : List FlowData) (fd x : FlowData),
      D[d.i]? = some fd ∧ x.m_flowId = fd.m_flowId ∧ d.flows.m_flowData = D.set d.i x ∧
      ((d.i = s.m_flowIds.length ∧
          d.flows.m_flowIds = s.m_flowIds ++ [{ a.fid with index := d.i }] ∧
          ∃ y : FlowData, y.m_flowId = { a.fid with index := d.i } ∧ D = s.m_flowData ++ [y]) ∨
       (d.i ≠ s.m_flowIds.length ∧ d.flows.m_flowIds = s.m_flowIds ∧ D = s.m_flowData)) := by
  unfold StatsFlows.PacketReceived at h
  dsimp only at h
  split at h
  · exact absurd h (by simp)
  · rename_i i hloop
    by_cases hi : i = s.m_flowIds.length
    · rw [if_pos hi] at h
      dsimp only at h
      split at h
      · exact absurd h (by simp)
      · rename_i fd hget
        injection h with h
        subst h
        exact ⟨hloop,
          s.m_flowData ++ [(FlowData.construct fs { a.fid with index := i } s.m_fileName
            s.m_singleFile).1],
          fd,
          (fd.PacketReceived (FlowData.construct fs { a.fid with index := i } s.m_fileName
            s.m_singleFile).2 a.now a.packet s.m_singleFile).1,
          by simpa using hget, rfl, rfl,
          Or.inl ⟨hi, rfl, (FlowData.construct fs { a.fid with index := i } s.m_fileName
            s.m_singleFile).1, rfl, rfl⟩⟩
    · rw [if_neg hi] at h
      dsimp only at h
      split at h
      · exact absurd h (by simp)
      · rename_i fd hget
        injection h with h
        subst h
        exact ⟨hloop, s.m_flowData, fd,
          (fd.PacketReceived fs a.now a.packet s.m_singleFile).1,
          by simpa using hget, rfl, rfl, Or.inr ⟨hi, rfl, rfl⟩⟩

/-- Replacing an element by one with the same image leaves the mapped list as it
was. -/
theorem map_set_same {α β : Type} (f : α → β) (D : List α) (i : Nat) (fd x : α)
    (hget : D[i]? = some fd) (hx : f x = f fd) : (D.set i x).map f = D.map f := by
  apply List.ext_getElem?
  intro k
  by_cases hk : i = k
  · subst hk
    simp [List.getElem?_set, hget, hx]
    rcases List.getElem?_eq_some.1 hget with ⟨h2, _⟩
    exact h2
  · simp [List.getElem?_set, hk]

/-- In a well-formed registry the accumulator at the position of a key carries the
index equal to that position. -/
theorem indexAt_of_wellFormed (s : StatsFlows) (hw : s.wellFormed) (k : Nat) (id : NetFlowId)
    (hget : s.m_flowIds[k]? = some id) : s.indexAt k = k := by
  obtain ⟨hmap, _, _, hidx⟩ := hw
  have hk := hidx k id (by simpa using hget)
  rw [← hmap] at hget
  rw [List.getElem?_map] at hget
  unfold StatsFlows.indexAt
  cases hfd : s.m_flowData[k]? with
  | none => simp [hfd] at hget
  | some fd =>
    simp only [hfd, Option.map_some'] at hget
    injection hget with hget
    simp [hfd, hget, hk]

/-- One returning call keeps the registry well-formed, only appends to the key list,
appends nothing but a key with the arrival's four ids, and delivers at a position
whose key has the arrival's four ids and whose accumulator carries that position as
its index. -/
theorem packetReceived_wellFormed (fuel : Nat) (s : StatsFlows) (fs : FileSystem)
    (a : Arrival) (d : Delivered) (hw : s.wellFormed)
    (h : StatsFlows.PacketReceived fuel s fs a = Except.ok d) :
    d.flows.wellFormed ∧
    (∃ ext, d.flows.m_flowIds = s.m_flowIds ++ ext ∧ ∀ id ∈ ext, id.key = a.key) ∧
    (∃ id, d.flows.m_flowIds[d.i]? = some id ∧ id.key = a.key) ∧
    d.flows.indexAt d.i = d.i := by
  obtain ⟨hloop, D, fd, x, hget, hx, hdata, hcase⟩ := packetReceived_ok fuel s fs a d h
  obtain ⟨hp, hfound⟩ := findLoop_sound s.m_flowIds a.fid fuel 0 d.i (Nat.zero_le _)
    (by norm_num) hloop
  obtain ⟨hmap, hlen, hnodup, hidx⟩ := hw
  have hmapD : d.flows.m_flowData.map (fun fd => fd.m_flowId) = D.map (fun fd => fd.m_flowId) := by
    rw [hdata]
    exact map_set_same (fun fd => fd.m_flowId) D d.i fd x hget hx
  have main : d.flows.wellFormed ∧
      (∃ ext, d.flows.m_flowIds = s.m_flowIds ++ ext ∧ ∀ id ∈ ext, id.key = a.key) ∧
      (∃ id, d.flows.m_flowIds[d.i]? = some id ∧ id.key = a.key) := by
    rcases hcase with ⟨hi, hids, y, hy, hD⟩ | ⟨hi, hids, hD⟩
    · have hnone : ∀ (q : Nat) (id : NetFlowId), s.m_flowIds[q]? = some id → id.key ≠ a.fid.key := by
        rcases hfound with ⟨id, hid, _⟩ | ⟨_, hn⟩
        · rcases List.getElem?_eq_some.1 hid with ⟨hlt, _⟩
          omega
        · intro q id hq
          exact hn q id (Nat.zero_le _) hq
      refine ⟨⟨?_, ?_, ?_, ?_⟩, ⟨_, hids, ?_⟩, ⟨{ a.fid with index := d.i }, ?_, rfl⟩⟩
      · rw [hmapD, hD, hids, List.map_append, hmap]
        simp [hy]
      · rw [hids]
        simp only [List.length_append, List.length_singleton]
        omega
      · rw [hids, List.map_append, List.nodup_append]
        refine ⟨hnodup, by simp, ?_⟩
        intro k hk1 hk2
        simp only [List.map_cons, List.map_nil, List.mem_singleton] at hk2
        rcases List.mem_map.1 hk1 with ⟨id, hid, hkey⟩
        rcases List.getElem?_of_mem hid with ⟨q, hq⟩
        apply hnone q id hq
        rw [hkey, hk2]
        rfl
      · intro k id hk
        rw [hids] at hk
        simp only [List.get?_eq_getElem?] at hk
        by_cases hlt : k < s.m_flowIds.length
        · rw [List.getElem?_append_left hlt] at hk
          exact hidx k id (by simpa using hk)
        · rw [List.getElem?_append_right (by omega)] at hk
          have hk0 : k - s.m_flowIds.length = 0 := by
            by_contra hne
            have : 1 ≤ k - s.m_flowIds.length := by omega
            rw [List.getElem?_eq_none (by simpa using this)] at hk
            exact absurd hk (by simp)
          rw [hk0] at hk
          simp only [List.getElem?_cons_zero] at hk
          injection hk with hk
          rw [← hk]
          simp only
          omega
      · intro id hid
        simp only [List.mem_singleton] at hid
        rw [hid]
        rfl
      · rw [hids, hi, List.getElem?_append_right (Nat.le_refl _)]
        simp
    · have hex : ∃ id, s.m_flowIds[d.i]? = some id ∧ id.key = a.fid.key := by
        rcases hfound with hf | ⟨hl, _⟩
        · exact hf
        · exact absurd hl hi
      refine ⟨⟨?_, ?_, ?_, ?_⟩, ⟨[], by simp [hids], by simp⟩, ?_⟩
      · rw [hmapD, hD, hids, hmap]
      · rw [hids]; exact hlen
      · rw [hids]; exact hnodup
      · rw [hids]; exact hidx
      · rw [hids]; exact hex
  obtain ⟨hw2, hext, id, hid, hkey⟩ := main
  exact ⟨hw2, hext, ⟨id, hid, hkey⟩, indexAt_of_wellFormed d.flows hw2 d.i id hid⟩

/-- A call returns when it is granted more than `2 ^ 16` loop steps and either the
arrival's key is registered or fewer than `2 ^ 16` keys are. -/
theorem packetReceived_total (fuel : Nat) (s : StatsFlows) (fs : FileSystem) (a : Arrival)
    (hw : s.wellFormed) (hfuel : 2 ^ 16 < fuel)
    (hroom : a.key ∈ s.m_flowIds.map NetFlowId.key ∨ s.m_flowIds.length < 2 ^ 16) :
    ∃ d, StatsFlows.PacketReceived fuel s fs a = Except.ok d := by
  obtain ⟨hmap, hlen, _, _⟩ := hw
  have hcase : (∃ q id, 0 ≤ q ∧ s.m_flowIds[q]? = some id ∧ id.key = a.fid.key)
      ∨ s.m_flowIds.length < 2 ^ 16 := by
    rcases hroom with hmem | hsmall
    · rcases List.mem_map.1 hmem with ⟨id, hid, hkey⟩
      rcases List.getElem?_of_mem hid with ⟨q, hq⟩
      exact Or.inl ⟨q, id, Nat.zero_le _, hq, hkey⟩
    · exact Or.inr hsmall
  obtain ⟨i, hloop⟩ := findLoop_total s.m_flowIds a.fid hlen fuel 0 (Nat.zero_le _)
    (by omega) hcase
  obtain ⟨_, hfound⟩ := findLoop_sound s.m_flowIds a.fid fuel 0 i (Nat.zero_le _)
    (by norm_num) hloop
  have hlen2 : s.m_flowData.length = s.m_flowIds.length := by
    rw [← hmap, List.length_map]
  unfold StatsFlows.PacketReceived
  dsimp only
  have hloop2 : StatsFlows.findLoop s.m_flowIds
      { sourceNodeId := a.packet.PeekHeader.GetNodeId,
        sourceAppId := a.packet.PeekHeader.GetApplicationId,
        sinkNodeId := a.sinkNodeId, sinkAppId := a.sinkAppId, index := 0 } fuel 0
      = Except.ok i := hloop
  rw [hloop2]
  dsimp only
  by_cases hi : i = s.m_flowIds.length
  · rw [if_pos hi]
    dsimp only
    have hsome : ∃ fd, (s.m_flowData ++ [(FlowData.construct fs
        { sourceNodeId := a.packet.PeekHeader.GetNodeId,
          sourceAppId := a.packet.PeekHeader.GetApplicationId,
          sinkNodeId := a.sinkNodeId, sinkAppId := a.sinkAppId, index := i }
        s.m_fileName s.m_singleFile).1]).get? i = some fd := by
      rw [List.get?_eq_getElem?, List.getElem?_append_right (by omega)]
      have : i - s.m_flowData.length = 0 := by omega
      rw [this]
      exact ⟨_, rfl⟩
    obtain ⟨fd, hfd⟩ := hsome
    rw [hfd]
    exact ⟨_, rfl⟩
  · rw [if_neg hi]
    dsimp only
    have hsome : ∃ fd, s.m_flowData.get? i = some fd := by
      rcases hfound with ⟨id, hid, _⟩ | ⟨hl, _⟩
      · rcases List.getElem?_eq_some.1 hid with ⟨hlt, _⟩
        have hlt2 : i < s.m_flowData.length := by omega
        exact ⟨s.m_flowData[i], by simp [List.getElem?_eq_getElem hlt2]⟩
      · exact absurd hl hi
    obtain ⟨fd, hfd⟩ := hsome
    rw [hfd]
    exact ⟨_, rfl⟩

/-- A returning run keeps the registry well-formed and only appends keys; every
arrival was delivered at a position whose key, in the final key list, has the
arrival's four ids, to an accumulator that carries that position as its index. -/
theorem run_sound (fuel : Nat) :
    ∀ (as : List Arrival) (s : StatsFlows) (fs : FileSystem) (s1 : StatsFlows)
      (fs1 : FileSystem) (tr : List Dispatch),
      s.wellFormed → StatsFlows.run fuel s fs as = Except.ok (s1, fs1, tr) →
      s1.wellFormed ∧ (∃ ext, s1.m_flowIds = s.m_flowIds ++ ext) ∧ tr.length = as.length ∧
      ∀ (j : Nat) (a : Arrival) (t : Dispatch), as[j]? = some a → tr[j]? = some t →
        (∃ id, s1.m_flowIds[t.pos]? = some id ∧ id.key = a.key) ∧ t.flowIndex = t.pos := by
  intro as
  induction as with
  | nil =>
    intro s fs s1 fs1 tr hw h
    simp only [StatsFlows.run, Except.ok.injEq, Prod.mk.injEq] at h
    obtain ⟨h1, _, h3⟩ := h
    subst h1
    subst h3
    exact ⟨hw, ⟨[], by simp⟩, rfl, by intro j a t ha; simp at ha⟩
  | cons a rest ih =>
    intro s fs s1 fs1 tr hw h
    unfold StatsFlows.run at h
    split at h
    · exact absurd h (by simp)
    · rename_i d hd
      split at h
      · exact absurd h (by simp)
      · rename_i s2 fs2 tr2 hrest
        simp only [Except.ok.injEq, Prod.mk.injEq] at h
        obtain ⟨h1, _, h3⟩ := h
        subst h1
        subst h3
        obtain ⟨hwd, ⟨ext1, hext1, _⟩, ⟨id, hid, hkey⟩, hindex⟩ :=
          packetReceived_wellFormed fuel s fs a d hw hd
        obtain ⟨hw2, ⟨ext2, hext2⟩, hlen, hall⟩ := ih d.flows d.files s2 fs2 tr2 hwd hrest
        refine ⟨hw2, ⟨ext1 ++ ext2, by rw [hext2, hext1, List.append_assoc]⟩, by simp [hlen], ?_⟩
        intro j b t hb ht
        cases j with
        | zero =>
          simp only [List.getElem?_cons_zero, Option.some.injEq] at hb ht
          subst hb
          subst ht
          refine ⟨⟨id, ?_, hkey⟩, hindex⟩
          rcases List.getElem?_eq_some.1 hid with ⟨hlt, _⟩
          rw [hext2, List.getElem?_append_left hlt]
          exact hid
        | succ j =>
          simp only [List.getElem?_cons_succ] at hb ht
          exact hall j b t hb ht

/-- A run returns when every call is granted more than `2 ^ 16` loop steps and the
keys of the registry and of the arrivals all lie in a list of at most `2 ^ 16`
keys. -/
theorem run_total (fuel : Nat) (hfuel : 2 ^ 16 < fuel) (U : List (Nat × Nat × Nat × Nat))
    (hU : U.length ≤ 2 ^ 16) :
    ∀ (as : List Arrival) (s : StatsFlows) (fs : FileSystem),
      s.wellFormed → (∀ a ∈ as, a.key ∈ U) → (∀ id ∈ s.m_flowIds, id.key ∈ U) →
      ∃ r, StatsFlows.run fuel s fs as = Except.ok r := by
  intro as
  induction as with
  | nil => intro s fs _ _ _; exact ⟨_, rfl⟩
  | cons a rest ih =>
    intro s fs hw has hids
    have hroom : a.key ∈ s.m_flowIds.map NetFlowId.key ∨ s.m_flowIds.length < 2 ^ 16 := by
      by_cases hmem : a.key ∈ s.m_flowIds.map NetFlowId.key
      · exact Or.inl hmem
      · right
        have hnd : (a.key :: s.m_flowIds.map NetFlowId.key).Nodup :=
          List.nodup_cons.2 ⟨hmem, hw.2.2.1⟩
        have hsub : (a.key :: s.m_flowIds.map NetFlowId.key) ⊆ U := by
          intro k hk
          rcases List.mem_cons.1 hk with hk | hk
          · rw [hk]; exact has a (List.mem_cons_self _ _)
          · rcases List.mem_map.1 hk with ⟨id, hid, hkey⟩
            rw [← hkey]; exact hids id hid
        have := (hnd.subperm hsub).length_le
        simp only [List.length_cons, List.length_map] at this
        omega
    obtain ⟨d, hd⟩ := packetReceived_total fuel s fs a hw hfuel hroom
    obtain ⟨hwd, ⟨ext, hext, hextkey⟩, _, _⟩ := packetReceived_wellFormed fuel s fs a d hw hd
    have hids2 : ∀ id ∈ d.flows.m_flowIds, id.key ∈ U := by
      intro id hid
      rw [hext] at hid
      rcases List.mem_append.1 hid with hid | hid
      · exact hids id hid
      · rw [hextkey id hid]; exact has a (List.mem_cons_self _ _)
    obtain ⟨r, hr⟩ := ih d.flows d.files hwd
      (fun b hb => has b (List.mem_cons_of_mem _ hb)) hids2
    unfold StatsFlows.run
    rw [hd]
    dsimp only
    rw [hr]
    exact ⟨_, rfl⟩

/-- The empty registry is well-formed. -/
theorem construct_wellFormed (fn : String) : (StatsFlows.construct fn).wellFormed := by
  refine ⟨rfl, by simp [StatsFlows.construct], by simp [StatsFlows.construct], ?_⟩
  intro k id h
  simp [StatsFlows.construct] at h

/-- Key of an arrival that carries a given header in a packet of the header bytes. -/
theorem key_ofHeader (now : Time) (h : StatsHeader) (sinkNodeId sinkAppId : Nat)
    (hv : h.valid) :
    (Arrival.ofHeader now h sinkNodeId sinkAppId).key
      = (h.m_nodeId, h.m_appId, sinkNodeId, sinkAppId) := by
  have hp : (Arrival.ofHeader now h sinkNodeId sinkAppId).packet.PeekHeader = h :=
    deserialize_serialize h (fun _ => 0) hv
  unfold Arrival.key
  rw [hp]
  rfl

/-- Keys of `manyFlows`: the sink node ids 0 to 65536. -/
theorem manyFlows_keys :
    manyFlows.map Arrival.key = (List.range 65537).map (fun k => (0, 0, k, 0)) := by
  unfold manyFlows
  rw [List.map_map]
  apply List.map_congr_left
  intro k _
  exact key_ofHeader 0 (StatsHeader.mk 0 0 0 0) k 0 (by decide)

/-- In a returning run from a well-formed registry every arrival's key is in the
final key list. -/
theorem run_keys_registered (fuel : Nat) (as : List Arrival) (s : StatsFlows)
    (fs : FileSystem) (s1 : StatsFlows) (fs1 : FileSystem) (tr : List Dispatch)
    (hw : s.wellFormed) (h : StatsFlows.run fuel s fs as = Except.ok (s1, fs1, tr)) :
    as.map Arrival.key ⊆ s1.m_flowIds.map NetFlowId.key := by
  obtain ⟨_, _, hlen, hall⟩ := run_sound fuel as s fs s1 fs1 tr hw h
  intro k hk
  rcases List.mem_map.1 hk with ⟨a, ha, hkey⟩
  rcases List.getElem?_of_mem ha with ⟨j, hj⟩
  have hjlt : j < tr.length := by
    rcases List.getElem?_eq_some.1 hj with ⟨hlt, _⟩
    omega
  obtain ⟨⟨id, hid, hidkey⟩, _⟩ := hall j a tr[j] hj (List.getElem?_eq_getElem hjlt)
  rw [← hkey, ← hidkey]
  exact List.mem_map.2 ⟨id, List.getElem?_mem hid, rfl⟩

/-- C4 (as stated, refuted): a sequence of 65537 arrivals with pairwise different
keys is not processed to the end, however many loop steps each call is granted: the
registry holds at most `2 ^ 16` keys and the lookup for one more never leaves its
loop, so that arrival is dispatched to no accumulator. -/
theorem C4_too_many_flows_not_dispatched :
    manyFlows.length = 65537 ∧ (manyFlows.map Arrival.key).Nodup ∧
    ¬ ∃ fuel r, StatsFlows.run fuel (StatsFlows.construct "noname") (fun _ => []) manyFlows
        = Except.ok r := by
  have hnd : (manyFlows.map Arrival.key).Nodup := by
    rw [manyFlows_keys]
    apply List.Nodup.map _ (List.nodup_range _)
    intro x y hxy
    simp only [Prod.mk.injEq] at hxy
    exact hxy.2.2.1
  refine ⟨by simp [manyFlows], hnd, ?_⟩
  rintro ⟨fuel, ⟨s1, fs1, tr⟩, hrun⟩
  have hw := construct_wellFormed "noname"
  have hsub := run_keys_registered fuel manyFlows _ _ s1 fs1 tr hw hrun
  obtain ⟨hw1, _, _, _⟩ := run_sound fuel manyFlows _ _ s1 fs1 tr hw hrun
  have hle := (hnd.subperm hsub).length_le
  have hlen := hw1.2.1
  simp only [List.length_map, manyFlows, List.length_range] at hle
  omega

/-- C4 (amended): for every sequence of arrivals with at most `2 ^ 16` different
keys, run from the empty registry with more than `2 ^ 16` loop steps granted to each
call, every call returns; two arrivals with the same four ids are delivered at the
same position to an accumulator with the same flow index, whatever comes in between,
and two arrivals with different ids are delivered at different positions. -/
theorem C4_flow_identity (fn : String) (fs : FileSystem) (fuel : Nat) (as : List Arrival)
    (hfuel : 2 ^ 16 < fuel) (hflows : (as.map Arrival.key).dedup.length ≤ 2 ^ 16) :
    ∃ s1 fs1 tr, StatsFlows.run fuel (StatsFlows.construct fn) fs as = Except.ok (s1, fs1, tr) ∧
      tr.length = as.length ∧
      ∀ (j k : Nat) (a b : Arrival) (x y : Dispatch),
        as[j]? = some a → as[k]? = some b → tr[j]? = some x → tr[k]? = some y →
        (a.key = b.key → x = y) ∧ (a.key ≠ b.key → x.pos ≠ y.pos) := by
  have hw := construct_wellFormed fn
  obtain ⟨⟨s1, fs1, tr⟩, hrun⟩ := run_total fuel hfuel (as.map Arrival.key).dedup hflows as
    (StatsFlows.construct fn) fs hw
    (fun a ha => List.mem_dedup.2 (List.mem_map.2 ⟨a, ha, rfl⟩))
    (by intro id hid; simp [StatsFlows.construct] at hid)
  obtain ⟨hw1, _, hlen, hall⟩ := run_sound fuel as _ fs s1 fs1 tr hw hrun
  refine ⟨s1, fs1, tr, hrun, hlen, ?_⟩
  intro j k a b x y ha hb hx hy
  obtain ⟨⟨idx, hidx, hkx⟩, hfx⟩ := hall j a x ha hx
  obtain ⟨⟨idy, hidy, hky⟩, hfy⟩ := hall k b y hb hy
  have hnd := hw1.2.2.1
  have hmx : (s1.m_flowIds.map NetFlowId.key)[x.pos]? = some a.key := by
    rw [List.getElem?_map, hidx]; simp [hkx]
  have hmy : (s1.m_flowIds.map NetFlowId.key)[y.pos]? = some b.key := by
    rw [List.getElem?_map, hidy]; simp [hky]
  have hxlt : x.pos < (s1.m_flowIds.map NetFlowId.key).length :=
    (List.getElem?_eq_some.1 hmx).1
  have hylt : y.pos < (s1.m_flowIds.map NetFlowId.key).length :=
    (List.getElem?_eq_some.1 hmy).1
  constructor
  · intro hab
    have hpos : x.pos = y.pos := by
      by_contra hne
      rcases Nat.lt_or_gt_of_ne hne with hlt | hgt
      · exact (List.nodup_iff_getElem?_ne_getElem?.1 hnd) x.pos y.pos hlt hylt
          (by rw [hmx, hmy, hab])
      · exact (List.nodup_iff_getElem?_ne_getElem?.1 hnd) y.pos x.pos hgt hxlt
          (by rw [hmx, hmy, hab])
    cases x with
    | mk xp xf =>
      cases y with
      | mk yp yf =>
        simp only at hpos hfx hfy
        simp only [Dispatch.mk.injEq]
        omega
  · intro hab hpos
    apply hab
    rw [hpos, hmy] at hmx
    exact (Option.some.inj hmx).symm

theorem C4_flow_identity_witness :
    (2 : Nat) ^ 16 < 65537 ∧ (sampleArrivals.map Arrival.key).dedup.length ≤ 2 ^ 16 ∧
    ∃ s1 fs1 tr, StatsFlows.run 65537 (StatsFlows.construct "noname") (fun _ => [])
        sampleArrivals = Except.ok (s1, fs1, tr) ∧
      tr.length = sampleArrivals.length ∧
      ∀ (j k : Nat) (a b : Arrival) (x y : Dispatch),
        sampleArrivals[j]? = some a → sampleArrivals[k]? = some b →
        tr[j]? = some x → tr[k]? = some y →
        (a.key = b.key → x = y) ∧ (a.key ≠ b.key → x.pos ≠ y.pos) :=
  ⟨by norm_num,
    (List.dedup_sublist _).length_le.trans (by simp [sampleArrivals]),
    C4_flow_identity "noname" (fun _ => []) 65537 sampleArrivals (by norm_num)
      ((List.dedup_sublist _).length_le.trans (by simp [sampleArrivals]))⟩

/-! ## Column letters -/

/-- C13 (code at the failing input): for the flow indices 0 to 22 the character
`'D' + index` written in the delay formulas is the name of column `4 + index`, the
column in which a sample row holds the delay (cell `4 + index` of the row, for every
index). For index 23 the character is `[` (code 91), which names no column, while
the delay values stand in column 27, whose name is `AA`. -/
theorem C13_column_letter_beyond_Z (time t : Time) (k seqNo : Nat) :
    ((VectorData.sampleRow time t true k seqNo).length = 4 + k ∧
      (VectorData.sampleRow time t true k seqNo).get? (3 + k) = some (Cell.real (Time.micro t))) ∧
    (∀ j : Fin 23, colText ((flowWithIndex j.val).formulaColumn true) = columnName (4 + j.val) ∧
      columnNumber ((flowWithIndex j.val).formulaColumn true) = some (4 + j.val)) ∧
    ((flowWithIndex 23).m_flowId.index = 23 ∧
      (flowWithIndex 23).formulaColumn true = 91 ∧ colText 91 = "[" ∧
      columnNumber 91 = none ∧ columnName (4 + 23) = "AA" ∧
      (FlowData.meanFormula ((flowWithIndex 23).formulaColumn true) 3 2).render
        = "SUM([2:[3)/2") := by
  refine ⟨⟨?_, ?_⟩, ?_, ?_⟩
  · simp [VectorData.sampleRow]
    omega
  · simp only [VectorData.sampleRow, if_true, List.get?_eq_getElem?]
    rw [List.getElem?_append_right (by simp; omega)]
    have h : 3 + k - ([Cell.int (k : Int), Cell.real (Time.micro time), Cell.int (seqNo : Int)]
        ++ List.replicate k Cell.empty).length = 0 := by
      simp; omega
    rw [h]
    rfl
  · intro j
    fin_cases j <;> exact ⟨by decide, by decide⟩
  · exact ⟨rfl, by decide, by decide, by decide, by decide, by decide⟩

/-! ## Zero durations and fewer than two samples in the block of one flow -/

/-- No line of the block holds the text `undefined`. -/
theorem finalizeBlock_no_undefined (fd : FlowData) (singleFile : Bool) (allRxPackets : Nat) :
    ∀ l ∈ fd.finalizeBlock singleFile allRxPackets, Cell.text "undefined" ∉ l := by
  simp only [FlowData.finalizeBlock]
  split_ifs <;> simp

/-- Scalars of `sampleInstant`. -/
theorem sampleInstant_scalars :
    sampleInstant.1.m_scalarData =
      { totalRxPackets := 1, totalTxPackets := 1, totalRxBytes := 20, packetSizeInBytes := 20,
        firstPacketSent := 5000, lastPacketSent := 5000, firstPacketReceived := 5000,
        lastPacketReceived := 5000, firstDelay := 0, lastDelay := 0 } := by
  have hp := peekHeader_samplePacket 0 5000 (by norm_num) (by norm_num)
  have hs : (samplePacket 0 5000).GetSize = 20 := rfl
  have h0 : sampleFlow.m_scalarData = {} := rfl
  simp only [sampleInstant, packetReceived_scalars, FlowData.updateScalars, hp, hs, h0,
    StatsHeader.GetSeq, StatsHeader.GetTs, TimeStep]
  norm_num

/-- The `Rx` throughput line is in the block exactly when the receive-side duration is
not zero. -/
theorem throughputLine_rx (fd : FlowData) (singleFile : Bool) (allRxPackets : Nat) :
    throughputLine "Rx" (fd.finalizeBlock singleFile allRxPackets)
      = if fd.m_scalarData.lastPacketReceived - fd.m_scalarData.firstPacketReceived = 0 then none
        else some [Cell.text "Rx", Cell.text "Throughput [bps]:",
          Cell.real ((fd.m_scalarData.totalRxBytes : ℚ) * 8
            / (fd.m_scalarData.lastPacketReceived
                - fd.m_scalarData.firstPacketReceived : Time).GetSeconds)] := by
  simp only [throughputLine, FlowData.finalizeBlock, getSeconds_eq_zero, ne_eq]
  split_ifs <;> simp_all [List.find?, Cell.isText]

/-- The `Tx` throughput line is in the block exactly when the send-side duration is not
zero. -/
theorem throughputLine_tx (fd : FlowData) (singleFile : Bool) (allRxPackets : Nat) :
    throughputLine "Tx" (fd.finalizeBlock singleFile allRxPackets)
      = if fd.m_scalarData.lastPacketSent - fd.m_scalarData.firstPacketSent = 0 then none
        else some [Cell.text "Tx", Cell.text "Throughput [bps]:",
          Cell.real ((((fd.m_scalarData.totalTxPackets * fd.m_scalarData.packetSizeInBytes)
              % 2 ^ 32 : Nat) : ℚ) * 8
            / (fd.m_scalarData.lastPacketSent
                - fd.m_scalarData.firstPacketSent : Time).GetSeconds)] := by
  simp only [throughputLine, FlowData.finalizeBlock, getSeconds_eq_zero, ne_eq]
  split_ifs <;> simp_all [List.find?, Cell.isText]

/-- The real-throughput line is in the block exactly when the span from the first
packet sent to the last packet received is not zero. -/
theorem realThroughputLine_eq (fd : FlowData) (singleFile : Bool) (allRxPackets : Nat) :
    realThroughputLine (fd.finalizeBlock singleFile allRxPackets)
      = if fd.m_scalarData.lastPacketReceived - fd.m_scalarData.firstPacketSent = 0 then none
        else some [Cell.empty, Cell.text "Real throughput [bps]:",
          Cell.real ((fd.m_scalarData.totalRxBytes : ℚ) * 8
            / (fd.m_scalarData.lastPacketReceived
                - fd.m_scalarData.firstPacketSent : Time).GetSeconds)] := by
  simp only [realThroughputLine, FlowData.finalizeBlock, getSeconds_eq_zero, ne_eq]
  split_ifs <;> simp_all [List.find?, Cell.isText]

/-- C14 (as stated, refuted): for an accumulator whose three durations are all zero
the block has no `Rx` throughput line, no `Tx` throughput line and no real-throughput
line, and the text `undefined` is in none of its 23 lines. -/
theorem C14_zero_duration_lines_left_out :
    sampleInstant.1.m_scalarData.lastPacketReceived
      - sampleInstant.1.m_scalarData.firstPacketReceived = 0 ∧
    sampleInstant.1.m_scalarData.lastPacketSent
      - sampleInstant.1.m_scalarData.firstPacketSent = 0 ∧
    sampleInstant.1.m_scalarData.lastPacketReceived
      - sampleInstant.1.m_scalarData.firstPacketSent = 0 ∧
    throughputLine "Rx" (sampleInstant.1.finalizeBlock false 1) = none ∧
    throughputLine "Tx" (sampleInstant.1.finalizeBlock false 1) = none ∧
    realThroughputLine (sampleInstant.1.finalizeBlock false 1) = none ∧
    (sampleInstant.1.finalizeBlock false 1).length = 23 ∧
    (∀ l ∈ sampleInstant.1.finalizeBlock false 1, Cell.text "undefined" ∉ l) := by
  refine ⟨by rw [sampleInstant_scalars]; rfl, by rw [sampleInstant_scalars]; rfl,
    by rw [sampleInstant_scalars]; rfl, ?_, ?_, ?_, ?_, finalizeBlock_no_undefined _ _ _⟩
  · rw [throughputLine_rx, sampleInstant_scalars]; rfl
  · rw [throughputLine_tx, sampleInstant_scalars]; rfl
  · rw [realThroughputLine_eq, sampleInstant_scalars]; rfl
  · rw [finalizeBlock_length, sampleInstant_scalars]; rfl

/-- C14 (amended): when the receive-side duration is zero the block written by
`Finalize` has no `Rx` throughput line, likewise for the `Tx` throughput with the
send-side duration and for the real throughput with the span from first sent to last
received; when a duration is not zero its line holds the quotient by that duration
in seconds, which is not zero. No line holds an `undefined` marker, and no division
by zero is performed. -/
theorem C14_throughput_lines_guarded (fd : FlowData) (singleFile : Bool) (allRxPackets : Nat) :
    (fd.m_scalarData.lastPacketReceived - fd.m_scalarData.firstPacketReceived = 0 →
      throughputLine "Rx" (fd.finalizeBlock singleFile allRxPackets) = none) ∧
    (fd.m_scalarData.lastPacketSent - fd.m_scalarData.firstPacketSent = 0 →
      throughputLine "Tx" (fd.finalizeBlock singleFile allRxPackets) = none) ∧
    (fd.m_scalarData.lastPacketReceived - fd.m_scalarData.firstPacketSent = 0 →
      realThroughputLine (fd.finalizeBlock singleFile allRxPackets) = none) ∧
    (fd.m_scalarData.lastPacketReceived - fd.m_scalarData.firstPacketReceived ≠ 0 →
      (fd.m_scalarData.lastPacketReceived
        - fd.m_scalarData.firstPacketReceived : Time).GetSeconds ≠ 0 ∧
      throughputLine "Rx" (fd.finalizeBlock singleFile allRxPackets)
        = some [Cell.text "Rx", Cell.text "Throughput [bps]:",
            Cell.real ((fd.m_scalarData.totalRxBytes : ℚ) * 8
              / (fd.m_scalarData.lastPacketReceived
                  - fd.m_scalarData.firstPacketReceived : Time).GetSeconds)]) ∧
    (fd.m_scalarData.lastPacketSent - fd.m_scalarData.firstPacketSent ≠ 0 →
      (fd.m_scalarData.lastPacketSent - fd.m_scalarData.firstPacketSent : Time).GetSeconds ≠ 0 ∧
      throughputLine "Tx" (fd.finalizeBlock singleFile allRxPackets)
        = some [Cell.text "Tx", Cell.text "Throughput [bps]:",
            Cell.real ((((fd.m_scalarData.totalTxPackets * fd.m_scalarData.packetSizeInBytes)
                % 2 ^ 32 : Nat) : ℚ) * 8
              / (fd.m_scalarData.lastPacketSent
                  - fd.m_scalarData.firstPacketSent : Time).GetSeconds)]) ∧
    (fd.m_scalarData.lastPacketReceived - fd.m_scalarData.firstPacketSent ≠ 0 →
      (fd.m_scalarData.lastPacketReceived - fd.m_scalarData.firstPacketSent : Time).GetSeconds ≠ 0 ∧
      realThroughputLine (fd.finalizeBlock singleFile allRxPackets)
        = some [Cell.empty, Cell.text "Real throughput [bps]:",
            Cell.real ((fd.m_scalarData.totalRxBytes : ℚ) * 8
              / (fd.m_scalarData.lastPacketReceived
                  - fd.m_scalarData.firstPacketSent : Time).GetSeconds)]) ∧
    (∀ l ∈ fd.finalizeBlock singleFile allRxPackets, Cell.text "undefined" ∉ l) := by
  refine ⟨?_, ?_, ?_, ?_, ?_, ?_, finalizeBlock_no_undefined _ _ _⟩
  · intro h; rw [throughputLine_rx, if_pos h]
  · intro h; rw [throughputLine_tx, if_pos h]
  · intro h; rw [realThroughputLine_eq, if_pos h]
  · intro h
    exact ⟨fun h0 => h ((getSeconds_eq_zero _).1 h0), by rw [throughputLine_rx, if_neg h]⟩
  · intro h
    exact ⟨fun h0 => h ((getSeconds_eq_zero _).1 h0), by rw [throughputLine_tx, if_neg h]⟩
  · intro h
    exact ⟨fun h0 => h ((getSeconds_eq_zero _).1 h0), by rw [realThroughputLine_eq, if_neg h]⟩

theorem C14_throughput_lines_guarded_witness :
    (sampleInstant.1.m_scalarData.lastPacketReceived
      - sampleInstant.1.m_scalarData.firstPacketReceived = 0 ∧
      throughputLine "Rx" (sampleInstant.1.finalizeBlock false 1) = none) ∧
    (sampleInstant.1.m_scalarData.lastPacketSent
      - sampleInstant.1.m_scalarData.firstPacketSent = 0 ∧
      throughputLine "Tx" (sampleInstant.1.finalizeBlock false 1) = none) ∧
    (sampleInstant.1.m_scalarData.lastPacketReceived
      - sampleInstant.1.m_scalarData.firstPacketSent = 0 ∧
      realThroughputLine (sampleInstant.1.finalizeBlock false 1) = none) ∧
    (sampleThree.1.m_scalarData.lastPacketReceived
      - sampleThree.1.m_scalarData.firstPacketReceived ≠ 0 ∧
      throughputLine "Rx" (sampleThree.1.finalizeBlock false 3)
        = some [Cell.text "Rx", Cell.text "Throughput [bps]:",
            Cell.real ((sampleThree.1.m_scalarData.totalRxBytes : ℚ) * 8
              / (sampleThree.1.m_scalarData.lastPacketReceived
                  - sampleThree.1.m_scalarData.firstPacketReceived : Time).GetSeconds)]) ∧
    (sampleThree.1.m_scalarData.lastPacketSent
      - sampleThree.1.m_scalarData.firstPacketSent ≠ 0 ∧
      throughputLine "Tx" (sampleThree.1.finalizeBlock false 3)
        = some [Cell.text "Tx", Cell.text "Throughput [bps]:",
            Cell.real ((((sampleThree.1.m_scalarData.totalTxPackets
                * sampleThree.1.m_scalarData.packetSizeInBytes) % 2 ^ 32 : Nat) : ℚ) * 8
              / (sampleThree.1.m_scalarData.lastPacketSent
                  - sampleThree.1.m_scalarData.firstPacketSent : Time).GetSeconds)]) ∧
    (sampleThree.1.m_scalarData.lastPacketReceived
      - sampleThree.1.m_scalarData.firstPacketSent ≠ 0 ∧
      realThroughputLine (sampleThree.1.finalizeBlock false 3)
        = some [Cell.empty, Cell.text "Real throughput [bps]:",
            Cell.real ((sampleThree.1.m_scalarData.totalRxBytes : ℚ) * 8
              / (sampleThree.1.m_scalarData.lastPacketReceived
                  - sampleThree.1.m_scalarData.firstPacketSent : Time).GetSeconds)]) := by
  have z1 : sampleInstant.1.m_scalarData.lastPacketReceived
      - sampleInstant.1.m_scalarData.firstPacketReceived = 0 := by
    rw [sampleInstant_scalars]; rfl
  have z2 : sampleInstant.1.m_scalarData.lastPacketSent
      - sampleInstant.1.m_scalarData.firstPacketSent = 0 := by
    rw [sampleInstant_scalars]; rfl
  have z3 : sampleInstant.1.m_scalarData.lastPacketReceived
      - sampleInstant.1.m_scalarData.firstPacketSent = 0 := by
    rw [sampleInstant_scalars]; rfl
  have n1 : sampleThree.1.m_scalarData.lastPacketReceived
      - sampleThree.1.m_scalarData.firstPacketReceived ≠ 0 := by
    rw [sampleThree_scalars]; decide
  have n2 : sampleThree.1.m_scalarData.lastPacketSent
      - sampleThree.1.m_scalarData.firstPacketSent ≠ 0 := by
    rw [sampleThree_scalars]; decide
  have n3 : sampleThree.1.m_scalarData.lastPacketReceived
      - sampleThree.1.m_scalarData.firstPacketSent ≠ 0 := by
    rw [sampleThree_scalars]; decide
  exact ⟨⟨z1, (C14_throughput_lines_guarded sampleInstant.1 false 1).1 z1⟩,
    ⟨z2, (C14_throughput_lines_guarded sampleInstant.1 false 1).2.1 z2⟩,
    ⟨z3, (C14_throughput_lines_guarded sampleInstant.1 false 1).2.2.1 z3⟩,
    ⟨n1, ((C14_throughput_lines_guarded sampleThree.1 false 3).2.2.2.1 n1).2⟩,
    ⟨n2, ((C14_throughput_lines_guarded sampleThree.1 false 3).2.2.2.2.1 n2).2⟩,
    ⟨n3, ((C14_throughput_lines_guarded sampleThree.1 false 3).2.2.2.2.2.1 n3).2⟩⟩

/-- The ninth line of the block is the jitter line with the jitter formula. -/
theorem finalizeBlock_jitter_line (fd : FlowData) (singleFile : Bool) (allRxPackets : Nat) :
    (fd.finalizeBlock singleFile allRxPackets).get? 8
      = some [Cell.text "Jitter [us]",
          Cell.formula (FlowData.jitterFormula (fd.formulaColumn singleFile)
            (fd.formulaRow singleFile allRxPackets) fd.m_scalarData.totalRxPackets)] := by
  simp [FlowData.finalizeBlock]

/-- With fewer than two samples the jitter formula has no value over any sheet: for
one sample its divisor is zero, for none the mean inside it divides by zero. -/
theorem jitterFormula_eval_none (sheet : Sheet) (column row n : Nat) (hn : n ≤ 1) :
    (FlowData.jitterFormula column row n).eval sheet = none := by
  have h01 : n = 0 ∨ n = 1 := by omega
  rcases h01 with h | h <;> subst h
  · simp only [FlowData.jitterFormula, Expr.eval]
    cases columnNumber column <;> simp [RangeFn.apply]
  · simp only [FlowData.jitterFormula, Expr.eval]
    cases columnNumber column <;> simp [RangeFn.apply]

/-- C15 (as stated, refuted): for an accumulator with one received sample the jitter
line holds the formula `=SQRT((SUMSQ(D2:D2)-(SUM(D2:D2)/1)^2)/0)`, whose divisor is
zero, and for one with none the formula
`=SQRT((SUMSQ(D2:D1)-(SUM(D2:D1)/0)^2)/4294967295)`, whose divisor is wrapped; neither
line holds an `undefined` marker. -/
theorem C15_jitter_formula_written_for_one_sample :
    sampleOnce.1.m_scalarData.totalRxPackets = 1 ∧
    (sampleOnce.1.finalizeBlock false 1).get? 8
      = some [Cell.text "Jitter [us]", Cell.formula (FlowData.jitterFormula 68 2 1)] ∧
    (FlowData.jitterFormula 68 2 1).render = "SQRT((SUMSQ(D2:D2)-(SUM(D2:D2)/1)^2)/0)" ∧
    (sampleOnce.1.finalizeBlock false 1).get? 8
      ≠ some [Cell.text "Jitter [us]", Cell.text "undefined"] ∧
    sampleFlow.m_scalarData.totalRxPackets = 0 ∧
    (sampleFlow.finalizeBlock false 0).get? 8
      = some [Cell.text "Jitter [us]", Cell.formula (FlowData.jitterFormula 68 1 0)] ∧
    (FlowData.jitterFormula 68 1 0).render
      = "SQRT((SUMSQ(D2:D1)-(SUM(D2:D1)/0)^2)/4294967295)" := by
  have h1 : (sampleOnce.1.finalizeBlock false 1).get? 8
      = some [Cell.text "Jitter [us]", Cell.formula (FlowData.jitterFormula 68 2 1)] := by
    rw [finalizeBlock_jitter_line]
    simp [FlowData.formulaColumn, FlowData.formulaRow, sampleOnce_scalars]
  have h0 : sampleFlow.m_scalarData = {} := rfl
  refine ⟨by rw [sampleOnce_scalars], h1, by decide, ?_, by rw [h0], ?_, by decide⟩
  · rw [h1]; simp
  · rw [finalizeBlock_jitter_line]
    simp [FlowData.formulaColumn, FlowData.formulaRow, h0]

/-- C15 (amended): `Finalize` writes the jitter formula on the ninth line of the block
whatever the number of samples, never an `undefined` marker; with fewer than two
samples that formula divides by zero and has no value over any sheet. -/
theorem C15_jitter_formula_always_written (fd : FlowData) (singleFile : Bool)
    (allRxPackets : Nat) :
    (fd.finalizeBlock singleFile allRxPackets).get? 8
      = some [Cell.text "Jitter [us]",
          Cell.formula (FlowData.jitterFormula (fd.formulaColumn singleFile)
            (fd.formulaRow singleFile allRxPackets) fd.m_scalarData.totalRxPackets)] ∧
    (∀ l ∈ fd.finalizeBlock singleFile allRxPackets, Cell.text "undefined" ∉ l) ∧
    (fd.m_scalarData.totalRxPackets ≤ 1 →
      ∀ sheet : Sheet, (FlowData.jitterFormula (fd.formulaColumn singleFile)
        (fd.formulaRow singleFile allRxPackets) fd.m_scalarData.totalRxPackets).eval sheet
          = none) :=
  ⟨finalizeBlock_jitter_line fd singleFile allRxPackets,
    finalizeBlock_no_undefined fd singleFile allRxPackets,
    fun h sheet => jitterFormula_eval_none sheet _ _ _ h⟩

theorem C15_jitter_formula_always_written_witness :
    sampleOnce.1.m_scalarData.totalRxPackets ≤ 1 ∧
    (FlowData.jitterFormula (sampleOnce.1.formulaColumn false)
      (sampleOnce.1.formulaRow false 1) sampleOnce.1.m_scalarData.totalRxPackets).eval
        (sampleOnce.2 sampleOnce.1.m_fileName) = none :=
  ⟨by rw [sampleOnce_scalars],
    (C15_jitter_formula_always_written sampleOnce.1 false 1).2.2
      (by rw [sampleOnce_scalars]) _⟩

/-! ## Monotone totals and the `first` fields -/

/-- C19 (as stated, refuted): an accumulator whose `totalRxPackets` is `2 ^ 32 - 1`
has `totalRxPackets = 0` after the next arrival. -/
theorem C19_received_count_wraps :
    wornFlow.m_scalarData.totalRxPackets = 4294967295 ∧
    (wornFlow.PacketReceived sampleFiles 20000 (samplePacket 1 12000)
      false).1.m_scalarData.totalRxPackets = 0 ∧
    ¬ (wornFlow.m_scalarData.totalRxPackets
        ≤ (wornFlow.PacketReceived sampleFiles 20000 (samplePacket 1 12000)
            false).1.m_scalarData.totalRxPackets) := by
  have h0 : wornFlow.m_scalarData.totalRxPackets = 4294967295 := rfl
  have h1 : (wornFlow.PacketReceived sampleFiles 20000 (samplePacket 1 12000)
      false).1.m_scalarData.totalRxPackets = 0 := by
    rw [packetReceived_scalars]
    simp only [FlowData.updateScalars, h0]
    norm_num
  exact ⟨h0, h1, by rw [h0, h1]; norm_num⟩

/-- C19 (amended): `totalTxPackets` after an arrival is never below its value before;
`totalRxPackets` and `totalRxBytes` are not below their values before whenever the
increment does not leave the range of the counter (`uint32_t`, `uint64_t`). -/
theorem C19_totals_non_decreasing (fd : FlowData) (fs : FileSystem) (now : Time)
    (packet : Packet) (singleFile : Bool) :
    fd.m_scalarData.totalTxPackets
      ≤ (fd.PacketReceived fs now packet singleFile).1.m_scalarData.totalTxPackets ∧
    (fd.m_scalarData.totalRxPackets + 1 < 2 ^ 32 →
      fd.m_scalarData.totalRxPackets
        ≤ (fd.PacketReceived fs now packet singleFile).1.m_scalarData.totalRxPackets) ∧
    (fd.m_scalarData.totalRxBytes + packet.GetSize % 2 ^ 16 < 2 ^ 64 →
      fd.m_scalarData.totalRxBytes
        ≤ (fd.PacketReceived fs now packet singleFile).1.m_scalarData.totalRxBytes) := by
  refine ⟨?_, ?_, ?_⟩
  · rw [packetReceived_scalars]
    simp only [FlowData.updateScalars]
    split <;> omega
  · intro h
    rw [packetReceived_scalars]
    simp only [FlowData.updateScalars]
    rw [Nat.mod_eq_of_lt h]
    omega
  · intro h
    rw [packetReceived_scalars]
    simp only [FlowData.updateScalars]
    rw [Nat.mod_eq_of_lt h]
    omega

theorem C19_totals_non_decreasing_witness :
    (sampleOnce.1.m_scalarData.totalRxPackets + 1 < 2 ^ 32 ∧
      sampleOnce.1.m_scalarData.totalRxPackets
        ≤ (sampleOnce.1.PacketReceived sampleOnce.2 20000 (samplePacket 1 12000)
            false).1.m_scalarData.totalRxPackets) ∧
    (sampleOnce.1.m_scalarData.totalRxBytes + (samplePacket 1 12000).GetSize % 2 ^ 16 < 2 ^ 64 ∧
      sampleOnce.1.m_scalarData.totalRxBytes
        ≤ (sampleOnce.1.PacketReceived sampleOnce.2 20000 (samplePacket 1 12000)
            false).1.m_scalarData.totalRxBytes) := by
  have h1 : sampleOnce.1.m_scalarData.totalRxPackets + 1 < 2 ^ 32 := by
    rw [sampleOnce_scalars]; norm_num
  have h2 : sampleOnce.1.m_scalarData.totalRxBytes
      + (samplePacket 1 12000).GetSize % 2 ^ 16 < 2 ^ 64 := by
    have hs : (samplePacket 1 12000).GetSize = 20 := rfl
    rw [sampleOnce_scalars, hs]; norm_num
  exact ⟨⟨h1, (C19_totals_non_decreasing sampleOnce.1 sampleOnce.2 20000
      (samplePacket 1 12000) false).2.1 h1⟩,
    ⟨h2, (C19_totals_non_decreasing sampleOnce.1 sampleOnce.2 20000
      (samplePacket 1 12000) false).2.2 h2⟩⟩

/-- Scalars after a sequence of arrivals handled by `FlowData::PacketReceived`. -/
theorem receiveAll_scalars (singleFile : Bool) :
    ∀ (l : List (Time × Packet)) (fd : FlowData) (fs : FileSystem),
      (fd.receiveAll fs singleFile l).1.m_scalarData
        = FlowData.scalarsAfter fd.m_scalarData l := by
  intro l
  induction l with
  | nil => intro fd fs; rfl
  | cons x rest ih =>
    intro fd fs
    have h := ih (fd.PacketReceived fs x.1 x.2 singleFile).1
      (fd.PacketReceived fs x.1 x.2 singleFile).2
    simpa [FlowData.receiveAll, FlowData.scalarsAfter, packetReceived_scalars] using h

/-- The `first` fields after one arrival: taken from the arrival exactly when the
incremented count of received packets is 1. -/
theorem updateScalars_first (sd : ScalarData) (now : Time) (packet : Packet) :
    (FlowData.updateScalars sd now packet).totalRxPackets = (sd.totalRxPackets + 1) % 2 ^ 32 ∧
    (FlowData.updateScalars sd now packet).firstPacketReceived
      = (if (sd.totalRxPackets + 1) % 2 ^ 32 = 1 then now else sd.firstPacketReceived) ∧
    (FlowData.updateScalars sd now packet).firstPacketSent
      = (if (sd.totalRxPackets + 1) % 2 ^ 32 = 1 then (packet.PeekHeader.m_ts : Int)
          else sd.firstPacketSent) ∧
    (FlowData.updateScalars sd now packet).firstDelay
      = (if (sd.totalRxPackets + 1) % 2 ^ 32 = 1 then now - (packet.PeekHeader.m_ts : Int)
          else sd.firstDelay) := by
  simp [FlowData.updateScalars, StatsHeader.GetTs, TimeStep]

/-- While the count of received packets stays inside its range and is at least 1,
further arrivals add to the count and leave the `first` fields alone. -/
theorem scalarsAfter_keep :
    ∀ (l : List (Time × Packet)) (sd : ScalarData),
      1 ≤ sd.totalRxPackets → sd.totalRxPackets + l.length < 2 ^ 32 →
      (FlowData.scalarsAfter sd l).totalRxPackets = sd.totalRxPackets + l.length ∧
      (FlowData.scalarsAfter sd l).firstPacketReceived = sd.firstPacketReceived ∧
      (FlowData.scalarsAfter sd l).firstPacketSent = sd.firstPacketSent ∧
      (FlowData.scalarsAfter sd l).firstDelay = sd.firstDelay := by
  intro l
  induction l with
  | nil => intro sd _ _; exact ⟨rfl, rfl, rfl, rfl⟩
  | cons x rest ih =>
    intro sd h1 h2
    simp only [List.length_cons] at h2
    obtain ⟨e1, e2, e3, e4⟩ := updateScalars_first sd x.1 x.2
    have hmod : (sd.totalRxPackets + 1) % 2 ^ 32 = sd.totalRxPackets + 1 :=
      Nat.mod_eq_of_lt (by omega)
    have hne : ¬ ((sd.totalRxPackets + 1) % 2 ^ 32 = 1) := by rw [hmod]; omega
    rw [hmod] at e1
    rw [if_neg hne] at e2 e3 e4
    obtain ⟨i1, i2, i3, i4⟩ := ih (FlowData.updateScalars sd x.1 x.2) (by omega) (by omega)
    have hstep : FlowData.scalarsAfter sd (x :: rest)
        = FlowData.scalarsAfter (FlowData.updateScalars sd x.1 x.2) rest := rfl
    rw [hstep]
    refine ⟨by rw [i1, e1, List.length_cons]; omega, by rw [i2, e2], by rw [i3, e3],
      by rw [i4, e4]⟩

/-- Scalars after two lists of arrivals in a row. -/
theorem scalarsAfter_append (sd : ScalarData) (l1 l2 : List (Time × Packet)) :
    FlowData.scalarsAfter sd (l1 ++ l2) = FlowData.scalarsAfter (FlowData.scalarsAfter sd l1) l2 := by
  simp [FlowData.scalarsAfter, List.foldl_append]

/-- The arrivals of `wrapArrivals` with the last two set apart. -/
theorem wrapArrivals_eq :
    wrapArrivals = ([(10000, samplePacket 0 5000)]
      ++ List.replicate 4294967294 (20000, samplePacket 1 12000))
      ++ [(20000, samplePacket 1 12000), (20000, samplePacket 1 12000)] := by
  have h : ∀ n : Nat, List.replicate (n + 2) ((20000 : Time), samplePacket 1 12000)
      = List.replicate n (20000, samplePacket 1 12000)
        ++ [(20000, samplePacket 1 12000), (20000, samplePacket 1 12000)] :=
    fun n => List.replicate_add n 2 _
  have h2 := h 4294967294
  simp only [Nat.reduceAdd] at h2
  unfold wrapArrivals
  rw [h2, List.singleton_append, List.cons_append]

/-- Number of arrivals in `wrapArrivals`. -/
theorem wrapArrivals_length : wrapArrivals.length = 4294967297 := by
  unfold wrapArrivals
  rw [List.length_cons, List.length_replicate]

/-- C20 (as stated, refuted): a fresh accumulator receives a packet at 10 us and then
`2 ^ 32` packets at 20 us; after the last of them `firstPacketReceived` is 20 us, not
the 10 us of the first arrival: the count of received packets has wrapped to 0 and
the arrival after that is taken for a first one. -/
theorem C20_first_fields_overwritten_after_wrap :
    sampleFlow.m_scalarData.totalRxPackets = 0 ∧
    wrapArrivals.head? = some (10000, samplePacket 0 5000) ∧
    wrapArrivals.length = 4294967297 ∧
    (sampleFlow.receiveAll sampleFiles false wrapArrivals).1.m_scalarData.firstPacketReceived
      = 20000 := by
  refine ⟨rfl, ?_, wrapArrivals_length, ?_⟩
  · unfold wrapArrivals
    exact List.head?_cons
  rw [receiveAll_scalars, wrapArrivals_eq, scalarsAfter_append, scalarsAfter_append]
  have h0 : sampleFlow.m_scalarData = {} := rfl
  have hfirst : (FlowData.scalarsAfter sampleFlow.m_scalarData
      [(10000, samplePacket 0 5000)]).totalRxPackets = 1 := by
    rw [h0]
    exact (updateScalars_first {} 10000 (samplePacket 0 5000)).1
  obtain ⟨hrx, _, _, _⟩ := scalarsAfter_keep
    (List.replicate 4294967294 ((20000 : Time), samplePacket 1 12000))
    (FlowData.scalarsAfter sampleFlow.m_scalarData [(10000, samplePacket 0 5000)])
    (by rw [hfirst]) (by rw [hfirst, List.length_replicate]; norm_num)
  rw [hfirst, List.length_replicate] at hrx
  have hstep : ∀ sd : ScalarData, FlowData.scalarsAfter sd
      [((20000 : Time), samplePacket 1 12000), (20000, samplePacket 1 12000)]
      = FlowData.updateScalars (FlowData.updateScalars sd 20000 (samplePacket 1 12000)) 20000
          (samplePacket 1 12000) := fun _ => rfl
  rw [hstep]
  obtain ⟨a1, _, _, _⟩ := updateScalars_first
    (FlowData.scalarsAfter (FlowData.scalarsAfter sampleFlow.m_scalarData
      [(10000, samplePacket 0 5000)])
      (List.replicate 4294967294 ((20000 : Time), samplePacket 1 12000))) 20000
    (samplePacket 1 12000)
  rw [hrx] at a1
  obtain ⟨_, b2, _, _⟩ := updateScalars_first
    (FlowData.updateScalars (FlowData.scalarsAfter (FlowData.scalarsAfter
      sampleFlow.m_scalarData [(10000, samplePacket 0 5000)])
      (List.replicate 4294967294 ((20000 : Time), samplePacket 1 12000))) 20000
      (samplePacket 1 12000)) 20000 (samplePacket 1 12000)
  rw [b2, a1]
  norm_num

/-- C20 (amended): on the first arrival delivered to an accumulator (count of received
packets 0) the three `first` fields are set to that arrival's receive time, send
timestamp and delay; on every later arrival they keep their values as long as the
accumulator has received fewer than `2 ^ 32 - 1` packets, so that after any sequence
of fewer than `2 ^ 32` arrivals they are those of the first one. -/
theorem C20_first_fields (fd : FlowData) (fs : FileSystem) (now : Time) (packet : Packet)
    (singleFile : Bool) :
    (fd.m_scalarData.totalRxPackets = 0 →
      (fd.PacketReceived fs now packet singleFile).1.m_scalarData.firstPacketReceived = now ∧
      (fd.PacketReceived fs now packet singleFile).1.m_scalarData.firstPacketSent
        = (packet.PeekHeader.m_ts : Int) ∧
      (fd.PacketReceived fs now packet singleFile).1.m_scalarData.firstDelay
        = now - (packet.PeekHeader.m_ts : Int)) ∧
    (1 ≤ fd.m_scalarData.totalRxPackets → fd.m_scalarData.totalRxPackets + 1 < 2 ^ 32 →
      (fd.PacketReceived fs now packet singleFile).1.m_scalarData.firstPacketReceived
        = fd.m_scalarData.firstPacketReceived ∧
      (fd.PacketReceived fs now packet singleFile).1.m_scalarData.firstPacketSent
        = fd.m_scalarData.firstPacketSent ∧
      (fd.PacketReceived fs now packet singleFile).1.m_scalarData.firstDelay
        = fd.m_scalarData.firstDelay) ∧
    (∀ rest : List (Time × Packet), fd.m_scalarData.totalRxPackets = 0 →
      rest.length + 1 < 2 ^ 32 →
      (fd.receiveAll fs singleFile ((now, packet) :: rest)).1.m_scalarData.firstPacketReceived
        = now ∧
      (fd.receiveAll fs singleFile ((now, packet) :: rest)).1.m_scalarData.firstPacketSent
        = (packet.PeekHeader.m_ts : Int) ∧
      (fd.receiveAll fs singleFile ((now, packet) :: rest)).1.m_scalarData.firstDelay
        = now - (packet.PeekHeader.m_ts : Int)) := by
  obtain ⟨e1, e2, e3, e4⟩ := updateScalars_first fd.m_scalarData now packet
  refine ⟨?_, ?_, ?_⟩
  · intro h0
    rw [h0] at e2 e3 e4
    simp only [packetReceived_scalars]
    exact ⟨by rw [e2]; rfl, by rw [e3]; rfl, by rw [e4]; rfl⟩
  · intro h1 h2
    have hne : ¬ ((fd.m_scalarData.totalRxPackets + 1) % 2 ^ 32 = 1) := by
      rw [Nat.mod_eq_of_lt h2]; omega
    rw [if_neg hne] at e2 e3 e4
    simp only [packetReceived_scalars]
    exact ⟨e2, e3, e4⟩
  · intro rest h0 hlen
    rw [h0] at e1 e2 e3 e4
    have hone : (FlowData.updateScalars fd.m_scalarData now packet).totalRxPackets = 1 := by
      rw [e1]; rfl
    obtain ⟨_, k2, k3, k4⟩ := scalarsAfter_keep rest
      (FlowData.updateScalars fd.m_scalarData now packet) (by rw [hone])
      (by rw [hone]; omega)
    have hstep : FlowData.scalarsAfter fd.m_scalarData ((now, packet) :: rest)
        = FlowData.scalarsAfter (FlowData.updateScalars fd.m_scalarData now packet) rest := rfl
    rw [receiveAll_scalars, hstep]
    exact ⟨by rw [k2, e2]; rfl, by rw [k3, e3]; rfl, by rw [k4, e4]; rfl⟩

theorem C20_first_fields_witness :
    (sampleFlow.m_scalarData.totalRxPackets = 0 ∧
      (sampleFlow.PacketReceived sampleFiles 10000 (samplePacket 0 5000)
        false).1.m_scalarData.firstPacketReceived = 10000) ∧
    (1 ≤ sampleOnce.1.m_scalarData.totalRxPackets ∧
      sampleOnce.1.m_scalarData.totalRxPackets + 1 < 2 ^ 32 ∧
      (sampleOnce.1.PacketReceived sampleOnce.2 20000 (samplePacket 1 12000)
        false).1.m_scalarData.firstPacketReceived
        = sampleOnce.1.m_scalarData.firstPacketReceived) ∧
    ([((20000 : Time), samplePacket 1 12000), (35000, samplePacket 2 30000)].length + 1 < 2 ^ 32 ∧
      (sampleFlow.receiveAll sampleFiles false ((10000, samplePacket 0 5000)
        :: [(20000, samplePacket 1 12000), (35000, samplePacket 2 30000)])).1.m_scalarData.firstPacketReceived
        = 10000) := by
  have h0 : sampleFlow.m_scalarData.totalRxPackets = 0 := rfl
  have h1 : 1 ≤ sampleOnce.1.m_scalarData.totalRxPackets := by rw [sampleOnce_scalars]
  have h2 : sampleOnce.1.m_scalarData.totalRxPackets + 1 < 2 ^ 32 := by
    rw [sampleOnce_scalars]; norm_num
  have h3 : [((20000 : Time), samplePacket 1 12000), (35000, samplePacket 2 30000)].length + 1
      < 2 ^ 32 := by norm_num
  exact ⟨⟨h0, ((C20_first_fields sampleFlow sampleFiles 10000 (samplePacket 0 5000) false).1
      h0).1⟩,
    ⟨h1, h2, ((C20_first_fields sampleOnce.1 sampleOnce.2 20000 (samplePacket 1 12000)
      false).2.1 h1 h2).1⟩,
    ⟨h3, ((C20_first_fields sampleFlow sampleFiles 10000 (samplePacket 0 5000) false).2.2
      _ h0 h3).1⟩⟩

/-! ## One call of `StatsFlows::PacketReceived` in full -/

/-- Everything a returning call has done, by the two branches of the source: a miss
(`i` is the number of keys) registers the key with index `i` and a fresh accumulator
and delivers to it; a hit delivers to the accumulator at the position found. -/
theorem packetReceived_cases (fuel : Nat) (s : StatsFlows) (fs : FileSystem) (a : Arrival)
    (d : Delivered) (h : StatsFlows.PacketReceived fuel s fs a = Except.ok d) :
    StatsFlows.findLoop s.m_flowIds a.fid fuel 0 = Except.ok d.i ∧
    ((d.i = s.m_flowIds.length ∧
      ∃ fd, (s.m_flowData ++ [(FlowData.construct fs { a.fid with index := d.i } s.m_fileName
          s.m_singleFile).1])[d.i]? = some fd ∧
        d.flows = { s with
          m_flowIds := s.m_flowIds ++ [{ a.fid with index := d.i }],
          m_flowData := (s.m_flowData ++ [(FlowData.construct fs { a.fid with index := d.i }
            s.m_fileName s.m_singleFile).1]).set d.i
              (fd.PacketReceived (FlowData.construct fs { a.fid with index := d.i } s.m_fileName
                s.m_singleFile).2 a.now a.packet s.m_singleFile).1,
          m_allRxPackets := (s.m_allRxPackets + 1) % 2 ^ 32 } ∧
        d.files = (fd.PacketReceived (FlowData.construct fs { a.fid with index := d.i }
          s.m_fileName s.m_singleFile).2 a.now a.packet s.m_singleFile).2) ∨
     (d.i ≠ s.m_flowIds.length ∧
      ∃ fd, s.m_flowData[d.i]? = some fd ∧
        d.flows = { s with
          m_flowData := s.m_flowData.set d.i
            (fd.PacketReceived fs a.now a.packet s.m_singleFile).1,
          m_allRxPackets := (s.m_allRxPackets + 1) % 2 ^ 32 } ∧
        d.files = (fd.PacketReceived fs a.now a.packet s.m_singleFile).2)) := by
  unfold StatsFlows.PacketReceived at h
  dsimp only at h
  split at h
  · exact absurd h (by simp)
  · rename_i i hloop
    by_cases hi : i = s.m_flowIds.length
    · rw [if_pos hi] at h
      dsimp only at h
      split at h
      · exact absurd h (by simp)
      · rename_i fd hget
        injection h with h
        subst h
        exact ⟨hloop, Or.inl ⟨hi, fd, by simpa using hget, rfl, rfl⟩⟩
    · rw [if_neg hi] at h
      dsimp only at h
      split at h
      · exact absurd h (by simp)
      · rename_i fd hget
        injection h with h
        subst h
        exact ⟨hloop, Or.inr ⟨hi, fd, by simpa using hget, rfl, rfl⟩⟩

/-- The counter of all received packets after a returning call. -/
theorem packetReceived_allRxPackets (fuel : Nat) (s : StatsFlows) (fs : FileSystem)
    (a : Arrival) (d : Delivered) (h : StatsFlows.PacketReceived fuel s fs a = Except.ok d) :
    d.flows.m_allRxPackets = (s.m_allRxPackets + 1) % 2 ^ 32 ∧
    d.flows.m_fileName = s.m_fileName ∧ d.flows.m_singleFile = s.m_singleFile := by
  obtain ⟨_, hcase⟩ := packetReceived_cases fuel s fs a d h
  rcases hcase with ⟨_, fd, _, hflows, _⟩ | ⟨_, fd, _, hflows, _⟩ <;> rw [hflows] <;>
    exact ⟨rfl, rfl, rfl⟩

/-- The scalars change with every arrival: the count of received packets moves. -/
theorem updateScalars_ne (sd : ScalarData) (now : Time) (packet : Packet) :
    FlowData.updateScalars sd now packet ≠ sd := by
  intro h
  have h1 := (updateScalars_first sd now packet).1
  rw [h] at h1
  omega

/-- Frame of a returning call on a well-formed registry: the accumulator at the
position of delivery carries the arrival's four ids and has the scalars of the
accumulator that stood there (or of a fresh one, when it was just registered) updated
by the arrival; no other position of the accumulator list changes; every key that was
registered keeps its position. -/
theorem packetReceived_frame (fuel : Nat) (s : StatsFlows) (fs : FileSystem) (a : Arrival)
    (d : Delivered) (hw : s.wellFormed)
    (h : StatsFlows.PacketReceived fuel s fs a = Except.ok d) :
    (∃ before after : FlowData,
      d.flows.m_flowData[d.i]? = some after ∧ after.m_flowId.key = a.key ∧
      (s.m_flowData[d.i]? = some before ∨
        (s.m_flowData[d.i]? = none ∧ before.m_scalarData = {})) ∧
      after.m_scalarData = FlowData.updateScalars before.m_scalarData a.now a.packet ∧
      after.m_scalarData ≠ before.m_scalarData) ∧
    (∀ k : Nat, k ≠ d.i → d.flows.m_flowData[k]? = s.m_flowData[k]?) ∧
    (∀ (k : Nat) (id : NetFlowId), s.m_flowIds[k]? = some id →
      d.flows.m_flowIds[k]? = some id) := by
  obtain ⟨hwd, ⟨ext, hext, _⟩, ⟨id, hid, hkey⟩, _⟩ :=
    packetReceived_wellFormed fuel s fs a d hw h
  obtain ⟨_, hcase⟩ := packetReceived_cases fuel s fs a d h
  have hlen : s.m_flowData.length = s.m_flowIds.length := by
    rw [← hw.1, List.length_map]
  have hkeys : ∀ (k : Nat) (id : NetFlowId), s.m_flowIds[k]? = some id →
      d.flows.m_flowIds[k]? = some id := by
    intro k id0 hk
    rcases List.getElem?_eq_some.1 hk with ⟨hlt, _⟩
    rw [hext, List.getElem?_append_left hlt]
    exact hk
  have hafter : ∀ after : FlowData, d.flows.m_flowData[d.i]? = some after →
      after.m_flowId.key = a.key := by
    intro after hafter
    have hm : (d.flows.m_flowData.map (fun fd => fd.m_flowId))[d.i]? = some after.m_flowId := by
      rw [List.getElem?_map, hafter]; rfl
    rw [hwd.1, hid] at hm
    rw [← Option.some.inj hm]
    exact hkey
  rcases hcase with ⟨hi, fd, hget, hflows, _⟩ | ⟨hi, fd, hget, hflows, _⟩
  · have hfd : fd = (FlowData.construct fs { a.fid with index := d.i } s.m_fileName
        s.m_singleFile).1 := by
      rw [List.getElem?_append_right (by omega)] at hget
      have : d.i - s.m_flowData.length = 0 := by omega
      rw [this] at hget
      exact (Option.some.inj hget).symm
    have hdata : d.flows.m_flowData = (s.m_flowData ++ [(FlowData.construct fs
        { a.fid with index := d.i } s.m_fileName s.m_singleFile).1]).set d.i
          (fd.PacketReceived (FlowData.construct fs { a.fid with index := d.i } s.m_fileName
            s.m_singleFile).2 a.now a.packet s.m_singleFile).1 := by
      rw [hflows]
    have hset : d.flows.m_flowData[d.i]? = some (fd.PacketReceived (FlowData.construct fs
        { a.fid with index := d.i } s.m_fileName s.m_singleFile).2 a.now a.packet
          s.m_singleFile).1 := by
      rw [hdata, List.getElem?_set_self (by simp; omega)]
    refine ⟨⟨fd, _, hset, hafter _ hset, Or.inr ⟨?_, ?_⟩, rfl, updateScalars_ne _ _ _⟩, ?_, hkeys⟩
    · exact List.getElem?_eq_none (by omega)
    · rw [hfd]; rfl
    · intro k hk
      rw [hdata, List.getElem?_set_ne (Ne.symm hk)]
      by_cases hlt : k < s.m_flowData.length
      · exact List.getElem?_append_left hlt
      · rw [List.getElem?_eq_none (by simp; omega), List.getElem?_eq_none (by omega)]
  · have hdata : d.flows.m_flowData = s.m_flowData.set d.i
        (fd.PacketReceived fs a.now a.packet s.m_singleFile).1 := by
      rw [hflows]
    have hlt : d.i < s.m_flowData.length := (List.getElem?_eq_some.1 hget).1
    have hset : d.flows.m_flowData[d.i]? = some (fd.PacketReceived fs a.now a.packet
        s.m_singleFile).1 := by
      rw [hdata, List.getElem?_set_self hlt]
    refine ⟨⟨fd, _, hset, hafter _ hset, Or.inl hget, rfl, updateScalars_ne _ _ _⟩, ?_, hkeys⟩
    intro k hk
    rw [hdata, List.getElem?_set_ne (Ne.symm hk)]

/-- Every reachable registry state is well-formed. -/
theorem reachable_wellFormed (fn : String) (s : StatsFlows) (fs : FileSystem)
    (hr : StatsFlows.reachable fn s fs) : s.wellFormed := by
  obtain ⟨fuel, fs0, as, tr, hrun⟩ := hr
  exact (run_sound fuel as _ fs0 s fs tr (construct_wellFormed fn) hrun).1

/-- Every key in the registry after a returning run was there before or has the four
ids of one of the arrivals. -/
theorem run_keys_from (fuel : Nat) :
    ∀ (as : List Arrival) (s : StatsFlows) (fs : FileSystem) (s1 : StatsFlows)
      (fs1 : FileSystem) (tr : List Dispatch),
      s.wellFormed → StatsFlows.run fuel s fs as = Except.ok (s1, fs1, tr) →
      ∀ id ∈ s1.m_flowIds, id ∈ s.m_flowIds ∨ id.key ∈ as.map Arrival.key := by
  intro as
  induction as with
  | nil =>
    intro s fs s1 fs1 tr _ h id hid
    simp only [StatsFlows.run, Except.ok.injEq, Prod.mk.injEq] at h
    rw [← h.1] at hid
    exact Or.inl hid
  | cons a rest ih =>
    intro s fs s1 fs1 tr hw h id hid
    unfold StatsFlows.run at h
    split at h
    · exact absurd h (by simp)
    · rename_i d hd
      split at h
      · exact absurd h (by simp)
      · rename_i s2 fs2 tr2 hrest
        simp only [Except.ok.injEq, Prod.mk.injEq] at h
        rw [← h.1] at hid
        obtain ⟨hwd, ⟨ext, hext, hextkey⟩, _, _⟩ := packetReceived_wellFormed fuel s fs a d hw hd
        rcases ih d.flows d.files s2 fs2 tr2 hwd hrest id hid with h1 | h1
        · rw [hext] at h1
          rcases List.mem_append.1 h1 with h2 | h2
          · exact Or.inl h2
          · right
            rw [List.map_cons, hextkey id h2]
            exact List.mem_cons_self _ _
        · right
          rw [List.map_cons]
          exact List.mem_cons_of_mem _ h1

/-- Keys of `fullFlows`: the sink node ids 0 to 65535. -/
theorem fullFlows_keys :
    fullFlows.map Arrival.key = (List.range 65536).map (fun k => (0, 0, k, 0)) := by
  unfold fullFlows
  rw [List.map_map]
  apply List.map_congr_left
  intro k _
  exact key_ofHeader 0 (StatsHeader.mk 0 0 0 0) k 0 (by decide)

/-- The run over `fullFlows` from the empty registry returns a registry with exactly
`2 ^ 16` keys and accumulators, none of which has the four ids of `extraFlow`. -/
theorem fullFlows_run (fn : String) (fs0 : FileSystem) :
    ∃ s fs tr, StatsFlows.run 65537 (StatsFlows.construct fn) fs0 fullFlows
        = Except.ok (s, fs, tr) ∧
      s.wellFormed ∧ s.m_flowIds.length = 65536 ∧ s.m_flowData.length = 65536 ∧
      extraFlow.key ∉ s.m_flowIds.map NetFlowId.key := by
  have hw := construct_wellFormed fn
  have hnd : (fullFlows.map Arrival.key).Nodup := by
    rw [fullFlows_keys]
    apply List.Nodup.map _ (List.nodup_range _)
    intro x y hxy
    simp only [Prod.mk.injEq] at hxy
    exact hxy.2.2.1
  have hlenU : (fullFlows.map Arrival.key).length ≤ 2 ^ 16 := by
    rw [fullFlows_keys, List.length_map, List.length_range]
    norm_num
  obtain ⟨⟨s, fs, tr⟩, hrun⟩ := run_total 65537 (by norm_num) (fullFlows.map Arrival.key) hlenU
    fullFlows (StatsFlows.construct fn) fs0 hw
    (fun a ha => List.mem_map.2 ⟨a, ha, rfl⟩)
    (by intro id hid; simp [StatsFlows.construct] at hid)
  obtain ⟨hw1, _, _, _⟩ := run_sound 65537 fullFlows _ fs0 s fs tr hw hrun
  have hsub := run_keys_registered 65537 fullFlows _ fs0 s fs tr hw hrun
  have hge := (hnd.subperm hsub).length_le
  rw [fullFlows_keys] at hge
  simp only [List.length_map, List.length_range] at hge
  have hle := hw1.2.1
  have hlen : s.m_flowIds.length = 65536 := by omega
  have hlen2 : s.m_flowData.length = 65536 := by
    rw [← hlen, ← hw1.1, List.length_map]
  refine ⟨s, fs, tr, hrun, hw1, hlen, hlen2, ?_⟩
  intro hmem
  rcases List.mem_map.1 hmem with ⟨id, hid, hkey⟩
  rcases run_keys_from 65537 fullFlows _ fs0 s fs tr hw hrun id hid with h1 | h1
  · simp [StatsFlows.construct] at h1
  · rw [hkey, fullFlows_keys] at h1
    have hk : extraFlow.key = (0, 0, 65536, 0) :=
      key_ofHeader 0 (StatsHeader.mk 0 0 0 0) 65536 0 (by decide)
    rw [hk] at h1
    rcases List.mem_map.1 h1 with ⟨k, hk1, hk2⟩
    simp only [Prod.mk.injEq] at hk2
    have := List.mem_range.1 hk1
    omega

/-- On a well-formed registry with `2 ^ 16` keys, a call for a key that is not among
them returns for no number of loop steps. -/
theorem packetReceived_full (s : StatsFlows) (fs : FileSystem) (a : Arrival)
    (hw : s.wellFormed) (hlen : s.m_flowIds.length = 65536)
    (hnew : a.key ∉ s.m_flowIds.map NetFlowId.key) :
    ¬ ∃ fuel d, StatsFlows.PacketReceived fuel s fs a = Except.ok d := by
  rintro ⟨fuel, d, h⟩
  obtain ⟨hwd, ⟨ext, hext, hextkey⟩, ⟨id, hid, hkey⟩, _⟩ :=
    packetReceived_wellFormed fuel s fs a d hw h
  have hmem : id ∈ d.flows.m_flowIds := List.getElem?_mem hid
  rw [hext] at hmem
  have hne : ext ≠ [] := by
    intro he
    rw [he, List.append_nil] at hmem
    exact hnew (List.mem_map.2 ⟨id, hmem, hkey⟩)
  have hlen2 := hwd.2.1
  rw [hext, List.length_append, hlen] at hlen2
  have : 0 < ext.length := List.length_pos.2 hne
  omega

/-! ## Undecodable packets, the frame of a call, the shape of the registry -/

/-- C16 (as stated, refuted): a packet with no bytes at all arrives at the empty
registry; the call returns with `allRxPackets = 1` and one key registered, so the
registry is not as before the call. -/
theorem C16_empty_packet_is_counted :
    emptyPacketArrival.packet.m_buffer.data.length < 20 ∧
    ∃ d, StatsFlows.PacketReceived 65537 (StatsFlows.construct "noname") (fun _ => [])
        emptyPacketArrival = Except.ok d ∧
      d.flows.m_allRxPackets = 1 ∧ (StatsFlows.construct "noname").m_allRxPackets = 0 ∧
      d.flows.m_flowIds.length = 1 ∧ (StatsFlows.construct "noname").m_flowIds.length = 0 ∧
      d.flows ≠ StatsFlows.construct "noname" := by
  refine ⟨by decide, ?_⟩
  have hw := construct_wellFormed "noname"
  obtain ⟨d, hd⟩ := packetReceived_total 65537 (StatsFlows.construct "noname") (fun _ => [])
    emptyPacketArrival hw (by norm_num) (Or.inr (by simp [StatsFlows.construct]))
  have hall := (packetReceived_allRxPackets _ _ _ _ d hd).1
  have hall1 : d.flows.m_allRxPackets = 1 := by rw [hall]; rfl
  obtain ⟨_, ⟨ext, hext, _⟩, ⟨id, hid, _⟩, _⟩ := packetReceived_wellFormed _ _ _ _ d hw hd
  have hlen : d.flows.m_flowIds.length = 1 := by
    obtain ⟨_, hcase⟩ := packetReceived_cases _ _ _ _ d hd
    rcases hcase with ⟨_, fd, _, hflows, _⟩ | ⟨_, fd, hget, _, _⟩
    · rw [hflows]; rfl
    · simp [StatsFlows.construct] at hget
  refine ⟨d, hd, hall1, rfl, hlen, rfl, ?_⟩
  intro he
  rw [he] at hall1
  exact absurd hall1 (by decide)

/-- C16 (amended): `PacketReceived` has no path for a header that cannot be decoded.
Every returning call, whatever the number of bytes of the packet, leaves
`allRxPackets` incremented modulo `2 ^ 32`, hence different from before, and on a
registry as it arises from the empty one it has delivered the arrival to one
accumulator, whose scalars are updated with what the header read yields. -/
theorem C16_every_packet_is_processed (fuel : Nat) (s : StatsFlows) (fs : FileSystem)
    (a : Arrival) (d : Delivered) (h : StatsFlows.PacketReceived fuel s fs a = Except.ok d) :
    d.flows.m_allRxPackets = (s.m_allRxPackets + 1) % 2 ^ 32 ∧
    d.flows.m_allRxPackets ≠ s.m_allRxPackets ∧ d.flows ≠ s ∧
    (s.wellFormed →
      ∃ before after : FlowData,
        d.flows.m_flowData[d.i]? = some after ∧
        (s.m_flowData[d.i]? = some before ∨
          (s.m_flowData[d.i]? = none ∧ before.m_scalarData = {})) ∧
        after.m_scalarData = FlowData.updateScalars before.m_scalarData a.now a.packet ∧
        after.m_scalarData.totalRxPackets
          = (before.m_scalarData.totalRxPackets + 1) % 2 ^ 32) := by
  have hall := (packetReceived_allRxPackets fuel s fs a d h).1
  have hne : d.flows.m_allRxPackets ≠ s.m_allRxPackets := by
    rw [hall]; omega
  refine ⟨hall, hne, fun he => hne (by rw [he]), ?_⟩
  intro hw
  obtain ⟨⟨before, after, h1, _, h3, h4, _⟩, _, _⟩ := packetReceived_frame fuel s fs a d hw h
  exact ⟨before, after, h1, h3, h4, by rw [h4]; rfl⟩

theorem C16_every_packet_is_processed_witness :
    (StatsFlows.construct "noname").wellFormed ∧
    ∃ d, StatsFlows.PacketReceived 65537 (StatsFlows.construct "noname") (fun _ => [])
        emptyPacketArrival = Except.ok d ∧
      d.flows.m_allRxPackets = ((StatsFlows.construct "noname").m_allRxPackets + 1) % 2 ^ 32 ∧
      ∃ before after : FlowData,
        d.flows.m_flowData[d.i]? = some after ∧
        ((StatsFlows.construct "noname").m_flowData[d.i]? = some before ∨
          ((StatsFlows.construct "noname").m_flowData[d.i]? = none ∧
            before.m_scalarData = {})) ∧
        after.m_scalarData = FlowData.updateScalars before.m_scalarData
          emptyPacketArrival.now emptyPacketArrival.packet ∧
        after.m_scalarData.totalRxPackets
          = (before.m_scalarData.totalRxPackets + 1) % 2 ^ 32 := by
  have hw := construct_wellFormed "noname"
  obtain ⟨d, hd⟩ := packetReceived_total 65537 (StatsFlows.construct "noname") (fun _ => [])
    emptyPacketArrival hw (by norm_num) (Or.inr (by simp [StatsFlows.construct]))
  exact ⟨hw, d, hd, (C16_every_packet_is_processed _ _ _ _ d hd).1,
    (C16_every_packet_is_processed _ _ _ _ d hd).2.2.2 hw⟩

/-- C17 (as stated, refuted): after the 65536 flows of `fullFlows` have been
registered, the call for an arrival of one more flow returns for no number of loop
steps, so it changes the statistics of no accumulator. -/
theorem C17_full_registry_call_never_returns :
    ∃ s fs tr, StatsFlows.run 65537 (StatsFlows.construct "noname") (fun _ => []) fullFlows
        = Except.ok (s, fs, tr) ∧
      StatsFlows.reachable "noname" s fs ∧ s.m_flowIds.length = 65536 ∧
      ¬ ∃ fuel d, StatsFlows.PacketReceived fuel s fs extraFlow = Except.ok d := by
  obtain ⟨s, fs, tr, hrun, hw, hlen, _, hnew⟩ := fullFlows_run "noname" (fun _ => [])
  exact ⟨s, fs, tr, hrun, ⟨65537, _, fullFlows, tr, hrun⟩, hlen,
    packetReceived_full s fs extraFlow hw hlen hnew⟩

/-- C17 (amended): in every registry state that arises from the empty registry, for
every arrival whose four ids are registered or that finds fewer than `2 ^ 16` keys
registered, the call returns (given more than `2 ^ 16` loop steps) and changes the
statistics of exactly one accumulator, the one at the position of the key with the
arrival's four ids; every other position of the accumulator list and every key that
was registered, with its index, is as before. -/
theorem C17_one_accumulator_changes (fn : String) (fuel : Nat) (s : StatsFlows)
    (fs : FileSystem) (a : Arrival) (hr : StatsFlows.reachable fn s fs)
    (hfuel : 2 ^ 16 < fuel)
    (hroom : a.key ∈ s.m_flowIds.map NetFlowId.key ∨ s.m_flowIds.length < 2 ^ 16) :
    ∃ d, StatsFlows.PacketReceived fuel s fs a = Except.ok d ∧
      (∃ id, d.flows.m_flowIds[d.i]? = some id ∧ id.key = a.key) ∧
      (∃ before after : FlowData,
        d.flows.m_flowData[d.i]? = some after ∧ after.m_flowId.key = a.key ∧
        (s.m_flowData[d.i]? = some before ∨
          (s.m_flowData[d.i]? = none ∧ before.m_scalarData = {})) ∧
        after.m_scalarData = FlowData.updateScalars before.m_scalarData a.now a.packet ∧
        after.m_scalarData ≠ before.m_scalarData) ∧
      (∀ k : Nat, k ≠ d.i → d.flows.m_flowData[k]? = s.m_flowData[k]?) ∧
      (∀ (k : Nat) (id : NetFlowId), s.m_flowIds[k]? = some id →
        d.flows.m_flowIds[k]? = some id) := by
  have hw := reachable_wellFormed fn s fs hr
  obtain ⟨d, hd⟩ := packetReceived_total fuel s fs a hw hfuel hroom
  obtain ⟨_, _, hid, _⟩ := packetReceived_wellFormed fuel s fs a d hw hd
  obtain ⟨h1, h2, h3⟩ := packetReceived_frame fuel s fs a d hw hd
  exact ⟨d, hd, hid, h1, h2, h3⟩

theorem C17_one_accumulator_changes_witness :
    ∃ s fs tr, StatsFlows.run 65537 (StatsFlows.construct "noname") (fun _ => [])
        sampleArrivals = Except.ok (s, fs, tr) ∧
      StatsFlows.reachable "noname" s fs ∧ (2 : Nat) ^ 16 < 65537 ∧
      (laterArrival.key ∈ s.m_flowIds.map NetFlowId.key ∨ s.m_flowIds.length < 2 ^ 16) ∧
      s.m_flowIds = [⟨0, 0, 1, 0, 0⟩, ⟨2, 0, 1, 0, 1⟩] ∧
      s.m_flowData.map (fun fd => fd.m_scalarData.totalRxPackets) = [2, 1] ∧
      laterArrival.key = (2, 0, 1, 0) ∧
      ∃ d, StatsFlows.PacketReceived 65537 s fs laterArrival = Except.ok d ∧
        (∃ id, d.flows.m_flowIds[d.i]? = some id ∧ id.key = laterArrival.key) ∧
        (∃ before after : FlowData,
          d.flows.m_flowData[d.i]? = some after ∧ after.m_flowId.key = laterArrival.key ∧
          (s.m_flowData[d.i]? = some before ∨
            (s.m_flowData[d.i]? = none ∧ before.m_scalarData = {})) ∧
          after.m_scalarData = FlowData.updateScalars before.m_scalarData
            laterArrival.now laterArrival.packet ∧
          after.m_scalarData ≠ before.m_scalarData) ∧
        d.i ≠ 0 ∧
        (∃ fd0, s.m_flowData[0]? = some fd0 ∧ d.flows.m_flowData[0]? = some fd0) ∧
        d.flows.m_flowIds[0]? = some ⟨0, 0, 1, 0, 0⟩ ∧
        d.flows.m_flowIds[1]? = some ⟨2, 0, 1, 0, 1⟩ := by
  obtain ⟨⟨s, fs, tr⟩, hrun⟩ := run_total 65537 (by norm_num)
    (sampleArrivals.map Arrival.key) (by simp [sampleArrivals]) sampleArrivals
    (StatsFlows.construct "noname") (fun _ => []) (construct_wellFormed "noname")
    (fun a ha => List.mem_map.2 ⟨a, ha, rfl⟩)
    (by intro id hid; simp [StatsFlows.construct] at hid)
  have hr : StatsFlows.reachable "noname" s fs := ⟨65537, _, sampleArrivals, tr, hrun⟩
  have hfacts : (match StatsFlows.run 65537 (StatsFlows.construct "noname") (fun _ => [])
      sampleArrivals with
      | Except.ok r => (r.1.m_flowIds,
          r.1.m_flowData.map (fun fd => fd.m_scalarData.totalRxPackets))
      | Except.error _ => ([], []))
      = ([⟨0, 0, 1, 0, 0⟩, ⟨2, 0, 1, 0, 1⟩], [2, 1]) := by
    decide
  rw [hrun] at hfacts
  have hids : s.m_flowIds = [⟨0, 0, 1, 0, 0⟩, ⟨2, 0, 1, 0, 1⟩] := (Prod.mk.inj hfacts).1
  have hcounts : s.m_flowData.map (fun fd => fd.m_scalarData.totalRxPackets) = [2, 1] :=
    (Prod.mk.inj hfacts).2
  have hk : laterArrival.key = (2, 0, 1, 0) :=
    key_ofHeader 50000 (StatsHeader.mk 1 42000 2 0) 1 0 (by decide)
  have hroom : laterArrival.key ∈ s.m_flowIds.map NetFlowId.key
      ∨ s.m_flowIds.length < 2 ^ 16 := by
    left
    rw [hids, hk]
    decide
  obtain ⟨d, hd, hpos, hchg, hothers, hkeys⟩ := C17_one_accumulator_changes "noname" 65537 s fs
    laterArrival hr (by norm_num) hroom
  have hkey0 : d.flows.m_flowIds[0]? = some ⟨0, 0, 1, 0, 0⟩ :=
    hkeys 0 _ (by rw [hids]; rfl)
  have hkey1 : d.flows.m_flowIds[1]? = some ⟨2, 0, 1, 0, 1⟩ :=
    hkeys 1 _ (by rw [hids]; rfl)
  have hne : d.i ≠ 0 := by
    intro h0
    obtain ⟨id, hid, hidk⟩ := hpos
    rw [h0, hkey0] at hid
    rw [← Option.some.inj hid, hk] at hidk
    exact absurd hidk (by decide)
  have hfd0 : ∃ fd0, s.m_flowData[0]? = some fd0 := by
    have hlen : s.m_flowData.length = 2 := by
      have := congrArg List.length hcounts
      simpa using this
    exact ⟨s.m_flowData[0], List.getElem?_eq_getElem (by omega)⟩
  obtain ⟨fd0, hfd0⟩ := hfd0
  exact ⟨s, fs, tr, hrun, hr, by norm_num, hroom, hids, hcounts, hk, d, hd, hpos, hchg, hne,
    ⟨fd0, hfd0, by rw [hothers 0 (Ne.symm hne), hfd0]⟩, hkey0, hkey1⟩

/-- C18: in every registry state that arises from the empty registry the key list and
the accumulator list have the same length, the key at position `k` has index `k`
and the accumulator at position `k` carries that key; a returning call leaves the
key list as it is or appends one key, whose index is the number of keys registered
before it. -/
theorem C18_registry_shape (fn : String) (s : StatsFlows) (fs : FileSystem)
    (hr : StatsFlows.reachable fn s fs) :
    s.m_flowIds.length = s.m_flowData.length ∧
    (∀ (k : Nat) (id : NetFlowId), s.m_flowIds[k]? = some id →
      id.index = k ∧ ∃ fd, s.m_flowData[k]? = some fd ∧ fd.m_flowId = id) ∧
    (∀ (fuel : Nat) (a : Arrival) (d : Delivered),
      StatsFlows.PacketReceived fuel s fs a = Except.ok d →
      d.flows.m_flowIds = s.m_flowIds ∨
      ∃ id, d.flows.m_flowIds = s.m_flowIds ++ [id] ∧ id.index = s.m_flowIds.length ∧
        id.key = a.key) := by
  have hw := reachable_wellFormed fn s fs hr
  obtain ⟨hmap, _, _, hidx⟩ := hw
  refine ⟨by rw [← hmap, List.length_map], ?_, ?_⟩
  · intro k id hk
    refine ⟨hidx k id (by simpa using hk), ?_⟩
    have hk2 := hk
    rw [← hmap, List.getElem?_map] at hk2
    cases hfd : s.m_flowData[k]? with
    | none => rw [hfd] at hk2; exact absurd hk2 (by simp)
    | some fd =>
      rw [hfd] at hk2
      exact ⟨fd, rfl, Option.some.inj hk2⟩
  · intro fuel a d hd
    obtain ⟨_, hcase⟩ := packetReceived_cases fuel s fs a d hd
    rcases hcase with ⟨hi, fd, _, hflows, _⟩ | ⟨_, fd, _, hflows, _⟩
    · right
      exact ⟨{ a.fid with index := d.i }, by rw [hflows], hi, rfl⟩
    · left
      rw [hflows]

theorem C18_registry_shape_witness :
    ∃ s fs tr, StatsFlows.run 65537 (StatsFlows.construct "noname") (fun _ => [])
        sampleArrivals = Except.ok (s, fs, tr) ∧
      StatsFlows.reachable "noname" s fs ∧
      s.m_flowIds.length = s.m_flowData.length ∧
      (∀ (k : Nat) (id : NetFlowId), s.m_flowIds[k]? = some id →
        id.index = k ∧ ∃ fd, s.m_flowData[k]? = some fd ∧ fd.m_flowId = id) := by
  obtain ⟨⟨s, fs, tr⟩, hrun⟩ := run_total 65537 (by norm_num)
    (sampleArrivals.map Arrival.key) (by simp [sampleArrivals]) sampleArrivals
    (StatsFlows.construct "noname") (fun _ => []) (construct_wellFormed "noname")
    (fun a ha => List.mem_map.2 ⟨a, ha, rfl⟩)
    (by intro id hid; simp [StatsFlows.construct] at hid)
  have hr : StatsFlows.reachable "noname" s fs := ⟨65537, _, sampleArrivals, tr, hrun⟩
  exact ⟨s, fs, tr, hrun, hr, (C18_registry_shape "noname" s fs hr).1,
    (C18_registry_shape "noname" s fs hr).2.1⟩

/-! ## The aggregate block of `StatsFlows::Finalize` -/

/-- References of a sum built by `addRefs`: those of the start, then one per row. -/
theorem refs_addRefs (col : Nat) :
    ∀ (rows : List Int) (init : Expr),
      (addRefs init col rows).refs = init.refs ++ rows.map (fun r => (col, r)) := by
  intro rows
  induction rows with
  | nil => intro init; simp [addRefs]
  | cons r rest ih =>
    intro init
    have hstep : addRefs init col (r :: rest) = addRefs (Expr.add init (Expr.ref col r)) col rest :=
      rfl
    rw [hstep, ih]
    simp [Expr.refs]

/-- References of the sum of one aggregate line: one per row, in the order of the
rows. -/
theorem refs_refSum (col : Nat) (lastRow nFlows k : Int) :
    (StatsFlows.refSum col lastRow nFlows k).refs
      = (StatsFlows.aggregateRows lastRow nFlows k).map (fun r => (col, r)) := by
  unfold StatsFlows.refSum StatsFlows.aggregateRows
  rw [refs_addRefs]
  rfl

/-- Rows of an aggregate line for `n >= 1` flows: `lastRow + 26 * i + k` for
`i = 0 .. n - 1`. -/
theorem aggregateRows_eq (lastRow k : Int) (n : Nat) (hn : 1 ≤ n) :
    StatsFlows.aggregateRows lastRow (n : Int) k
      = (List.range n).map (fun (i : Nat) => lastRow + 26 * (i : Int) + k) := by
  obtain ⟨m, rfl⟩ : ∃ m, n = m + 1 := ⟨n - 1, by omega⟩
  unfold StatsFlows.aggregateRows StatsFlows.laterRows flowDataRaws
  rw [List.range_succ_eq_map, List.map_cons, List.map_map]
  have h1 : ((m + 1 : Nat) : Int).toNat - 1 = m := by simp
  rw [h1]
  congr 1
  · simp
  · apply List.map_congr_left
    intro j _
    simp only [Function.comp, Nat.succ_eq_add_one]
    push_cast
    ring

/-- An unsigned number below `2 ^ 31` keeps its value when converted to `int`. -/
theorem toInt32_of_lt (n : Nat) (h : n < 2 ^ 31) : toInt32 n = (n : Int) := by
  unfold toInt32
  have h1 : n % 2 ^ 32 = n := Nat.mod_eq_of_lt (by omega)
  rw [h1, if_pos h]

/-- The loop over the accumulators returns, with every accumulator from position `i`
on finalized in order, when there are fewer than `2 ^ 16` accumulators and it is
granted more steps than accumulators are left. -/
theorem finalizeLoop_ok (data : List FlowData) (singleFile : Bool) (allRxPackets : Nat)
    (hlen : data.length < 2 ^ 16) :
    ∀ (fuel i : Nat) (fs : FileSystem), i ≤ data.length → data.length < fuel + i →
      StatsFlows.finalizeLoop data singleFile allRxPackets fuel i fs
        = Except.ok (finalizeAll (data.drop i) singleFile allRxPackets fs) := by
  intro fuel
  induction fuel with
  | zero => intro i fs h1 h2; omega
  | succ n ih =>
    intro i fs hle hfuel
    unfold StatsFlows.finalizeLoop
    by_cases hi : i < data.length
    · rw [dif_pos hi]
      have hmod : (i + 1) % 2 ^ 16 = i + 1 := Nat.mod_eq_of_lt (by omega)
      rw [hmod, ih (i + 1) _ (by omega) (by omega), List.drop_eq_getElem_cons hi]
      rfl
    · rw [dif_neg hi]
      have : data.drop i = [] := List.drop_of_length_le (by omega)
      rw [this]
      rfl

/-- With exactly `2 ^ 16` accumulators the loop over them returns for no number of
steps: its `uint16_t` counter never reaches the size of the list. -/
theorem finalizeLoop_full (data : List FlowData) (singleFile : Bool) (allRxPackets : Nat)
    (hlen : data.length = 65536) :
    ∀ (fuel i : Nat) (fs : FileSystem), i < 65536 →
      StatsFlows.finalizeLoop data singleFile allRxPackets fuel i fs
        = Except.error Fault.fuel := by
  intro fuel
  induction fuel with
  | zero => intro i fs _; rfl
  | succ n ih =>
    intro i fs hi
    unfold StatsFlows.finalizeLoop
    rw [dif_pos (by omega)]
    exact ih _ _ (Nat.mod_lt _ (by norm_num))

/-- `StatsFlows::Finalize` returns exactly when its loop over the accumulators does,
and then it has appended the aggregate block to the file `m_fileName`. -/
theorem finalize_ok (fuel : Nat) (s : StatsFlows) (fs : FileSystem)
    (hacc : s.m_flowData.length < 2 ^ 16) (hfuel : s.m_flowData.length < fuel) :
    StatsFlows.Finalize fuel s fs
      = Except.ok ((finalizeAll s.m_flowData s.m_singleFile s.m_allRxPackets fs).append
          s.m_fileName s.aggregateBlock) := by
  unfold StatsFlows.Finalize
  rw [finalizeLoop_ok s.m_flowData s.m_singleFile s.m_allRxPackets hacc fuel 0 fs
    (Nat.zero_le _) (by omega)]
  rfl

/-- C11 (as stated, refuted): with `allRxPackets = 2 ^ 32 - 1` and one flow the sum
`m_allRxPackets + 1` wraps, `lastRow` is 0 and the average-delay formula is
`(B6)/1000/1`: it references row 6, not row `N + 1 + 6 = 4294967302`. And for the
registry of the 65536 flows of `fullFlows` the loop over the accumulators never
ends, so `Finalize` writes no aggregate block at all. -/
theorem C11_last_row_wraps_and_full_registry_hangs :
    (wornRegistry.m_flowIds.length = 1 ∧ wornRegistry.m_allRxPackets = 4294967295 ∧
      wornRegistry.lastRow = 0 ∧
      wornRegistry.aggregateBlock.get? 2 = some [Cell.text "Average E2E Delay [ms]:",
        Cell.formula (StatsFlows.delayFormula 0 1 6)] ∧
      (StatsFlows.delayFormula 0 1 6).render = "(B6)/1000/1" ∧
      (StatsFlows.delayFormula 0 1 6).refs = [(66, 6)] ∧
      ((wornRegistry.m_allRxPackets : Int) + 1 + 26 * 0 + 6 = 4294967302)) ∧
    (∃ s fs tr, StatsFlows.run 65537 (StatsFlows.construct "all.csv") (fun _ => []) fullFlows
        = Except.ok (s, fs, tr) ∧ 1 ≤ s.m_flowIds.length ∧
      ¬ ∃ fuel fs1, StatsFlows.Finalize fuel s fs = Except.ok fs1) := by
  constructor
  · refine ⟨rfl, rfl, by decide, ?_, by decide, by decide, by decide⟩
    have h1 : wornRegistry.lastRow = 0 := by decide
    have h2 : wornRegistry.nFlows = 1 := by decide
    simp [StatsFlows.aggregateBlock, h1, h2]
  · obtain ⟨s, fs, tr, hrun, _, hlen, hlen2, _⟩ := fullFlows_run "all.csv" (fun _ => [])
    refine ⟨s, fs, tr, hrun, by omega, ?_⟩
    rintro ⟨fuel, fs1, h⟩
    unfold StatsFlows.Finalize at h
    rw [finalizeLoop_full s.m_flowData s.m_singleFile s.m_allRxPackets hlen2 fuel 0 fs
      (by norm_num)] at h
    exact absurd h (by simp)

/-- C11 (amended): for every registry with `nFlows >= 1` keys, fewer than `2 ^ 16`
accumulators and `allRxPackets = N` such that `N + 1 + 26 * nFlows < 2 ^ 31` (all row
numbers fit an `int`), `Finalize` returns, having appended the aggregate block to the
file `m_fileName`; there `lastRow = N + 1`, and the formulas of the block reference
exactly the rows `lastRow + 26 * i + k` for `i = 0 .. nFlows - 1` in increasing `i`:
in column `B` with `k = 6, 7, 8, 9` for the average, median, max and jitter delay,
each sum in brackets divided by 1000 and by `nFlows`, and in column `C` with
`k = 21, 25, 26` for Tx packets, lost packets and real throughput. -/
theorem C11_aggregate_rows (fuel : Nat) (s : StatsFlows) (fs : FileSystem)
    (hflows : 1 ≤ s.m_flowIds.length) (hacc : s.m_flowData.length < 2 ^ 16)
    (hfuel : s.m_flowData.length < fuel)
    (hrows : s.m_allRxPackets + 1 + 26 * s.m_flowIds.length < 2 ^ 31) :
    (∃ fs1 : FileSystem, StatsFlows.Finalize fuel s fs
      = Except.ok (fs1.append s.m_fileName s.aggregateBlock)) ∧
    s.lastRow = ((s.m_allRxPackets + 1 : Nat) : Int) ∧
    s.nFlows = (s.m_flowIds.length : Int) ∧
    s.aggregateBlock.get? 2 = some [Cell.text "Average E2E Delay [ms]:",
      Cell.formula (StatsFlows.delayFormula s.lastRow s.nFlows 6)] ∧
    s.aggregateBlock.get? 3 = some [Cell.text "Median E2E Delay [ms]:",
      Cell.formula (StatsFlows.delayFormula s.lastRow s.nFlows 7)] ∧
    s.aggregateBlock.get? 4 = some [Cell.text "Max of E2E Delay [ms]:",
      Cell.formula (StatsFlows.delayFormula s.lastRow s.nFlows 8)] ∧
    s.aggregateBlock.get? 5 = some [Cell.text "Jitter of E2E Delay [ms]:",
      Cell.formula (StatsFlows.delayFormula s.lastRow s.nFlows 9)] ∧
    s.aggregateBlock.get? 6 = some [Cell.text "Number of all Tx packets:",
      Cell.formula (StatsFlows.txFormula s.lastRow s.nFlows)] ∧
    s.aggregateBlock.get? 8 = some [Cell.text "Number of all lost packets:",
      Cell.formula (StatsFlows.lostFormula s.lastRow s.nFlows)] ∧
    s.aggregateBlock.get? 10 = some [Cell.text "Real troughput [kbps]:",
      Cell.formula (StatsFlows.throughputFormula s.lastRow s.nFlows)] ∧
    (∀ k : Int,
      StatsFlows.delayFormula s.lastRow s.nFlows k
        = Expr.div (Expr.div (Expr.paren (StatsFlows.refSum 66 s.lastRow s.nFlows k))
            (Expr.num 1000)) (Expr.num (s.m_flowIds.length : Int)) ∧
      (StatsFlows.delayFormula s.lastRow s.nFlows k).refs
        = (List.range s.m_flowIds.length).map
            (fun (i : Nat) => (66, s.lastRow + 26 * (i : Int) + k))) ∧
    (StatsFlows.txFormula s.lastRow s.nFlows).refs
      = (List.range s.m_flowIds.length).map
          (fun (i : Nat) => (67, s.lastRow + 26 * (i : Int) + 21)) ∧
    (StatsFlows.lostFormula s.lastRow s.nFlows).refs
      = (List.range s.m_flowIds.length).map
          (fun (i : Nat) => (67, s.lastRow + 26 * (i : Int) + 25)) ∧
    StatsFlows.throughputFormula s.lastRow s.nFlows
      = Expr.div (Expr.div (Expr.paren (StatsFlows.refSum 67 s.lastRow s.nFlows 26))
          (Expr.num 1000)) (Expr.num (s.m_flowIds.length : Int)) ∧
    (StatsFlows.throughputFormula s.lastRow s.nFlows).refs
      = (List.range s.m_flowIds.length).map
          (fun (i : Nat) => (67, s.lastRow + 26 * (i : Int) + 26)) := by
  have hlast : s.lastRow = ((s.m_allRxPackets + 1 : Nat) : Int) := by
    unfold StatsFlows.lastRow
    rw [Nat.mod_eq_of_lt (by omega), toInt32_of_lt _ (by omega)]
  have hn : s.nFlows = (s.m_flowIds.length : Int) := by
    unfold StatsFlows.nFlows
    rw [toInt32_of_lt _ (by omega)]
  have hrefs : ∀ (col : Nat) (k : Int), (StatsFlows.refSum col s.lastRow s.nFlows k).refs
      = (List.range s.m_flowIds.length).map
          (fun (i : Nat) => (col, s.lastRow + 26 * (i : Int) + k)) := by
    intro col k
    rw [refs_refSum, hn, aggregateRows_eq _ _ _ hflows, List.map_map]
    rfl
  refine ⟨⟨_, finalize_ok fuel s fs hacc hfuel⟩, hlast, hn, rfl, rfl, rfl, rfl, rfl, rfl, rfl,
    ?_, hrefs 67 21, hrefs 67 25, by rw [← hn]; rfl, ?_⟩
  · intro k
    refine ⟨by rw [← hn]; rfl, ?_⟩
    have := hrefs 66 k
    simpa [StatsFlows.delayFormula, Expr.refs] using this
  · have := hrefs 67 26
    simpa [StatsFlows.throughputFormula, Expr.refs] using this

/-- The run of `twoFlowRun` in single-file mode returns; it leaves the two flows
registered in the order of their first arrivals, four packets counted, and each flow
with non-zero receive duration, send duration and span. -/
theorem twoFlowRun_run :
    ∃ s fs tr, StatsFlows.run 65537 (StatsFlows.construct "all.csv") (fun _ => []) twoFlowRun
        = Except.ok (s, fs, tr) ∧
      s.m_flowIds = [⟨0, 0, 1, 0, 0⟩, ⟨2, 0, 1, 0, 1⟩] ∧ s.m_allRxPackets = 4 ∧
      s.m_flowData.length = 2 ∧
      (∀ fd ∈ s.m_flowData,
        fd.m_scalarData.lastPacketReceived - fd.m_scalarData.firstPacketReceived ≠ 0 ∧
        fd.m_scalarData.lastPacketSent - fd.m_scalarData.firstPacketSent ≠ 0 ∧
        fd.m_scalarData.lastPacketReceived - fd.m_scalarData.firstPacketSent ≠ 0) := by
  obtain ⟨⟨s, fs, tr⟩, hrun⟩ := run_total 65537 (by norm_num)
    (twoFlowRun.map Arrival.key) (by simp [twoFlowRun]) twoFlowRun
    (StatsFlows.construct "all.csv") (fun _ => []) (construct_wellFormed "all.csv")
    (fun a ha => List.mem_map.2 ⟨a, ha, rfl⟩)
    (by intro id hid; simp [StatsFlows.construct] at hid)
  have hfacts : (match StatsFlows.run 65537 (StatsFlows.construct "all.csv") (fun _ => [])
      twoFlowRun with
      | Except.ok r => (r.1.m_flowIds, r.1.m_allRxPackets,
          r.1.m_flowData.map (fun fd =>
            (fd.m_scalarData.lastPacketReceived - fd.m_scalarData.firstPacketReceived,
              fd.m_scalarData.lastPacketSent - fd.m_scalarData.firstPacketSent,
              fd.m_scalarData.lastPacketReceived - fd.m_scalarData.firstPacketSent)))
      | Except.error _ => ([], 0, []))
      = ([⟨0, 0, 1, 0, 0⟩, ⟨2, 0, 1, 0, 1⟩], 4,
          [(10000, 7000, 15000), (23000, 24000, 29000)]) := by
    decide
  rw [hrun] at hfacts
  have hids : s.m_flowIds = [⟨0, 0, 1, 0, 0⟩, ⟨2, 0, 1, 0, 1⟩] := (Prod.mk.inj hfacts).1
  have hall : s.m_allRxPackets = 4 := (Prod.mk.inj (Prod.mk.inj hfacts).2).1
  have hmap : s.m_flowData.map (fun fd =>
      (fd.m_scalarData.lastPacketReceived - fd.m_scalarData.firstPacketReceived,
        fd.m_scalarData.lastPacketSent - fd.m_scalarData.firstPacketSent,
        fd.m_scalarData.lastPacketReceived - fd.m_scalarData.firstPacketSent))
      = [(10000, 7000, 15000), (23000, 24000, 29000)] := (Prod.mk.inj (Prod.mk.inj hfacts).2).2
  have hlen : s.m_flowData.length = 2 := by
    have := congrArg List.length hmap
    simpa using this
  refine ⟨s, fs, tr, hrun, hids, hall, hlen, ?_⟩
  intro fd hfd
  have hmem : (fd.m_scalarData.lastPacketReceived - fd.m_scalarData.firstPacketReceived,
      fd.m_scalarData.lastPacketSent - fd.m_scalarData.firstPacketSent,
      fd.m_scalarData.lastPacketReceived - fd.m_scalarData.firstPacketSent)
      ∈ [((10000 : Int), (7000 : Int), (15000 : Int)), (23000, 24000, 29000)] := by
    rw [← hmap]
    exact List.mem_map.2 ⟨fd, hfd, rfl⟩
  simp only [List.mem_cons, List.mem_singleton, Prod.mk.injEq, List.not_mem_nil,
    or_false] at hmem
  rcases hmem with ⟨a, b, c⟩ | ⟨a, b, c⟩
  · exact ⟨by rw [a]; norm_num, by rw [b]; norm_num, by rw [c]; norm_num⟩
  · exact ⟨by rw [a]; norm_num, by rw [b]; norm_num, by rw [c]; norm_num⟩

theorem C11_aggregate_rows_witness :
    ∃ s fs tr, StatsFlows.run 65537 (StatsFlows.construct "all.csv") (fun _ => []) twoFlowRun
        = Except.ok (s, fs, tr) ∧
      (1 ≤ s.m_flowIds.length ∧ s.m_flowData.length < 2 ^ 16 ∧ s.m_flowData.length < 3 ∧
        s.m_allRxPackets + 1 + 26 * s.m_flowIds.length < 2 ^ 31) ∧
      s.m_flowIds.length = 2 ∧ s.m_allRxPackets = 4 ∧
      (∃ fs1 : FileSystem, StatsFlows.Finalize 3 s fs
        = Except.ok (fs1.append s.m_fileName s.aggregateBlock)) ∧
      s.lastRow = 5 ∧ s.nFlows = 2 ∧
      s.aggregateBlock.get? 2 = some [Cell.text "Average E2E Delay [ms]:",
        Cell.formula (StatsFlows.delayFormula s.lastRow s.nFlows 6)] ∧
      (StatsFlows.delayFormula s.lastRow s.nFlows 6).refs = [(66, 11), (66, 37)] ∧
      (StatsFlows.delayFormula s.lastRow s.nFlows 6).render = "(B11+B37)/1000/2" ∧
      (StatsFlows.txFormula s.lastRow s.nFlows).refs = [(67, 26), (67, 52)] ∧
      (StatsFlows.throughputFormula s.lastRow s.nFlows).refs = [(67, 31), (67, 57)] := by
  obtain ⟨s, fs, tr, hrun, hids, hall, hlen, _⟩ := twoFlowRun_run
  have hidlen : s.m_flowIds.length = 2 := by rw [hids]; rfl
  have h1 : 1 ≤ s.m_flowIds.length := by omega
  have h2 : s.m_flowData.length < 2 ^ 16 := by rw [hlen]; norm_num
  have h3 : s.m_flowData.length < 3 := by omega
  have h4 : s.m_allRxPackets + 1 + 26 * s.m_flowIds.length < 2 ^ 31 := by
    rw [hall, hidlen]; norm_num
  obtain ⟨hfin, hlast, hn, hline, _, _, _, _, _, _, hdelay, htx, _, _, hthr⟩ :=
    C11_aggregate_rows 3 s fs h1 h2 h3 h4
  have hlast5 : s.lastRow = 5 := by rw [hlast, hall]; rfl
  have hn2 : s.nFlows = 2 := by rw [hn, hidlen]; rfl
  refine ⟨s, fs, tr, hrun, ⟨h1, h2, h3, h4⟩, hidlen, hall, hfin, hlast5, hn2, hline, ?_, ?_,
    ?_, ?_⟩
  · rw [(hdelay 6).2, hidlen, hlast5]
    decide
  · rw [hlast5, hn2]
    decide
  · rw [htx, hidlen, hlast5]
    decide
  · rw [hthr, hidlen, hlast5]
    decide

/-! ## Runs of a registry that writes all flows to one file -/

/-- An accumulator built for the one-file mode writes to the file of the registry,
with file writing enabled, and starts with the scalars of the constructor. -/
theorem construct_single (fs : FileSystem) (fid : NetFlowId) (fn : String) :
    (FlowData.construct fs fid fn true).1.m_fileName = fn ∧
    (FlowData.construct fs fid fn true).1.m_fileWriteEnable = true ∧
    (FlowData.construct fs fid fn true).1.m_flowId = fid ∧
    (FlowData.construct fs fid fn true).1.m_scalarData = {} ∧
    (FlowData.construct fs fid fn true).2
      = (if fid.index = 0 then fs.create fn [titleRow] else fs) := by
  refine ⟨by simp [FlowData.construct], rfl, rfl, rfl, ?_⟩
  by_cases h : fid.index = 0 <;>
    simp [FlowData.construct, h, VectorData.WriteFileHeader, titleRow]

/-- With file writing enabled an arrival appends exactly one sample row to the file of
the accumulator; file name, enable flag and flow id stay as they are. -/
theorem packetReceived_files (fd : FlowData) (fs : FileSystem) (now : Time) (packet : Packet)
    (singleFile : Bool) (he : fd.m_fileWriteEnable = true) :
    (fd.PacketReceived fs now packet singleFile).2
      = fs.append fd.m_fileName [VectorData.sampleRow now (now - (packet.PeekHeader.m_ts : Int))
          singleFile fd.m_flowId.index packet.PeekHeader.GetSeq] ∧
    (fd.PacketReceived fs now packet singleFile).1.m_fileName = fd.m_fileName ∧
    (fd.PacketReceived fs now packet singleFile).1.m_fileWriteEnable = fd.m_fileWriteEnable ∧
    (fd.PacketReceived fs now packet singleFile).1.m_flowId = fd.m_flowId := by
  refine ⟨?_, rfl, rfl, rfl⟩
  simp [FlowData.PacketReceived, he, VectorData.WriteValueToFile, FlowData.updateScalars,
    StatsHeader.GetTs, TimeStep]

/-- One returning call keeps `singleFileInv`, with one more arrival counted. -/
theorem packetReceived_singleFileInv (fn : String) (fuel : Nat) (s : StatsFlows)
    (fs : FileSystem) (a : Arrival) (d : Delivered) (c : Nat)
    (hinv : s.singleFileInv fn fs c)
    (h : StatsFlows.PacketReceived fuel s fs a = Except.ok d) :
    d.flows.singleFileInv fn d.files (c + 1) := by
  obtain ⟨hw, hsf, hname, hfd, hall, hempty, hrows⟩ := hinv
  obtain ⟨hwd, _, _, _⟩ := packetReceived_wellFormed fuel s fs a d hw h
  obtain ⟨hall2, hname2, hsf2⟩ := packetReceived_allRxPackets fuel s fs a d h
  obtain ⟨_, hcase⟩ := packetReceived_cases fuel s fs a d h
  have hlen : s.m_flowData.length = s.m_flowIds.length := by
    rw [← hw.1, List.length_map]
  have hcount : d.flows.m_allRxPackets = (c + 1) % 2 ^ 32 := by
    rw [hall2, hall]; omega
  rcases hcase with ⟨hi, fd, hget, hflows, hfiles⟩ | ⟨hi, fd, hget, hflows, hfiles⟩
  · rw [hsf, hname] at hget hflows hfiles
    obtain ⟨c1, c2, c3, c4, c5⟩ := construct_single fs { a.fid with index := d.i } fn
    have hfdeq : fd = (FlowData.construct fs { a.fid with index := d.i } fn true).1 := by
      rw [List.getElem?_append_right (by omega)] at hget
      have : d.i - s.m_flowData.length = 0 := by omega
      rw [this] at hget
      exact (Option.some.inj hget).symm
    have he : fd.m_fileWriteEnable = true := by rw [hfdeq]; exact c2
    have hn : fd.m_fileName = fn := by rw [hfdeq]; exact c1
    obtain ⟨p1, p2, p3, _⟩ := packetReceived_files fd
      (FlowData.construct fs { a.fid with index := d.i } fn true).2 a.now a.packet true he
    have hids : d.flows.m_flowIds = s.m_flowIds ++ [{ a.fid with index := d.i }] := by
      rw [hflows]
    have hdata : d.flows.m_flowData = (s.m_flowData ++ [(FlowData.construct fs
        { a.fid with index := d.i } fn true).1]).set d.i
          (fd.PacketReceived (FlowData.construct fs { a.fid with index := d.i } fn true).2
            a.now a.packet true).1 := by
      rw [hflows]
    refine ⟨hwd, by rw [hsf2, hsf], by rw [hname2, hname], ?_, hcount, ?_, ?_⟩
    · intro x hx
      rw [hdata] at hx
      rcases List.mem_or_eq_of_mem_set hx with hx | hx
      · rcases List.mem_append.1 hx with hx | hx
        · exact hfd x hx
        · rw [List.mem_singleton] at hx
          rw [hx]; exact ⟨c1, c2⟩
      · rw [hx, p2, p3]; exact ⟨hn, he⟩
    · intro hnil
      rw [hids] at hnil
      exact absurd hnil (by simp)
    · intro _
      rw [hfiles, p1, hn, append_same, c5]
      by_cases h0 : d.i = 0
      · have hnil : s.m_flowIds = [] := List.length_eq_zero.1 (by omega)
        have hc0 : c = 0 := hempty hnil
        rw [if_pos h0, create_same]
        exact ⟨[_], rfl, by rw [hc0]; rfl, by
          intro r hr
          rw [List.mem_singleton] at hr
          exact ⟨_, _, _, _, hr⟩⟩
      · have hne : s.m_flowIds ≠ [] := by
          intro hnil
          rw [hnil] at hi
          exact h0 hi
        obtain ⟨rows, hrows1, hrows2, hrows3⟩ := hrows hne
        rw [if_neg h0, hrows1]
        refine ⟨rows ++ [_], List.cons_append _ _ _, by rw [List.length_append, hrows2]; rfl, ?_⟩
        intro r hr
        rcases List.mem_append.1 hr with hr | hr
        · exact hrows3 r hr
        · rw [List.mem_singleton] at hr
          exact ⟨_, _, _, _, hr⟩
  · rw [hsf] at hflows hfiles
    have hmem : fd ∈ s.m_flowData := List.getElem?_mem hget
    obtain ⟨hn, he⟩ := hfd fd hmem
    obtain ⟨p1, p2, p3, _⟩ := packetReceived_files fd fs a.now a.packet true he
    have hids : d.flows.m_flowIds = s.m_flowIds := by rw [hflows]
    have hdata : d.flows.m_flowData = s.m_flowData.set d.i
        (fd.PacketReceived fs a.now a.packet true).1 := by
      rw [hflows]
    have hne : s.m_flowIds ≠ [] := by
      intro hnil
      rw [hnil] at hlen
      have := (List.getElem?_eq_some.1 hget).1
      simp only [List.length_nil] at hlen
      omega
    refine ⟨hwd, by rw [hsf2, hsf], by rw [hname2, hname], ?_, hcount, ?_, ?_⟩
    · intro x hx
      rw [hdata] at hx
      rcases List.mem_or_eq_of_mem_set hx with hx | hx
      · exact hfd x hx
      · rw [hx, p2, p3]; exact ⟨hn, he⟩
    · intro hnil
      rw [hids] at hnil
      exact absurd hnil hne
    · intro _
      obtain ⟨rows, hrows1, hrows2, hrows3⟩ := hrows hne
      rw [hfiles, p1, hn, append_same, hrows1]
      refine ⟨rows ++ [_], List.cons_append _ _ _, by rw [List.length_append, hrows2]; rfl, ?_⟩
      intro r hr
      rcases List.mem_append.1 hr with hr | hr
      · exact hrows3 r hr
      · rw [List.mem_singleton] at hr
        exact ⟨_, _, _, _, hr⟩

/-- A returning run keeps `singleFileInv`, with all its arrivals counted. -/
theorem run_singleFileInv (fn : String) (fuel : Nat) :
    ∀ (as : List Arrival) (s : StatsFlows) (fs : FileSystem) (c : Nat) (s1 : StatsFlows)
      (fs1 : FileSystem) (tr : List Dispatch),
      s.singleFileInv fn fs c → StatsFlows.run fuel s fs as = Except.ok (s1, fs1, tr) →
      s1.singleFileInv fn fs1 (c + as.length) := by
  intro as
  induction as with
  | nil =>
    intro s fs c s1 fs1 tr hinv h
    simp only [StatsFlows.run, Except.ok.injEq, Prod.mk.injEq] at h
    obtain ⟨h1, h2, _⟩ := h
    subst h1
    subst h2
    exact hinv
  | cons a rest ih =>
    intro s fs c s1 fs1 tr hinv h
    unfold StatsFlows.run at h
    split at h
    · exact absurd h (by simp)
    · rename_i d hd
      split at h
      · exact absurd h (by simp)
      · rename_i s2 fs2 tr2 hrest
        simp only [Except.ok.injEq, Prod.mk.injEq] at h
        obtain ⟨h1, h2, _⟩ := h
        subst h1
        subst h2
        have := ih d.flows d.files (c + 1) s2 fs2 tr2
          (packetReceived_singleFileInv fn fuel s fs a d c hinv hd) hrest
        rw [List.length_cons]
        have he : c + (rest.length + 1) = c + 1 + rest.length := by omega
        rw [he]
        exact this

/-- The empty registry with a file name other than `noname` satisfies `singleFileInv`
after no arrival. -/
theorem construct_singleFileInv (fn : String) (fs : FileSystem) (hfn : fn ≠ "noname") :
    (StatsFlows.construct fn).singleFileInv fn fs 0 := by
  refine ⟨construct_wellFormed fn, by simp [StatsFlows.construct, hfn], rfl, ?_, rfl,
    fun _ => rfl, ?_⟩
  · intro fd hfd
    simp [StatsFlows.construct] at hfd
  · intro h
    exact absurd rfl h

/-! ## The report of all flows in one file -/

/-- One file after all accumulators that write to it have been finalized: the blocks
of the accumulators follow what the file held, in the order of the list. -/
theorem finalizeAll_file (fn : String) (singleFile : Bool) (allRxPackets : Nat) :
    ∀ (l : List FlowData) (fs : FileSystem),
      (∀ fd ∈ l, fd.m_fileName = fn ∧ fd.m_fileWriteEnable = true) →
      (finalizeAll l singleFile allRxPackets fs) fn
        = fs fn ++ (l.map (fun fd => fd.finalizeBlock singleFile allRxPackets)).flatten := by
  intro l
  induction l with
  | nil => intro fs _; simp [finalizeAll]
  | cons fd rest ih =>
    intro fs h
    obtain ⟨hn, he⟩ := h fd (List.mem_cons_self _ _)
    have hstep : finalizeAll (fd :: rest) singleFile allRxPackets fs
        = finalizeAll rest singleFile allRxPackets
            (fs.append fn (fd.finalizeBlock singleFile allRxPackets)) := by
      simp [finalizeAll, FlowData.Finalize, he, hn]
    rw [hstep, ih _ (fun x hx => h x (List.mem_cons_of_mem _ hx)), append_same,
      List.map_cons, List.flatten_cons, List.append_assoc]

/-- Line `j` of the `i`-th list in the concatenation of lists of one length `n`. -/
theorem flatten_uniform_get {α : Type} (n : Nat) :
    ∀ (L : List (List α)) (i j : Nat) (l : List α),
      (∀ x ∈ L, x.length = n) → j < n → L[i]? = some l →
      L.flatten[n * i + j]? = l[j]? := by
  intro L
  induction L with
  | nil => intro i j l _ _ h; simp at h
  | cons x rest ih =>
    intro i j l hall hj h
    have hx : x.length = n := hall x (List.mem_cons_self _ _)
    cases i with
    | zero =>
      simp only [List.getElem?_cons_zero, Option.some.injEq] at h
      subst h
      rw [List.flatten_cons, Nat.mul_zero, Nat.zero_add,
        List.getElem?_append_left (by omega)]
    | succ i =>
      simp only [List.getElem?_cons_succ] at h
      rw [List.flatten_cons, List.getElem?_append_right (by rw [hx, Nat.mul_succ]; omega)]
      have he : n * (i + 1) + j - x.length = n * i + j := by
        rw [hx, Nat.mul_succ]; omega
      rw [he]
      exact ih i j l (fun y hy => hall y (List.mem_cons_of_mem _ hy)) hj h

/-- Row of a report that consists of the rows `pre`, blocks of `n` lines each, and
the rows `post`: line `j` of block `i` stands `n * i + j` rows after `pre`. -/
theorem report_row (pre : List Line) (blocks : List (List Line)) (post : List Line) (n : Nat)
    (hn : ∀ b ∈ blocks, b.length = n) (i j : Nat) (b : List Line) (line : Line)
    (hb : blocks[i]? = some b) (hl : b[j]? = some line) :
    (pre ++ blocks.flatten ++ post)[pre.length + (n * i + j)]? = some line := by
  have hj : j < n := by
    have := (List.getElem?_eq_some.1 hl).1
    rw [hn b (List.getElem?_mem hb)] at this
    exact this
  have hflat : blocks.flatten[n * i + j]? = some line := by
    rw [flatten_uniform_get n blocks i j b hn hj hb, hl]
  have hlt : n * i + j < blocks.flatten.length := (List.getElem?_eq_some.1 hflat).1
  rw [List.append_assoc, List.getElem?_append_right (Nat.le_add_right _ _),
    Nat.add_sub_cancel_left, List.getElem?_append_left hlt, hflat]

/-- Block of a flow whose three durations are not zero: it has 26 lines, the delay
formulas stand on lines 6 to 9, the `Tx` packet count on line 21, the lost packets
on line 25 and the real throughput on line 26. -/
theorem finalizeBlock_full (fd : FlowData) (singleFile : Bool) (allRxPackets : Nat)
    (h1 : fd.m_scalarData.lastPacketReceived - fd.m_scalarData.firstPacketReceived ≠ 0)
    (h2 : fd.m_scalarData.lastPacketSent - fd.m_scalarData.firstPacketSent ≠ 0)
    (h3 : fd.m_scalarData.lastPacketReceived - fd.m_scalarData.firstPacketSent ≠ 0) :
    (fd.finalizeBlock singleFile allRxPackets).length = 26 ∧
    (fd.finalizeBlock singleFile allRxPackets)[5]?
      = some [Cell.text "E2E average delay [us]",
          Cell.formula (FlowData.meanFormula (fd.formulaColumn singleFile)
            (fd.formulaRow singleFile allRxPackets) fd.m_scalarData.totalRxPackets)] ∧
    (fd.finalizeBlock singleFile allRxPackets)[6]?
      = some [Cell.text "E2E median delay [us]",
          Cell.formula (FlowData.medianFormula (fd.formulaColumn singleFile)
            (fd.formulaRow singleFile allRxPackets))] ∧
    (fd.finalizeBlock singleFile allRxPackets)[7]?
      = some [Cell.text "E2E max delay [us]",
          Cell.formula (FlowData.maxFormula (fd.formulaColumn singleFile)
            (fd.formulaRow singleFile allRxPackets))] ∧
    (fd.finalizeBlock singleFile allRxPackets)[8]?
      = some [Cell.text "Jitter [us]",
          Cell.formula (FlowData.jitterFormula (fd.formulaColumn singleFile)
            (fd.formulaRow singleFile allRxPackets) fd.m_scalarData.totalRxPackets)] ∧
    (fd.finalizeBlock singleFile allRxPackets)[20]?
      = some [Cell.text "Tx", Cell.text "Count of packets:",
          Cell.int fd.m_scalarData.totalTxPackets] ∧
    (fd.finalizeBlock singleFile allRxPackets)[24]?
      = some [Cell.empty, Cell.text "Lost packets:",
          Cell.int (((fd.m_scalarData.totalTxPackets : Int)
            - (fd.m_scalarData.totalRxPackets : Int)) % 2 ^ 32)] ∧
    (fd.finalizeBlock singleFile allRxPackets)[25]?
      = some [Cell.empty, Cell.text "Real throughput [bps]:",
          Cell.real ((fd.m_scalarData.totalRxBytes : ℚ) * 8
            / (fd.m_scalarData.lastPacketReceived
                - fd.m_scalarData.firstPacketSent : Time).GetSeconds)] := by
  refine ⟨by rw [finalizeBlock_length, if_pos h1, if_pos h2, if_pos h3], ?_⟩
  simp only [FlowData.finalizeBlock, getSeconds_eq_zero, ne_eq, h1, h2, h3, not_false_eq_true,
    if_true]
  exact ⟨rfl, rfl, rfl, rfl, rfl, rfl, rfl⟩

/-- Cell references of a sum over the flows, when the number of keys fits an `int`. -/
theorem refSum_refs (s : StatsFlows) (col : Nat) (k : Int) (hflows : 1 ≤ s.m_flowIds.length)
    (hfit : s.m_flowIds.length < 2 ^ 31) :
    (StatsFlows.refSum col s.lastRow s.nFlows k).refs
      = (List.range s.m_flowIds.length).map
          (fun (i : Nat) => (col, s.lastRow + 26 * (i : Int) + k)) := by
  have hn : s.nFlows = (s.m_flowIds.length : Int) := by
    unfold StatsFlows.nFlows
    rw [toInt32_of_lt _ hfit]
  rw [refs_refSum, hn, aggregateRows_eq _ _ _ hflows, List.map_map]
  rfl

/-- The `i`-th reference of a formula names the last cell of `line` when its row
number is `base + 26 * i + j + 1`, its column is the one of the last cell, and `line`
stands `26 * i + j` rows after the first `base` rows of the sheet. -/
theorem refersTo_row (R : Sheet) (f : Expr) (i : Nat) (line : Line) (c base j : Nat) (r : Int)
    (hrefs : f.refs[i]? = some (c, r))
    (hr : r = (base : Int) + 26 * (i : Int) + ((j : Int) + 1))
    (hc : columnNumber c = some line.length)
    (hR : R[base + (26 * i + j)]? = some line) : refersTo R f i line := by
  refine ⟨c, r, by rw [List.get?_eq_getElem?]; exact hrefs, by omega, hc, ?_⟩
  have he : r.toNat - 1 = base + (26 * i + j) := by omega
  rw [List.get?_eq_getElem?, he]
  exact hR

/-- C12 (amended): in single-file mode (file name other than `noname`), for every
returning run from the empty registry that leaves fewer than `2 ^ 16` flows, with
`arrivals + 1 + 26 * nFlows < 2 ^ 31` and every flow having non-zero receive
duration, send duration and span, `Finalize` returns and, for every flow `i`, the
`i`-th cell referenced by each aggregate formula is the cell of the report file
that holds the named value of flow `i`: the formula cell of its average, median,
max and jitter delay line, and the value cell of its `Tx` packet count, lost-packets
and real-throughput line. -/
theorem C12_aggregate_cells (fn : String) (fuel fuel2 : Nat) (fs0 : FileSystem)
    (as : List Arrival) (s : StatsFlows) (fs : FileSystem) (tr : List Dispatch)
    (hfn : fn ≠ "noname")
    (hrun : StatsFlows.run fuel (StatsFlows.construct fn) fs0 as = Except.ok (s, fs, tr))
    (hdur : ∀ fd ∈ s.m_flowData,
      fd.m_scalarData.lastPacketReceived - fd.m_scalarData.firstPacketReceived ≠ 0 ∧
      fd.m_scalarData.lastPacketSent - fd.m_scalarData.firstPacketSent ≠ 0 ∧
      fd.m_scalarData.lastPacketReceived - fd.m_scalarData.firstPacketSent ≠ 0)
    (hacc : s.m_flowData.length < 2 ^ 16) (hfuel : s.m_flowData.length < fuel2)
    (hrows : as.length + 1 + 26 * s.m_flowIds.length < 2 ^ 31) :
    s.m_singleFile = true ∧ s.m_fileName = fn ∧
    ∃ fs2 : FileSystem, StatsFlows.Finalize fuel2 s fs = Except.ok fs2 ∧
      ∀ (i : Nat) (fd : FlowData), s.m_flowData[i]? = some fd →
        fd.m_flowId.index = i ∧
        refersTo (fs2 fn) (StatsFlows.delayFormula s.lastRow s.nFlows 6) i
          [Cell.text "E2E average delay [us]",
            Cell.formula (FlowData.meanFormula (fd.formulaColumn true)
              (fd.formulaRow true s.m_allRxPackets) fd.m_scalarData.totalRxPackets)] ∧
        refersTo (fs2 fn) (StatsFlows.delayFormula s.lastRow s.nFlows 7) i
          [Cell.text "E2E median delay [us]",
            Cell.formula (FlowData.medianFormula (fd.formulaColumn true)
              (fd.formulaRow true s.m_allRxPackets))] ∧
        refersTo (fs2 fn) (StatsFlows.delayFormula s.lastRow s.nFlows 8) i
          [Cell.text "E2E max delay [us]",
            Cell.formula (FlowData.maxFormula (fd.formulaColumn true)
              (fd.formulaRow true s.m_allRxPackets))] ∧
        refersTo (fs2 fn) (StatsFlows.delayFormula s.lastRow s.nFlows 9) i
          [Cell.text "Jitter [us]",
            Cell.formula (FlowData.jitterFormula (fd.formulaColumn true)
              (fd.formulaRow true s.m_allRxPackets) fd.m_scalarData.totalRxPackets)] ∧
        refersTo (fs2 fn) (StatsFlows.txFormula s.lastRow s.nFlows) i
          [Cell.text "Tx", Cell.text "Count of packets:",
            Cell.int fd.m_scalarData.totalTxPackets] ∧
        refersTo (fs2 fn) (StatsFlows.lostFormula s.lastRow s.nFlows) i
          [Cell.empty, Cell.text "Lost packets:",
            Cell.int (((fd.m_scalarData.totalTxPackets : Int)
              - (fd.m_scalarData.totalRxPackets : Int)) % 2 ^ 32)] ∧
        refersTo (fs2 fn) (StatsFlows.throughputFormula s.lastRow s.nFlows) i
          [Cell.empty, Cell.text "Real throughput [bps]:",
            Cell.real ((fd.m_scalarData.totalRxBytes : ℚ) * 8
              / (fd.m_scalarData.lastPacketReceived
                  - fd.m_scalarData.firstPacketSent : Time).GetSeconds)] := by
  have hinv := run_singleFileInv fn fuel as (StatsFlows.construct fn) fs0 0 s fs tr
    (construct_singleFileInv fn fs0 hfn) hrun
  rw [Nat.zero_add] at hinv
  obtain ⟨hw, hsf, hname, hfd, hall, _, hfile⟩ := hinv
  refine ⟨hsf, hname, _, finalize_ok fuel2 s fs hacc hfuel, ?_⟩
  intro i fd hi
  have hlen : s.m_flowData.length = s.m_flowIds.length := by
    rw [← hw.1, List.length_map]
  have hilt : i < s.m_flowData.length := (List.getElem?_eq_some.1 hi).1
  have hflows : 1 ≤ s.m_flowIds.length := by omega
  have hne : s.m_flowIds ≠ [] := by
    intro hnil
    rw [hnil] at hflows
    exact absurd hflows (by simp)
  obtain ⟨rows, hrows1, hrows2, _⟩ := hfile hne
  have hN : s.m_allRxPackets = as.length := by
    rw [hall, Nat.mod_eq_of_lt (by omega)]
  have hlast : s.lastRow = ((as.length + 1 : Nat) : Int) := by
    unfold StatsFlows.lastRow
    rw [hN, Nat.mod_eq_of_lt (by omega), toInt32_of_lt _ (by omega)]
  have hpre : (fs fn).length = as.length + 1 := by
    rw [hrows1, List.length_cons, hrows2]
  have hindex : fd.m_flowId.index = i := by
    have h1 : s.m_flowIds[i]? = some fd.m_flowId := by
      rw [← hw.1, List.getElem?_map, hi]
      rfl
    exact hw.2.2.2 i fd.m_flowId (by rw [List.get?_eq_getElem?]; exact h1)
  have hmem : fd ∈ s.m_flowData := List.getElem?_mem hi
  obtain ⟨d1, d2, d3⟩ := hdur fd hmem
  obtain ⟨_, l5, l6, l7, l8, l20, l24, l25⟩ :=
    finalizeBlock_full fd true s.m_allRxPackets d1 d2 d3
  have hR : ((finalizeAll s.m_flowData s.m_singleFile s.m_allRxPackets fs).append s.m_fileName
      s.aggregateBlock) fn
      = fs fn ++ (s.m_flowData.map (fun fd => fd.finalizeBlock true s.m_allRxPackets)).flatten
          ++ s.aggregateBlock := by
    rw [hname, append_same, hsf, finalizeAll_file fn true s.m_allRxPackets s.m_flowData fs hfd]
  have h26 : ∀ b ∈ s.m_flowData.map (fun fd => fd.finalizeBlock true s.m_allRxPackets),
      b.length = 26 := by
    intro b hb
    obtain ⟨x, hx, hxb⟩ := List.mem_map.1 hb
    obtain ⟨e1, e2, e3⟩ := hdur x hx
    rw [← hxb]
    exact (finalizeBlock_full x true s.m_allRxPackets e1 e2 e3).1
  have hb : (s.m_flowData.map (fun fd => fd.finalizeBlock true s.m_allRxPackets))[i]?
      = some (fd.finalizeBlock true s.m_allRxPackets) := by
    rw [List.getElem?_map, hi]
    rfl
  have key : ∀ (f : Expr) (c j : Nat) (k : Int) (line : Line), k = (j : Int) + 1 →
      f.refs = (StatsFlows.refSum c s.lastRow s.nFlows k).refs →
      columnNumber c = some line.length →
      (fd.finalizeBlock true s.m_allRxPackets)[j]? = some line →
      refersTo (((finalizeAll s.m_flowData s.m_singleFile s.m_allRxPackets fs).append
        s.m_fileName s.aggregateBlock) fn) f i line := by
    intro f c j k line hk hf hc hl
    subst hk
    refine refersTo_row _ f i line c (as.length + 1) j
      (s.lastRow + 26 * (i : Int) + ((j : Int) + 1)) ?_ ?_ hc ?_
    · rw [hf, refSum_refs s c _ hflows (by omega), List.getElem?_map,
        List.getElem?_range (by omega)]
      rfl
    · rw [hlast]
    · rw [hR, ← hpre]
      exact report_row _ _ _ 26 h26 i j _ line hb hl
  have hdelay : ∀ k : Int, (StatsFlows.delayFormula s.lastRow s.nFlows k).refs
      = (StatsFlows.refSum 66 s.lastRow s.nFlows k).refs := by
    intro k
    simp [StatsFlows.delayFormula, Expr.refs]
  have hthr : (StatsFlows.throughputFormula s.lastRow s.nFlows).refs
      = (StatsFlows.refSum 67 s.lastRow s.nFlows 26).refs := by
    simp [StatsFlows.throughputFormula, Expr.refs]
  exact ⟨hindex,
    key _ 66 5 6 _ (by norm_num) (hdelay 6) (by simp [columnNumber]) l5,
    key _ 66 6 7 _ (by norm_num) (hdelay 7) (by simp [columnNumber]) l6,
    key _ 66 7 8 _ (by norm_num) (hdelay 8) (by simp [columnNumber]) l7,
    key _ 66 8 9 _ (by norm_num) (hdelay 9) (by simp [columnNumber]) l8,
    key _ 67 20 21 _ (by norm_num) rfl (by simp [columnNumber]) l20,
    key _ 67 24 25 _ (by norm_num) rfl (by simp [columnNumber]) l24,
    key _ 67 25 26 _ (by norm_num) hthr (by simp [columnNumber]) l25⟩

/-! ## Runs of a single flow -/

/-- A list without duplicates whose members all equal one value has at most one
member. -/
theorem length_le_one_of_const {α : Type} (K : α) :
    ∀ (L : List α), (∀ x ∈ L, x = K) → L.Nodup → L.length ≤ 1 := by
  intro L hall hnd
  match L, hall, hnd with
  | [], _, _ => exact Nat.zero_le _
  | [_], _, _ => exact Nat.le_refl _
  | a :: b :: t, hall, hnd =>
    have ha : a = K := hall a (List.mem_cons_self _ _)
    have hb : b = K := hall b (List.mem_cons_of_mem _ (List.mem_cons_self _ _))
    have hne : a ≠ b := by
      intro he
      rw [List.nodup_cons] at hnd
      exact hnd.1 (by rw [he]; exact List.mem_cons_self _ _)
    exact absurd (ha.trans hb.symm) hne

/-- One call on a registry all of whose keys have the arrival's four ids, and whose
accumulators hold the scalars after the arrivals `l`: there is exactly one accumulator
afterwards, and it holds the scalars after `l` and this arrival. -/
theorem packetReceived_oneFlow (fuel : Nat) (s : StatsFlows) (fs : FileSystem) (a : Arrival)
    (d : Delivered) (l : List (Time × Packet)) (hw : s.wellFormed)
    (hkeys : ∀ id ∈ s.m_flowIds, id.key = a.key)
    (hsc : ∀ fd ∈ s.m_flowData, fd.m_scalarData = FlowData.scalarsAfter {} l)
    (hl : s.m_flowData = [] → l = [])
    (h : StatsFlows.PacketReceived fuel s fs a = Except.ok d) :
    d.flows.wellFormed ∧ (∀ id ∈ d.flows.m_flowIds, id.key = a.key) ∧
    (∀ fd ∈ d.flows.m_flowData,
      fd.m_scalarData = FlowData.scalarsAfter {} (l ++ [(a.now, a.packet)])) ∧
    d.flows.m_flowData.length = 1 := by
  obtain ⟨hwd, ⟨ext, hext, hextk⟩, ⟨id0, hid0, _⟩, _⟩ :=
    packetReceived_wellFormed fuel s fs a d hw h
  obtain ⟨⟨before, after, hafter, _, hbefore, hupd, _⟩, _, _⟩ :=
    packetReceived_frame fuel s fs a d hw h
  have hkeys2 : ∀ id ∈ d.flows.m_flowIds, id.key = a.key := by
    intro id hid
    rw [hext] at hid
    rcases List.mem_append.1 hid with hid | hid
    · exact hkeys id hid
    · exact hextk id hid
  have hle : d.flows.m_flowIds.length ≤ 1 := by
    have := length_le_one_of_const a.key (d.flows.m_flowIds.map NetFlowId.key)
      (by
        intro x hx
        obtain ⟨id, hid, hidx⟩ := List.mem_map.1 hx
        rw [← hidx]
        exact hkeys2 id hid) hwd.2.2.1
    rw [List.length_map] at this
    exact this
  have hlt : d.i < d.flows.m_flowIds.length := (List.getElem?_eq_some.1 hid0).1
  have hlen : d.flows.m_flowData.length = d.flows.m_flowIds.length := by
    rw [← hwd.1, List.length_map]
  have hi0 : d.i = 0 := by omega
  have hlen1 : d.flows.m_flowData.length = 1 := by omega
  rw [hi0] at hafter hbefore
  have hscafter : after.m_scalarData
      = FlowData.scalarsAfter {} (l ++ [(a.now, a.packet)]) := by
    rw [hupd, scalarsAfter_append]
    rcases hbefore with hb | ⟨hb, hb0⟩
    · rw [hsc before (List.getElem?_mem hb)]
      rfl
    · have hnil : s.m_flowData = [] := by
        rw [List.getElem?_eq_none_iff] at hb
        exact List.length_eq_zero.1 (by omega)
      rw [hl hnil, hb0]
      rfl
  refine ⟨hwd, hkeys2, ?_, hlen1⟩
  intro fd hfd
  obtain ⟨k, hk⟩ := List.getElem?_of_mem hfd
  have hk0 : k = 0 := by
    have := (List.getElem?_eq_some.1 hk).1
    omega
  rw [hk0, hafter] at hk
  rw [← Option.some.inj hk]
  exact hscafter

/-- A returning run of arrivals of one flow, from a registry that knows no other
flow: every accumulator holds the scalars after all arrivals, and there is exactly
one accumulator unless nothing was ever received. -/
theorem run_oneFlow (fuel : Nat) (K : Nat × Nat × Nat × Nat) :
    ∀ (as : List Arrival) (s : StatsFlows) (fs : FileSystem) (l : List (Time × Packet))
      (s1 : StatsFlows) (fs1 : FileSystem) (tr : List Dispatch),
      s.wellFormed → (∀ a ∈ as, a.key = K) → (∀ id ∈ s.m_flowIds, id.key = K) →
      (∀ fd ∈ s.m_flowData, fd.m_scalarData = FlowData.scalarsAfter {} l) →
      (s.m_flowData = [] → l = []) →
      StatsFlows.run fuel s fs as = Except.ok (s1, fs1, tr) →
      (∀ fd ∈ s1.m_flowData, fd.m_scalarData
        = FlowData.scalarsAfter {} (l ++ as.map (fun a => (a.now, a.packet)))) ∧
      (s.m_flowData ≠ [] ∨ as ≠ [] → s1.m_flowData.length = 1) := by
  intro as
  induction as with
  | nil =>
    intro s fs l s1 fs1 tr hw _ hkeys hsc _ h
    simp only [StatsFlows.run, Except.ok.injEq, Prod.mk.injEq] at h
    obtain ⟨h1, _, _⟩ := h
    subst h1
    refine ⟨by simpa using hsc, ?_⟩
    intro hne
    rcases hne with hne | hne
    · have hlen : s.m_flowData.length = s.m_flowIds.length := by
        rw [← hw.1, List.length_map]
      have hle := length_le_one_of_const K (s.m_flowIds.map NetFlowId.key)
        (by
          intro x hx
          obtain ⟨id, hid, hidx⟩ := List.mem_map.1 hx
          rw [← hidx]
          exact hkeys id hid) hw.2.2.1
      rw [List.length_map] at hle
      have hpos : 0 < s.m_flowData.length := List.length_pos.2 hne
      omega
    · exact absurd rfl hne
  | cons a rest ih =>
    intro s fs l s1 fs1 tr hw has hkeys hsc hl h
    unfold StatsFlows.run at h
    split at h
    · exact absurd h (by simp)
    · rename_i d hd
      split at h
      · exact absurd h (by simp)
      · rename_i s2 fs2 tr2 hrest
        simp only [Except.ok.injEq, Prod.mk.injEq] at h
        obtain ⟨h1, _, _⟩ := h
        subst h1
        have hak : a.key = K := has a (List.mem_cons_self _ _)
        obtain ⟨hwd, hkeys2, hsc2, hlen2⟩ := packetReceived_oneFlow fuel s fs a d l hw
          (by intro id hid; rw [hak]; exact hkeys id hid) hsc hl hd
        have hne2 : d.flows.m_flowData ≠ [] := by
          intro hnil
          rw [hnil] at hlen2
          exact absurd hlen2 (by simp)
        obtain ⟨r1, r2⟩ := ih d.flows d.files (l ++ [(a.now, a.packet)]) s2 fs2 tr2 hwd
          (fun x hx => has x (List.mem_cons_of_mem _ hx))
          (by intro id hid; rw [← hak]; exact hkeys2 id hid) hsc2
          (fun hnil => absurd hnil hne2) hrest
        refine ⟨?_, fun _ => r2 (Or.inl hne2)⟩
        intro fd hfd
        rw [r1 fd hfd, List.map_cons, List.append_assoc]
        rfl

/-- Number of arrivals of `flowRun n`. -/
theorem flowRun_length (n : Nat) : (flowRun n).length = n + 1 := by
  unfold flowRun
  rw [List.length_cons, List.length_replicate]

/-- All arrivals of `flowRun n` are of the flow from node 0, application 0 to node 1,
application 0. -/
theorem flowRun_keys (n : Nat) : ∀ a ∈ flowRun n, a.key = (0, 0, 1, 0) := by
  intro a ha
  unfold flowRun at ha
  rcases List.mem_cons.1 ha with ha | ha
  · rw [ha]
    exact key_ofHeader _ _ _ _ ⟨by norm_num, by norm_num, by norm_num, by norm_num⟩
  · rw [List.eq_of_mem_replicate ha]
    exact key_ofHeader _ _ _ _ ⟨by norm_num, by norm_num, by norm_num, by norm_num⟩

/-- Scalars after the arrivals of `flowRun n`, for `1 <= n` with fewer than `2 ^ 32`
arrivals in all: first packet received at 10 us and sent at 5 us, last packet received
at 20 us and sent at 12 us. -/
theorem flowRun_scalars (n : Nat) (hn1 : 1 ≤ n) (hn : n + 1 < 2 ^ 32) :
    (FlowData.scalarsAfter {} ((flowRun n).map (fun a => (a.now, a.packet)))).firstPacketReceived
      = 10000 ∧
    (FlowData.scalarsAfter {} ((flowRun n).map (fun a => (a.now, a.packet)))).firstPacketSent
      = 5000 ∧
    (FlowData.scalarsAfter {} ((flowRun n).map (fun a => (a.now, a.packet)))).lastPacketReceived
      = 20000 ∧
    (FlowData.scalarsAfter {} ((flowRun n).map (fun a => (a.now, a.packet)))).lastPacketSent
      = 12000 := by
  obtain ⟨m, rfl⟩ : ∃ m, n = m + 1 := ⟨n - 1, by omega⟩
  have hmap : (flowRun (m + 1)).map (fun a => (a.now, a.packet))
      = ((10000 : Time), samplePacket 0 5000)
          :: List.replicate (m + 1) ((20000 : Time), samplePacket 1 12000) := by
    unfold flowRun
    rw [List.map_cons, List.map_replicate]
    rfl
  have hsplit : ((10000 : Time), samplePacket 0 5000)
        :: List.replicate (m + 1) ((20000 : Time), samplePacket 1 12000)
      = (((10000 : Time), samplePacket 0 5000)
          :: List.replicate m ((20000 : Time), samplePacket 1 12000))
        ++ [((20000 : Time), samplePacket 1 12000)] := by
    rw [List.replicate_succ', List.cons_append]
  have hstep : ∀ l : List (Time × Packet),
      FlowData.scalarsAfter {} (((10000 : Time), samplePacket 0 5000) :: l)
        = FlowData.scalarsAfter (FlowData.updateScalars {} 10000 (samplePacket 0 5000)) l :=
    fun _ => rfl
  have hp0 := peekHeader_samplePacket 0 5000 (by norm_num) (by norm_num)
  have hp1 := peekHeader_samplePacket 1 12000 (by norm_num) (by norm_num)
  obtain ⟨e1, e2, e3, _⟩ := updateScalars_first {} 10000 (samplePacket 0 5000)
  have hone : (FlowData.updateScalars {} 10000 (samplePacket 0 5000)).totalRxPackets = 1 := by
    rw [e1]; rfl
  obtain ⟨_, k2, k3, _⟩ := scalarsAfter_keep
    (List.replicate (m + 1) ((20000 : Time), samplePacket 1 12000))
    (FlowData.updateScalars {} 10000 (samplePacket 0 5000)) (by rw [hone])
    (by rw [hone, List.length_replicate]; omega)
  refine ⟨?_, ?_, ?_, ?_⟩
  · rw [hmap, hstep, k2, e2]
    rfl
  · rw [hmap, hstep, k3, e3, hp0]
    rfl
  · rw [hmap, hsplit, scalarsAfter_append]
    rfl
  · rw [hmap, hsplit, scalarsAfter_append]
    have : ∀ sd : ScalarData, (FlowData.scalarsAfter sd
        [((20000 : Time), samplePacket 1 12000)]).lastPacketSent
          = (samplePacket 1 12000).PeekHeader.GetTs := fun _ => rfl
    rw [this, hp1]
    rfl

/-- The run of `flowRun n` from the empty registry returns, for `1 <= n` with fewer
than `2 ^ 32` arrivals in all, and leaves one flow, whose first packet was received at
10 us and sent at 5 us and whose last packet was received at 20 us and sent at
12 us. -/
theorem flowRun_run (fn : String) (n : Nat) (hn1 : 1 ≤ n) (hn : n + 1 < 2 ^ 32) :
    ∃ s fs tr, StatsFlows.run 65537 (StatsFlows.construct fn) (fun _ => []) (flowRun n)
        = Except.ok (s, fs, tr) ∧
      ∃ fd, s.m_flowData = [fd] ∧ s.m_flowIds.length = 1 ∧
        fd.m_scalarData.firstPacketReceived = 10000 ∧
        fd.m_scalarData.firstPacketSent = 5000 ∧
        fd.m_scalarData.lastPacketReceived = 20000 ∧
        fd.m_scalarData.lastPacketSent = 12000 := by
  have hw := construct_wellFormed fn
  obtain ⟨⟨s, fs, tr⟩, hrun⟩ := run_total 65537 (by norm_num) [(0, 0, 1, 0)] (by simp)
    (flowRun n) (StatsFlows.construct fn) (fun _ => []) hw
    (fun a ha => by rw [flowRun_keys n a ha]; exact List.mem_singleton.2 rfl)
    (by intro id hid; simp [StatsFlows.construct] at hid)
  obtain ⟨hsc, hlen⟩ := run_oneFlow 65537 (0, 0, 1, 0) (flowRun n) (StatsFlows.construct fn)
    (fun _ => []) [] s fs tr hw (flowRun_keys n)
    (by intro id hid; simp [StatsFlows.construct] at hid)
    (by intro fd hfd; simp [StatsFlows.construct] at hfd) (fun _ => rfl) hrun
  have hne : flowRun n ≠ [] := by
    unfold flowRun
    exact List.cons_ne_nil _ _
  have hlen1 := hlen (Or.inr hne)
  obtain ⟨hws, _, _, _⟩ := run_sound 65537 (flowRun n) (StatsFlows.construct fn) (fun _ => [])
    s fs tr hw hrun
  have hids : s.m_flowIds.length = 1 := by
    rw [← hws.1, List.length_map, hlen1]
  obtain ⟨fd, hfd⟩ := List.length_eq_one.1 hlen1
  have := hsc fd (by rw [hfd]; exact List.mem_singleton.2 rfl)
  rw [List.nil_append] at this
  obtain ⟨f1, f2, f3, f4⟩ := flowRun_scalars n hn1 hn
  exact ⟨s, fs, tr, hrun, fd, hfd, hids, by rw [this, f1], by rw [this, f2], by rw [this, f3],
    by rw [this, f4]⟩

theorem C12_aggregate_cells_witness :
    ∃ s fs tr, "all.csv" ≠ "noname" ∧
      StatsFlows.run 65537 (StatsFlows.construct "all.csv") (fun _ => []) twoFlowRun
        = Except.ok (s, fs, tr) ∧
      (∀ fd ∈ s.m_flowData,
        fd.m_scalarData.lastPacketReceived - fd.m_scalarData.firstPacketReceived ≠ 0 ∧
        fd.m_scalarData.lastPacketSent - fd.m_scalarData.firstPacketSent ≠ 0 ∧
        fd.m_scalarData.lastPacketReceived - fd.m_scalarData.firstPacketSent ≠ 0) ∧
      s.m_flowData.length < 2 ^ 16 ∧ s.m_flowData.length < 3 ∧
      twoFlowRun.length + 1 + 26 * s.m_flowIds.length < 2 ^ 31 ∧
      s.m_flowData.length = 2 ∧
      s.m_singleFile = true ∧ s.m_fileName = "all.csv" ∧
      ∃ fs2 : FileSystem, StatsFlows.Finalize 3 s fs = Except.ok fs2 ∧
        ∀ (i : Nat) (fd : FlowData), s.m_flowData[i]? = some fd →
          fd.m_flowId.index = i ∧
          refersTo (fs2 "all.csv") (StatsFlows.delayFormula s.lastRow s.nFlows 6) i
            [Cell.text "E2E average delay [us]",
              Cell.formula (FlowData.meanFormula (fd.formulaColumn true)
                (fd.formulaRow true s.m_allRxPackets) fd.m_scalarData.totalRxPackets)] ∧
          refersTo (fs2 "all.csv") (StatsFlows.txFormula s.lastRow s.nFlows) i
            [Cell.text "Tx", Cell.text "Count of packets:",
              Cell.int fd.m_scalarData.totalTxPackets] := by
  obtain ⟨s, fs, tr, hrun, hids, _, hlen, hdur⟩ := twoFlowRun_run
  have hacc : s.m_flowData.length < 2 ^ 16 := by
    rw [hlen]; norm_num
  have hfuel : s.m_flowData.length < 3 := by
    rw [hlen]; norm_num
  have hrows : twoFlowRun.length + 1 + 26 * s.m_flowIds.length < 2 ^ 31 := by
    rw [hids]
    simp [twoFlowRun]
  obtain ⟨h1, h2, fs2, hfin, hcells⟩ := C12_aggregate_cells "all.csv" 65537 3 (fun _ => [])
    twoFlowRun s fs tr (by decide) hrun hdur hacc hfuel hrows
  exact ⟨s, fs, tr, by decide, hrun, hdur, hacc, hfuel, hrows, hlen, h1, h2, fs2, hfin,
    fun i x hi => ⟨(hcells i x hi).1, (hcells i x hi).2.1, (hcells i x hi).2.2.2.2.2.1⟩⟩

/-- C12 (as stated, refuted): one flow receives `2 ^ 32 - 1` packets in single-file
mode, with non-zero receive duration, send duration and span. The counter of all
received packets is `2 ^ 32 - 1`, so `lastRow` wraps to 0 and the only cell that the
aggregate average-delay formula references is `B6`; row 6 of the report file is a
sample row, not the flow's `E2E average delay` line. -/
theorem C12_wrapped_last_row_names_sample_row :
    ∃ s fs tr, StatsFlows.run 65537 (StatsFlows.construct "all.csv") (fun _ => []) bigRun
        = Except.ok (s, fs, tr) ∧
      bigRun.length = 4294967295 ∧ s.m_singleFile = true ∧
      (∀ fd ∈ s.m_flowData,
        fd.m_scalarData.lastPacketReceived - fd.m_scalarData.firstPacketReceived ≠ 0 ∧
        fd.m_scalarData.lastPacketSent - fd.m_scalarData.firstPacketSent ≠ 0 ∧
        fd.m_scalarData.lastPacketReceived - fd.m_scalarData.firstPacketSent ≠ 0) ∧
      ∃ (fs2 : FileSystem) (fd : FlowData), StatsFlows.Finalize 2 s fs = Except.ok fs2 ∧
        s.m_flowData[0]? = some fd ∧ s.lastRow = 0 ∧
        (StatsFlows.delayFormula s.lastRow s.nFlows 6).refs = [(66, 6)] ∧
        (∃ (time t : Time) (k seqNo : Nat),
          (fs2 "all.csv").get? 5 = some (VectorData.sampleRow time t true k seqNo)) ∧
        ¬ refersTo (fs2 "all.csv") (StatsFlows.delayFormula s.lastRow s.nFlows 6) 0
          [Cell.text "E2E average delay [us]",
            Cell.formula (FlowData.meanFormula (fd.formulaColumn true)
              (fd.formulaRow true s.m_allRxPackets) fd.m_scalarData.totalRxPackets)] := by
  obtain ⟨s, fs, tr, hrun, fd, hdata, hids, f1, f2, f3, f4⟩ :=
    flowRun_run "all.csv" 4294967294 (by norm_num) (by norm_num)
  have hblen : bigRun.length = 4294967295 := flowRun_length 4294967294
  have hinv := run_singleFileInv "all.csv" 65537 (flowRun 4294967294)
    (StatsFlows.construct "all.csv") (fun _ => []) 0 s fs tr
    (construct_singleFileInv "all.csv" (fun _ => []) (by decide)) hrun
  rw [Nat.zero_add, flowRun_length] at hinv
  obtain ⟨hw, hsf, hname, hfd, hall, _, hfile⟩ := hinv
  have hne : s.m_flowIds ≠ [] := by
    intro hnil
    rw [hnil] at hids
    exact absurd hids (by simp)
  obtain ⟨rows, hrows1, hrows2, hrows3⟩ := hfile hne
  have hlast : s.lastRow = 0 := by
    unfold StatsFlows.lastRow
    rw [hall]
    decide
  have hnf : s.nFlows = 1 := by
    unfold StatsFlows.nFlows
    rw [hids]
    decide
  have hrefs : (StatsFlows.delayFormula s.lastRow s.nFlows 6).refs = [(66, 6)] := by
    rw [hlast, hnf]
    decide
  have hfin := finalize_ok 2 s fs (by rw [hdata]; norm_num) (by rw [hdata]; norm_num)
  have hR : ((finalizeAll s.m_flowData s.m_singleFile s.m_allRxPackets fs).append s.m_fileName
      s.aggregateBlock) "all.csv"
      = fs "all.csv"
          ++ ((s.m_flowData.map (fun fd => fd.finalizeBlock true s.m_allRxPackets)).flatten
            ++ s.aggregateBlock) := by
    rw [hname, append_same, hsf,
      finalizeAll_file "all.csv" true s.m_allRxPackets s.m_flowData fs hfd, List.append_assoc]
  have h4 : 4 < rows.length := by
    rw [hrows2]; norm_num
  have hrow5 : (((finalizeAll s.m_flowData s.m_singleFile s.m_allRxPackets fs).append
      s.m_fileName s.aggregateBlock) "all.csv").get? 5 = some (rows.get ⟨4, h4⟩) := by
    rw [hR, List.get?_eq_getElem?, List.getElem?_append_left
      (by rw [hrows1, List.length_cons]; omega), hrows1, List.getElem?_cons_succ,
      List.getElem?_eq_getElem h4]
    rfl
  obtain ⟨time, t, k, seqNo, hsample⟩ := hrows3 _ (List.get_mem rows 4 h4)
  rw [hsample] at hrow5
  refine ⟨s, fs, tr, hrun, hblen, hsf, ?_, _, fd, hfin, by rw [hdata]; rfl, hlast, hrefs,
    ⟨time, t, k, seqNo, hrow5⟩, ?_⟩
  · intro x hx
    rw [hdata, List.mem_singleton] at hx
    rw [hx, f1, f2, f3, f4]
    exact ⟨by norm_num, by norm_num, by norm_num⟩
  · rintro ⟨c, r, hget, _, _, hrow⟩
    rw [hrefs] at hget
    have hcr : (66, (6 : Int)) = (c, r) := Option.some.inj hget
    have hr : r = 6 := (Prod.mk.inj hcr).2.symm
    have h5 : r.toNat - 1 = 5 := by
      rw [hr]; rfl
    rw [h5, hrow5] at hrow
    have hline := Option.some.inj hrow
    simp [VectorData.sampleRow] at hline

/-! ## The sample row as it is sent to the stream -/

/-- The separator loop sends one separator for each value of the counter below
`flowIndex`. -/
theorem commaLoop_eq (flowIndex : Nat) :
    ∀ (n i : Nat), flowIndex - i = n →
      VectorData.commaLoop flowIndex i = List.replicate n Item.comma := by
  intro n
  induction n with
  | zero =>
    intro i h
    rw [VectorData.commaLoop, if_neg (by omega)]
    rfl
  | succ n ih =>
    intro i h
    rw [VectorData.commaLoop, if_pos (by omega), ih (i + 1) (by omega)]
    rfl

/-- Reading `k` separators yields the cell under way and `k - 1` empty cells, and
leaves an empty cell under way. -/
theorem lineCells_commas (rest : List Item) :
    ∀ (k : Nat), lineCells (List.replicate k Item.comma ++ rest) Cell.empty
      = List.replicate k Cell.empty ++ lineCells rest Cell.empty := by
  intro k
  induction k with
  | zero => rfl
  | succ k ih =>
    rw [List.replicate_succ, List.cons_append, lineCells, ih, List.replicate_succ,
      List.cons_append]

/-- The cells read from the items of `WriteValueToFile` are the cells of
`sampleRow`. -/
theorem rowCells_rowItems (time t : Time) (singleFile : Bool) (k seqNo : Nat) :
    rowCells (VectorData.rowItems time t singleFile k seqNo)
      = VectorData.sampleRow time t singleFile k seqNo := by
  cases singleFile with
  | false => rfl
  | true =>
    have hitems : VectorData.rowItems time t true k seqNo
        = Item.value (Cell.int k) :: Item.comma :: Item.value (Cell.real (Time.micro time))
          :: Item.comma :: Item.value (Cell.int seqNo) :: Item.comma
          :: (List.replicate k Item.comma
              ++ [Item.value (Cell.real (Time.micro t)), Item.endl]) := by
      unfold VectorData.rowItems
      rw [if_pos rfl, commaLoop_eq k k 0 (Nat.sub_zero k)]
      rfl
    have hread : ∀ (a b c : Cell) (rest : List Item),
        lineCells (Item.value a :: Item.comma :: Item.value b :: Item.comma :: Item.value c
          :: Item.comma :: rest) Cell.empty = a :: b :: c :: lineCells rest Cell.empty :=
      fun _ _ _ _ => rfl
    unfold rowCells
    rw [hitems, hread, lineCells_commas]
    rfl

/-- C21: the row that `VectorData::WriteValueToFile` appends to the file reads, cell
by cell, as flow index `k`, time and sequence number, then in single-file mode
exactly `k` empty cells and the delay, in per-flow-file mode the delay directly. In
a combined file the delay of flow 0 is cell 4 of its row, and in a row of flow 1
cell 4 is empty and the delay is cell 5. -/
theorem C21_sample_row_cells (v : VectorData) (fs : FileSystem) (fileName : String)
    (time t : Time) (k seqNo : Nat) :
    rowCells (VectorData.rowItems time t true k seqNo)
      = [Cell.int k, Cell.real (Time.micro time), Cell.int seqNo]
          ++ List.replicate k Cell.empty ++ [Cell.real (Time.micro t)] ∧
    rowCells (VectorData.rowItems time t false k seqNo)
      = [Cell.int k, Cell.real (Time.micro time), Cell.int seqNo, Cell.real (Time.micro t)] ∧
    (∀ singleFile : Bool,
      (v.WriteValueToFile fs fileName time t singleFile k seqNo).2 fileName
        = fs fileName ++ [rowCells (VectorData.rowItems time t singleFile k seqNo)]) ∧
    (rowCells (VectorData.rowItems time t true 0 seqNo)).get? 3
      = some (Cell.real (Time.micro t)) ∧
    (rowCells (VectorData.rowItems time t true 1 seqNo)).get? 3 = some Cell.empty ∧
    (rowCells (VectorData.rowItems time t true 1 seqNo)).get? 4
      = some (Cell.real (Time.micro t)) := by
  refine ⟨?_, ?_, ?_, ?_, ?_, ?_⟩
  · rw [rowCells_rowItems]
    rfl
  · rfl
  · intro singleFile
    rw [rowCells_rowItems]
    simp [VectorData.WriteValueToFile, FileSystem.append]
  · rw [rowCells_rowItems]
    rfl
  · rw [rowCells_rowItems]
    rfl
  · rw [rowCells_rowItems]
    rfl

/-! ## Termination of the lookup loop and validity of the dispatch position -/

/-- Without its count the counting loop is the lookup loop. -/
theorem findLoopCount_erase (ids : List NetFlowId) (fid : NetFlowId) :
    ∀ (fuel i c : Nat),
      (match StatsFlows.findLoopCount ids fid fuel i c with
        | Except.ok r => Except.ok r.1
        | Except.error e => Except.error e) = StatsFlows.findLoop ids fid fuel i := by
  intro fuel
  induction fuel with
  | zero => intro i c; rfl
  | succ n ih =>
    intro i c
    unfold StatsFlows.findLoopCount StatsFlows.findLoop
    by_cases hi : i < ids.length
    · rw [dif_pos hi, dif_pos hi]
      by_cases hs : fid.same (ids.get ⟨i, hi⟩) = true
      · rw [if_pos hs, if_pos hs]
      · rw [if_neg hs, if_neg hs]
        exact ih _ _
    · rw [dif_neg hi, dif_neg hi]

/-- The lookup loop fails only by not leaving within the steps granted. -/
theorem findLoop_error (ids : List NetFlowId) (fid : NetFlowId) :
    ∀ (fuel i : Nat) (e : Fault), StatsFlows.findLoop ids fid fuel i = Except.error e →
      e = Fault.fuel := by
  intro fuel
  induction fuel with
  | zero =>
    intro i e h
    simp only [StatsFlows.findLoop, Except.error.injEq] at h
    exact h.symm
  | succ n ih =>
    intro i e h
    unfold StatsFlows.findLoop at h
    by_cases hi : i < ids.length
    · rw [dif_pos hi] at h
      by_cases hs : fid.same (ids.get ⟨i, hi⟩) = true
      · rw [if_pos hs] at h
        exact absurd h (by simp)
      · rw [if_neg hs] at h
        exact ih _ e h
    · rw [dif_neg hi] at h
      exact absurd h (by simp)

/-- The counting loop returns when it is granted more steps than there are keys left,
provided a key with the same four ids lies ahead at a position below `2 ^ 16` or the
list has fewer than `2 ^ 16` keys: it stops at the first such key, having made one
comparison per position passed and one more there, or at the end of the list, having
made one comparison per position passed. -/
theorem findLoopCount_total (ids : List NetFlowId) (fid : NetFlowId) :
    ∀ (fuel i c : Nat), i ≤ ids.length → ids.length < fuel + i →
      ((∃ q id, i ≤ q ∧ q < 2 ^ 16 ∧ ids[q]? = some id ∧ id.key = fid.key)
        ∨ ids.length < 2 ^ 16) →
      ∃ p n, StatsFlows.findLoopCount ids fid fuel i c = Except.ok (p, n) ∧
        i ≤ p ∧ p ≤ ids.length ∧
        ((p < ids.length ∧ n = c + (p - i) + 1) ∨ (p = ids.length ∧ n = c + (p - i))) := by
  intro fuel
  induction fuel with
  | zero => intro i c h1 h2; omega
  | succ n ih =>
    intro i c hle hfuel hroom
    unfold StatsFlows.findLoopCount
    by_cases hi : i < ids.length
    · rw [dif_pos hi]
      by_cases hs : fid.same (ids.get ⟨i, hi⟩) = true
      · rw [if_pos hs]
        exact ⟨i, c + 1, rfl, Nat.le_refl _, hle, Or.inl ⟨hi, by omega⟩⟩
      · rw [if_neg hs]
        have hnowrap : i + 1 < 2 ^ 16 := by
          rcases hroom with ⟨q, id, hq1, hq2, hq3, hq4⟩ | hsmall
          · have hqi : q ≠ i := by
              intro he
              subst he
              rw [List.getElem?_eq_getElem hi] at hq3
              have hid : ids.get ⟨q, hi⟩ = id := Option.some.inj hq3
              rw [hid] at hs
              exact hs ((same_iff_key fid id).2 hq4.symm)
            omega
          · omega
        rw [Nat.mod_eq_of_lt hnowrap]
        have hroom2 : (∃ q id, i + 1 ≤ q ∧ q < 2 ^ 16 ∧ ids[q]? = some id ∧ id.key = fid.key)
            ∨ ids.length < 2 ^ 16 := by
          rcases hroom with ⟨q, id, hq1, hq2, hq3, hq4⟩ | hsmall
          · have hqi : q ≠ i := by
              intro he
              subst he
              rw [List.getElem?_eq_getElem hi] at hq3
              have hid : ids.get ⟨q, hi⟩ = id := Option.some.inj hq3
              rw [hid] at hs
              exact hs ((same_iff_key fid id).2 hq4.symm)
            exact Or.inl ⟨q, id, by omega, hq2, hq3, hq4⟩
          · exact Or.inr hsmall
        obtain ⟨p, m, hres, h1, h2, h3⟩ := ih (i + 1) (c + 1) (by omega) (by omega) hroom2
        refine ⟨p, m, hres, by omega, h2, ?_⟩
        rcases h3 with ⟨h4, h5⟩ | ⟨h4, h5⟩
        · exact Or.inl ⟨h4, by omega⟩
        · exact Or.inr ⟨h4, by omega⟩
    · rw [dif_neg hi]
      exact ⟨i, c, rfl, Nat.le_refl _, hle, Or.inr ⟨by omega, by omega⟩⟩

/-- C22 (as stated, refuted): in the registry that the 65536 flows of `fullFlows`
leave, the lookup loop for an arrival of one more flow returns for no number of loop
steps, with or without the count of comparisons. -/
theorem C22_lookup_loop_never_ends_on_full_registry :
    ∃ s fs tr, StatsFlows.run 65537 (StatsFlows.construct "noname") (fun _ => []) fullFlows
        = Except.ok (s, fs, tr) ∧
      s.m_flowIds.length = 65536 ∧
      (¬ ∃ fuel p, StatsFlows.findLoop s.m_flowIds extraFlow.fid fuel 0 = Except.ok p) ∧
      (¬ ∃ fuel r, StatsFlows.findLoopCount s.m_flowIds extraFlow.fid fuel 0 0 = Except.ok r) := by
  obtain ⟨s, fs, tr, hrun, _, hlen, _, hnew⟩ := fullFlows_run "noname" (fun _ => [])
  have hloop : ¬ ∃ fuel p, StatsFlows.findLoop s.m_flowIds extraFlow.fid fuel 0
      = Except.ok p := by
    rintro ⟨fuel, p, h⟩
    obtain ⟨hp, hfound⟩ := findLoop_sound s.m_flowIds extraFlow.fid fuel 0 p (Nat.zero_le _)
      (by norm_num) h
    rcases hfound with ⟨id, hid, hkey⟩ | ⟨hl, _⟩
    · exact hnew (List.mem_map.2 ⟨id, List.getElem?_mem hid, hkey⟩)
    · omega
  refine ⟨s, fs, tr, hrun, hlen, hloop, ?_⟩
  rintro ⟨fuel, r, h⟩
  have := findLoopCount_erase s.m_flowIds extraFlow.fid fuel 0 0
  rw [h] at this
  exact hloop ⟨fuel, r.1, this.symm⟩

/-- C22 (amended): for every registry state and every arrival such that a key with
the arrival's four ids stands at a position below `2 ^ 16` or fewer than `2 ^ 16` keys
are registered, the lookup loop returns when granted more steps than there are keys,
after at most as many comparisons as there are keys: `p + 1` comparisons when it
stops at a matching key at position `p`, and exactly one per key when no key
matches, in which case it returns the number of keys. -/
theorem C22_lookup_terminates (s : StatsFlows) (a : Arrival) (fuel : Nat)
    (hroom : (∃ q id, q < 2 ^ 16 ∧ s.m_flowIds[q]? = some id ∧ id.key = a.key)
      ∨ s.m_flowIds.length < 2 ^ 16)
    (hfuel : s.m_flowIds.length < fuel) :
    ∃ p n, StatsFlows.findLoopCount s.m_flowIds a.fid fuel 0 0 = Except.ok (p, n) ∧
      StatsFlows.findLoop s.m_flowIds a.fid fuel 0 = Except.ok p ∧
      n ≤ s.m_flowIds.length ∧
      ((∃ id, s.m_flowIds[p]? = some id ∧ id.key = a.key ∧ n = p + 1) ∨
        (p = s.m_flowIds.length ∧ n = s.m_flowIds.length ∧
          ∀ (q : Nat) (id : NetFlowId), s.m_flowIds[q]? = some id → id.key ≠ a.key)) := by
  have hroom2 : (∃ q id, 0 ≤ q ∧ q < 2 ^ 16 ∧ s.m_flowIds[q]? = some id ∧ id.key = a.fid.key)
      ∨ s.m_flowIds.length < 2 ^ 16 := by
    rcases hroom with ⟨q, id, h1, h2, h3⟩ | h
    · exact Or.inl ⟨q, id, Nat.zero_le _, h1, h2, h3⟩
    · exact Or.inr h
  obtain ⟨p, n, hres, _, hp, hcount⟩ := findLoopCount_total s.m_flowIds a.fid fuel 0 0
    (Nat.zero_le _) (by omega) hroom2
  have hloop : StatsFlows.findLoop s.m_flowIds a.fid fuel 0 = Except.ok p := by
    have := findLoopCount_erase s.m_flowIds a.fid fuel 0 0
    rw [hres] at this
    exact this.symm
  obtain ⟨_, hfound⟩ := findLoop_sound s.m_flowIds a.fid fuel 0 p (Nat.zero_le _)
    (by norm_num) hloop
  refine ⟨p, n, hres, hloop, by omega, ?_⟩
  rcases hcount with ⟨h1, h2⟩ | ⟨h1, h2⟩
  · rcases hfound with ⟨id, hid, hkey⟩ | ⟨hl, _⟩
    · exact Or.inl ⟨id, hid, hkey, by omega⟩
    · omega
  · rcases hfound with ⟨id, hid, _⟩ | ⟨_, hnone⟩
    · have := (List.getElem?_eq_some.1 hid).1
      omega
    · exact Or.inr ⟨h1, by omega, fun q id hq => hnone q id (Nat.zero_le _) hq⟩

theorem C22_lookup_terminates_witness :
    ((∃ q id, q < 2 ^ 16 ∧ wornRegistry.m_flowIds[q]? = some id ∧ id.key = extraFlow.key)
      ∨ wornRegistry.m_flowIds.length < 2 ^ 16) ∧
    wornRegistry.m_flowIds.length < 2 ∧
    ∃ p n, StatsFlows.findLoopCount wornRegistry.m_flowIds extraFlow.fid 2 0 0
        = Except.ok (p, n) ∧
      StatsFlows.findLoop wornRegistry.m_flowIds extraFlow.fid 2 0 = Except.ok p ∧
      n ≤ wornRegistry.m_flowIds.length :=
  ⟨Or.inr (by decide), by decide, by
    obtain ⟨p, n, h1, h2, h3, _⟩ := C22_lookup_terminates wornRegistry extraFlow 2
      (Or.inr (by decide)) (by decide)
    exact ⟨p, n, h1, h2, h3⟩⟩

/-- On a well-formed registry a call either returns, or the lookup loop did not leave
within the steps granted; it never subscripts the accumulator list out of range. -/
theorem packetReceived_outcome (fuel : Nat) (s : StatsFlows) (fs : FileSystem) (a : Arrival)
    (hw : s.wellFormed) :
    (∃ d, StatsFlows.PacketReceived fuel s fs a = Except.ok d) ∨
    (StatsFlows.PacketReceived fuel s fs a = Except.error Fault.fuel ∧
      StatsFlows.findLoop s.m_flowIds a.fid fuel 0 = Except.error Fault.fuel) := by
  obtain ⟨hmap, hlen, _, _⟩ := hw
  have hlen2 : s.m_flowData.length = s.m_flowIds.length := by
    rw [← hmap, List.length_map]
  cases hloop : StatsFlows.findLoop s.m_flowIds a.fid fuel 0 with
  | error e =>
    right
    have he := findLoop_error s.m_flowIds a.fid fuel 0 e hloop
    subst he
    refine ⟨?_, rfl⟩
    unfold StatsFlows.PacketReceived
    dsimp only
    have hloop2 : StatsFlows.findLoop s.m_flowIds
        { sourceNodeId := a.packet.PeekHeader.GetNodeId,
          sourceAppId := a.packet.PeekHeader.GetApplicationId,
          sinkNodeId := a.sinkNodeId, sinkAppId := a.sinkAppId, index := 0 } fuel 0
        = Except.error Fault.fuel := hloop
    rw [hloop2]
  | ok i =>
    left
    obtain ⟨_, hfound⟩ := findLoop_sound s.m_flowIds a.fid fuel 0 i (Nat.zero_le _)
      (by norm_num) hloop
    unfold StatsFlows.PacketReceived
    dsimp only
    have hloop2 : StatsFlows.findLoop s.m_flowIds
        { sourceNodeId := a.packet.PeekHeader.GetNodeId,
          sourceAppId := a.packet.PeekHeader.GetApplicationId,
          sinkNodeId := a.sinkNodeId, sinkAppId := a.sinkAppId, index := 0 } fuel 0
        = Except.ok i := hloop
    rw [hloop2]
    dsimp only
    by_cases hi : i = s.m_flowIds.length
    · rw [if_pos hi]
      dsimp only
      have hsome : ∃ fd, (s.m_flowData ++ [(FlowData.construct fs
          { sourceNodeId := a.packet.PeekHeader.GetNodeId,
            sourceAppId := a.packet.PeekHeader.GetApplicationId,
            sinkNodeId := a.sinkNodeId, sinkAppId := a.sinkAppId, index := i }
          s.m_fileName s.m_singleFile).1]).get? i = some fd := by
        rw [List.get?_eq_getElem?, List.getElem?_append_right (by omega)]
        have : i - s.m_flowData.length = 0 := by omega
        rw [this]
        exact ⟨_, rfl⟩
      obtain ⟨fd, hfd⟩ := hsome
      rw [hfd]
      exact ⟨_, rfl⟩
    · rw [if_neg hi]
      dsimp only
      have hsome : ∃ fd, s.m_flowData.get? i = some fd := by
        rcases hfound with ⟨id, hid, _⟩ | ⟨hl, _⟩
        · rcases List.getElem?_eq_some.1 hid with ⟨hlt, _⟩
          have hlt2 : i < s.m_flowData.length := by omega
          exact ⟨s.m_flowData[i], by simp [List.getElem?_eq_getElem hlt2]⟩
        · exact absurd hl hi
      obtain ⟨fd, hfd⟩ := hsome
      rw [hfd]
      exact ⟨_, rfl⟩

/-- C23: in every registry state that arises from the empty registry, for every
arrival and every number of loop steps granted, the call never subscripts the
accumulator list out of range, and when it returns, the position `i` of the final
call `m_flowData[i].PacketReceived` is a valid position of the accumulator list,
whose key has the arrival's four ids: either `i` was a valid position before, or `i`
is the former length of both lists and one key and one accumulator were appended
first. The call returns whenever the arrival's four ids are registered or fewer than
`2 ^ 16` keys are, given more than `2 ^ 16` loop steps. -/
theorem C23_dispatch_position_valid (fn : String) (s : StatsFlows) (fs : FileSystem)
    (hr : StatsFlows.reachable fn s fs) (fuel : Nat) (a : Arrival) :
    StatsFlows.PacketReceived fuel s fs a ≠ Except.error Fault.index ∧
    (∀ d, StatsFlows.PacketReceived fuel s fs a = Except.ok d →
      d.i < d.flows.m_flowData.length ∧
      (∃ id, d.flows.m_flowIds[d.i]? = some id ∧ id.key = a.key) ∧
      ((d.i < s.m_flowData.length ∧ d.flows.m_flowData.length = s.m_flowData.length ∧
          d.flows.m_flowIds = s.m_flowIds) ∨
        (d.i = s.m_flowData.length ∧ d.flows.m_flowData.length = s.m_flowData.length + 1 ∧
          ∃ id, d.flows.m_flowIds = s.m_flowIds ++ [id] ∧ id.key = a.key ∧ id.index = d.i ∧
            a.key ∉ s.m_flowIds.map NetFlowId.key))) ∧
    (2 ^ 16 < fuel →
      a.key ∈ s.m_flowIds.map NetFlowId.key ∨ s.m_flowIds.length < 2 ^ 16 →
      ∃ d, StatsFlows.PacketReceived fuel s fs a = Except.ok d) := by
  have hw := reachable_wellFormed fn s fs hr
  have hlen : s.m_flowData.length = s.m_flowIds.length := by
    rw [← hw.1, List.length_map]
  refine ⟨?_, ?_, fun hfuel hroom => packetReceived_total fuel s fs a hw hfuel hroom⟩
  · rcases packetReceived_outcome fuel s fs a hw with ⟨d, hd⟩ | ⟨he, _⟩
    · rw [hd]
      exact fun h => absurd h (by simp)
    · rw [he]
      exact fun h => absurd h (by simp)
  · intro d hd
    obtain ⟨hwd, _, ⟨id, hid, hkey⟩, _⟩ := packetReceived_wellFormed fuel s fs a d hw hd
    have hlend : d.flows.m_flowData.length = d.flows.m_flowIds.length := by
      rw [← hwd.1, List.length_map]
    have hlt : d.i < d.flows.m_flowIds.length := (List.getElem?_eq_some.1 hid).1
    obtain ⟨hloop, hcase⟩ := packetReceived_cases fuel s fs a d hd
    refine ⟨by omega, ⟨id, hid, hkey⟩, ?_⟩
    rcases hcase with ⟨hi, fd, _, hflows, _⟩ | ⟨hi, fd, hget, hflows, _⟩
    · right
      have hids : d.flows.m_flowIds = s.m_flowIds ++ [{ a.fid with index := d.i }] := by
        rw [hflows]
      refine ⟨by omega, ?_, { a.fid with index := d.i }, hids, rfl, rfl, ?_⟩
      · rw [hlend, hids, List.length_append]
        simp only [List.length_singleton]
        omega
      · intro hmem
        obtain ⟨_, hfound⟩ := findLoop_sound s.m_flowIds a.fid fuel 0 d.i (Nat.zero_le _)
          (by norm_num) hloop
        rcases hfound with ⟨id2, hid2, _⟩ | ⟨_, hnone⟩
        · have := (List.getElem?_eq_some.1 hid2).1
          omega
        · rcases List.mem_map.1 hmem with ⟨id3, hid3, hkey3⟩
          rcases List.getElem?_of_mem hid3 with ⟨q, hq⟩
          exact hnone q id3 (Nat.zero_le _) hq hkey3
    · left
      have hids : d.flows.m_flowIds = s.m_flowIds := by rw [hflows]
      have hlt2 := (List.getElem?_eq_some.1 hget).1
      exact ⟨hlt2, by rw [hlend, hids, hlen], hids⟩

theorem C23_dispatch_position_valid_witness :
    StatsFlows.reachable "noname" (StatsFlows.construct "noname") (fun _ => []) ∧
    StatsFlows.PacketReceived 65537 (StatsFlows.construct "noname") (fun _ => [])
      emptyPacketArrival ≠ Except.error Fault.index ∧
    (2 : Nat) ^ 16 < 65537 ∧
    (emptyPacketArrival.key ∈ (StatsFlows.construct "noname").m_flowIds.map NetFlowId.key
      ∨ (StatsFlows.construct "noname").m_flowIds.length < 2 ^ 16) ∧
    ∃ d, StatsFlows.PacketReceived 65537 (StatsFlows.construct "noname") (fun _ => [])
        emptyPacketArrival = Except.ok d ∧ d.i < d.flows.m_flowData.length := by
  have hr : StatsFlows.reachable "noname" (StatsFlows.construct "noname") (fun _ => []) :=
    ⟨0, fun _ => [], [], [], rfl⟩
  have hroom : emptyPacketArrival.key
        ∈ (StatsFlows.construct "noname").m_flowIds.map NetFlowId.key
      ∨ (StatsFlows.construct "noname").m_flowIds.length < 2 ^ 16 :=
    Or.inr (by simp [StatsFlows.construct])
  obtain ⟨h1, h2, h3⟩ := C23_dispatch_position_valid "noname" (StatsFlows.construct "noname")
    (fun _ => []) hr 65537 emptyPacketArrival
  obtain ⟨d, hd⟩ := h3 (by norm_num) hroom
  exact ⟨hr, h1, by norm_num, hroom, d, hd, (h2 d hd).1⟩

/-! ## The counter of all received packets and the counts of the flows -/

/-- Sum over a list after one member was replaced. -/
theorem sum_map_set {α : Type} (f : α → Nat) :
    ∀ (l : List α) (i : Nat) (b x : α), l[i]? = some b →
      ((l.set i x).map f).sum + f b = (l.map f).sum + f x := by
  intro l
  induction l with
  | nil => intro i b x h; simp at h
  | cons a t ih =>
    intro i b x h
    cases i with
    | zero =>
      simp only [List.getElem?_cons_zero, Option.some.injEq] at h
      subst h
      simp only [List.set_cons_zero, List.map_cons, List.sum_cons]
      omega
    | succ i =>
      simp only [List.getElem?_cons_succ] at h
      have := ih i b x h
      simp only [List.set_cons_succ, List.map_cons, List.sum_cons]
      omega

/-- A member's value is at most the sum over the list. -/
theorem le_sum_map {α : Type} (f : α → Nat) :
    ∀ (l : List α) (b : α), b ∈ l → f b ≤ (l.map f).sum := by
  intro l
  induction l with
  | nil => intro b h; simp at h
  | cons a t ih =>
    intro b h
    simp only [List.map_cons, List.sum_cons]
    rcases List.mem_cons.1 h with h | h
    · rw [h]; omega
    · have := ih b h
      omega

/-- Replacing the last member of a list. -/
theorem set_append_last {α : Type} (m x : α) :
    ∀ (l : List α), (l ++ [m]).set l.length x = l ++ [x] := by
  intro l
  induction l with
  | nil => rfl
  | cons a t ih =>
    simp only [List.cons_append, List.length_cons, List.set_cons_succ, ih]

/-- One returning call adds one to the sum of the received-packet counts of the
accumulators, as long as that sum stays below `2 ^ 32`, and every accumulator has
received at least one packet afterwards if every one had before. -/
theorem packetReceived_counts (fuel : Nat) (s : StatsFlows) (fs : FileSystem) (a : Arrival)
    (d : Delivered) (c : Nat) (hw : s.wellFormed)
    (hsum : (s.m_flowData.map (fun fd => fd.m_scalarData.totalRxPackets)).sum = c)
    (hpos : ∀ fd ∈ s.m_flowData, 1 ≤ fd.m_scalarData.totalRxPackets)
    (hc : c + 1 < 2 ^ 32)
    (h : StatsFlows.PacketReceived fuel s fs a = Except.ok d) :
    (d.flows.m_flowData.map (fun fd => fd.m_scalarData.totalRxPackets)).sum = c + 1 ∧
    (∀ fd ∈ d.flows.m_flowData, 1 ≤ fd.m_scalarData.totalRxPackets) := by
  have hlen : s.m_flowData.length = s.m_flowIds.length := by
    rw [← hw.1, List.length_map]
  obtain ⟨_, hcase⟩ := packetReceived_cases fuel s fs a d h
  rcases hcase with ⟨hi, fd, hget, hflows, _⟩ | ⟨hi, fd, hget, hflows, _⟩
  · have hfdeq : fd = (FlowData.construct fs { a.fid with index := d.i } s.m_fileName
        s.m_singleFile).1 := by
      rw [List.getElem?_append_right (by omega)] at hget
      have : d.i - s.m_flowData.length = 0 := by omega
      rw [this] at hget
      exact (Option.some.inj hget).symm
    have hzero : fd.m_scalarData.totalRxPackets = 0 := by
      rw [hfdeq]
      rfl
    have hdata : d.flows.m_flowData = s.m_flowData
        ++ [(fd.PacketReceived (FlowData.construct fs { a.fid with index := d.i } s.m_fileName
            s.m_singleFile).2 a.now a.packet s.m_singleFile).1] := by
      rw [hflows]
      have hil : d.i = s.m_flowData.length := by omega
      show (s.m_flowData ++ [_]).set d.i _ = _
      rw [hil]
      exact set_append_last _ _ _
    have hone : (fd.PacketReceived (FlowData.construct fs { a.fid with index := d.i }
        s.m_fileName s.m_singleFile).2 a.now a.packet s.m_singleFile).1.m_scalarData.totalRxPackets
        = 1 := by
      rw [packetReceived_scalars, (updateScalars_first _ _ _).1, hzero]
      rfl
    constructor
    · rw [hdata, List.map_append, List.sum_append, hsum, List.map_singleton, List.sum_singleton,
        hone]
    · intro x hx
      rw [hdata] at hx
      rcases List.mem_append.1 hx with hx | hx
      · exact hpos x hx
      · rw [List.mem_singleton] at hx
        rw [hx, hone]
  · have hmem : fd ∈ s.m_flowData := List.getElem?_mem hget
    have hle : fd.m_scalarData.totalRxPackets
        ≤ (s.m_flowData.map (fun fd => fd.m_scalarData.totalRxPackets)).sum :=
      le_sum_map (fun fd => fd.m_scalarData.totalRxPackets) s.m_flowData fd hmem
    rw [hsum] at hle
    have hdata : d.flows.m_flowData = s.m_flowData.set d.i
        (fd.PacketReceived fs a.now a.packet s.m_singleFile).1 := by
      rw [hflows]
    have hnext : (fd.PacketReceived fs a.now a.packet
        s.m_singleFile).1.m_scalarData.totalRxPackets = fd.m_scalarData.totalRxPackets + 1 := by
      rw [packetReceived_scalars, (updateScalars_first _ _ _).1]
      exact Nat.mod_eq_of_lt (by omega)
    have hset := sum_map_set (fun fd => fd.m_scalarData.totalRxPackets) s.m_flowData d.i fd
      (fd.PacketReceived fs a.now a.packet s.m_singleFile).1 hget
    constructor
    · rw [hdata]
      simp only [hnext, hsum] at hset
      omega
    · intro x hx
      rw [hdata] at hx
      rcases List.mem_or_eq_of_mem_set hx with hx | hx
      · exact hpos x hx
      · rw [hx, hnext]
        omega

/-- A returning run of fewer than `2 ^ 32` arrivals in all: the counter of all received
packets and the sum of the received-packet counts of the accumulators both advance by
the number of arrivals, and every accumulator has received at least one packet. -/
theorem run_counts (fuel : Nat) :
    ∀ (as : List Arrival) (s : StatsFlows) (fs : FileSystem) (c : Nat) (s1 : StatsFlows)
      (fs1 : FileSystem) (tr : List Dispatch),
      s.wellFormed → s.m_allRxPackets = c →
      (s.m_flowData.map (fun fd => fd.m_scalarData.totalRxPackets)).sum = c →
      (∀ fd ∈ s.m_flowData, 1 ≤ fd.m_scalarData.totalRxPackets) →
      c + as.length < 2 ^ 32 →
      StatsFlows.run fuel s fs as = Except.ok (s1, fs1, tr) →
      s1.m_allRxPackets = c + as.length ∧
      (s1.m_flowData.map (fun fd => fd.m_scalarData.totalRxPackets)).sum = c + as.length ∧
      (∀ fd ∈ s1.m_flowData, 1 ≤ fd.m_scalarData.totalRxPackets) := by
  intro as
  induction as with
  | nil =>
    intro s fs c s1 fs1 tr _ hall hsum hpos _ h
    simp only [StatsFlows.run, Except.ok.injEq, Prod.mk.injEq] at h
    obtain ⟨h1, _, _⟩ := h
    subst h1
    exact ⟨hall, hsum, hpos⟩
  | cons a rest ih =>
    intro s fs c s1 fs1 tr hw hall hsum hpos hc h
    rw [List.length_cons] at hc
    unfold StatsFlows.run at h
    split at h
    · exact absurd h (by simp)
    · rename_i d hd
      split at h
      · exact absurd h (by simp)
      · rename_i s2 fs2 tr2 hrest
        simp only [Except.ok.injEq, Prod.mk.injEq] at h
        obtain ⟨h1, _, _⟩ := h
        subst h1
        obtain ⟨hwd, _, _, _⟩ := packetReceived_wellFormed fuel s fs a d hw hd
        obtain ⟨hsum2, hpos2⟩ := packetReceived_counts fuel s fs a d c hw hsum hpos
          (by omega) hd
        have hall2 : d.flows.m_allRxPackets = c + 1 := by
          rw [(packetReceived_allRxPackets fuel s fs a d hd).1, hall]
          exact Nat.mod_eq_of_lt (by omega)
        obtain ⟨r1, r2, r3⟩ := ih d.flows d.files (c + 1) s2 fs2 tr2 hwd hall2 hsum2 hpos2
          (by omega) hrest
        rw [List.length_cons]
        exact ⟨by omega, by omega, r3⟩

/-- C25: after every returning run of fewer than `2 ^ 32` arrivals from the empty
registry, the counter `allRxPackets` equals the number of arrivals processed and
equals the sum of `totalRxPackets` over all accumulators. -/
theorem C25_counter_equals_sum (fn : String) (fuel : Nat) (fs0 : FileSystem)
    (as : List Arrival) (s : StatsFlows) (fs : FileSystem) (tr : List Dispatch)
    (hrun : StatsFlows.run fuel (StatsFlows.construct fn) fs0 as = Except.ok (s, fs, tr))
    (hlt : as.length < 2 ^ 32) :
    StatsFlows.reachable fn s fs ∧
    s.m_allRxPackets = as.length ∧
    (s.m_flowData.map (fun fd => fd.m_scalarData.totalRxPackets)).sum = as.length ∧
    s.m_allRxPackets = (s.m_flowData.map (fun fd => fd.m_scalarData.totalRxPackets)).sum := by
  obtain ⟨h1, h2, _⟩ := run_counts fuel as (StatsFlows.construct fn) fs0 0 s fs tr
    (construct_wellFormed fn) rfl rfl
    (by intro fd hfd; simp [StatsFlows.construct] at hfd) (by omega) hrun
  rw [Nat.zero_add] at h1 h2
  exact ⟨⟨fuel, fs0, as, tr, hrun⟩, h1, h2, by rw [h1, h2]⟩

theorem C25_counter_equals_sum_witness :
    ∃ s fs tr, StatsFlows.run 65537 (StatsFlows.construct "noname") (fun _ => [])
        sampleArrivals = Except.ok (s, fs, tr) ∧
      sampleArrivals.length < 2 ^ 32 ∧
      s.m_allRxPackets = sampleArrivals.length ∧
      (s.m_flowData.map (fun fd => fd.m_scalarData.totalRxPackets)).sum
        = sampleArrivals.length := by
  obtain ⟨⟨s, fs, tr⟩, hrun⟩ := run_total 65537 (by norm_num)
    (sampleArrivals.map Arrival.key) (by simp [sampleArrivals]) sampleArrivals
    (StatsFlows.construct "noname") (fun _ => []) (construct_wellFormed "noname")
    (fun a ha => List.mem_map.2 ⟨a, ha, rfl⟩)
    (by intro id hid; simp [StatsFlows.construct] at hid)
  have hlt : sampleArrivals.length < 2 ^ 32 := by simp [sampleArrivals]
  exact ⟨s, fs, tr, hrun, hlt,
    (C25_counter_equals_sum "noname" 65537 (fun _ => []) sampleArrivals s fs tr hrun hlt).2.1,
    (C25_counter_equals_sum "noname" 65537 (fun _ => []) sampleArrivals s fs tr hrun hlt).2.2.1⟩

/-- The sixth line of the block is the average-delay line with the mean formula. -/
theorem finalizeBlock_mean_line (fd : FlowData) (singleFile : Bool) (allRxPackets : Nat) :
    (fd.finalizeBlock singleFile allRxPackets).get? 5
      = some [Cell.text "E2E average delay [us]",
          Cell.formula (FlowData.meanFormula (fd.formulaColumn singleFile)
            (fd.formulaRow singleFile allRxPackets) fd.m_scalarData.totalRxPackets)] := by
  simp [FlowData.finalizeBlock]

/-- Value of the mean formula when its divisor is not zero and its column is a
column: the sum over the range divided by `n`. -/
theorem meanFormula_eval (sheet : Sheet) (column row n col : Nat) (hn : 1 ≤ n)
    (hcol : columnNumber column = some col) :
    (FlowData.meanFormula column row n).eval sheet
      = some ((sheet.rangeValues col 2 row).sum / (n : ℚ)) := by
  have hq : ((n : Int) : ℚ) ≠ 0 := by
    have : (n : ℚ) ≠ 0 := Nat.cast_ne_zero.2 (by omega)
    simpa using this
  simp only [FlowData.meanFormula, Expr.eval, hcol, RangeFn.apply]
  rw [if_neg hq]
  simp

/-- C26: after every returning run of fewer than `2 ^ 32` arrivals from the empty
registry, every registered accumulator has `totalRxPackets >= 1`; the mean formula
that `Finalize` writes for it is `SUM(range)/n` with `n = totalRxPackets`, so its
divisor is not zero, and over every sheet the formula has a value when its column
character names a column. -/
theorem C26_mean_divisor_not_zero (fn : String) (fuel : Nat) (fs0 : FileSystem)
    (as : List Arrival) (s : StatsFlows) (fs : FileSystem) (tr : List Dispatch)
    (hrun : StatsFlows.run fuel (StatsFlows.construct fn) fs0 as = Except.ok (s, fs, tr))
    (hlt : as.length < 2 ^ 32) :
    ∀ fd ∈ s.m_flowData,
      1 ≤ fd.m_scalarData.totalRxPackets ∧
      (fd.finalizeBlock s.m_singleFile s.m_allRxPackets).get? 5
        = some [Cell.text "E2E average delay [us]",
            Cell.formula (FlowData.meanFormula (fd.formulaColumn s.m_singleFile)
              (fd.formulaRow s.m_singleFile s.m_allRxPackets)
              fd.m_scalarData.totalRxPackets)] ∧
      FlowData.meanFormula (fd.formulaColumn s.m_singleFile)
          (fd.formulaRow s.m_singleFile s.m_allRxPackets) fd.m_scalarData.totalRxPackets
        = Expr.div (Expr.range RangeFn.SUM (fd.formulaColumn s.m_singleFile) 2
            (fd.formulaRow s.m_singleFile s.m_allRxPackets))
            (Expr.num (fd.m_scalarData.totalRxPackets : Int)) ∧
      (Expr.num (fd.m_scalarData.totalRxPackets : Int)).eval []
        ≠ some 0 ∧
      (∀ (sheet : Sheet) (col : Nat), columnNumber (fd.formulaColumn s.m_singleFile) = some col →
        (FlowData.meanFormula (fd.formulaColumn s.m_singleFile)
          (fd.formulaRow s.m_singleFile s.m_allRxPackets)
          fd.m_scalarData.totalRxPackets).eval sheet
          = some ((sheet.rangeValues col 2
              (fd.formulaRow s.m_singleFile s.m_allRxPackets)).sum
              / (fd.m_scalarData.totalRxPackets : ℚ))) := by
  obtain ⟨_, _, h3⟩ := run_counts fuel as (StatsFlows.construct fn) fs0 0 s fs tr
    (construct_wellFormed fn) rfl rfl
    (by intro fd hfd; simp [StatsFlows.construct] at hfd) (by omega) hrun
  intro fd hfd
  have hn := h3 fd hfd
  refine ⟨hn, finalizeBlock_mean_line _ _ _, rfl, ?_, ?_⟩
  · simp only [Expr.eval, ne_eq, Option.some.injEq]
    have : (fd.m_scalarData.totalRxPackets : ℚ) ≠ 0 := Nat.cast_ne_zero.2 (by omega)
    simpa using this
  · intro sheet col hcol
    exact meanFormula_eval sheet _ _ _ col hn hcol

theorem C26_mean_divisor_not_zero_witness :
    ∃ s fs tr, StatsFlows.run 65537 (StatsFlows.construct "noname") (fun _ => [])
        sampleArrivals = Except.ok (s, fs, tr) ∧
      sampleArrivals.length < 2 ^ 32 ∧
      ∀ fd ∈ s.m_flowData, 1 ≤ fd.m_scalarData.totalRxPackets := by
  obtain ⟨⟨s, fs, tr⟩, hrun⟩ := run_total 65537 (by norm_num)
    (sampleArrivals.map Arrival.key) (by simp [sampleArrivals]) sampleArrivals
    (StatsFlows.construct "noname") (fun _ => []) (construct_wellFormed "noname")
    (fun a ha => List.mem_map.2 ⟨a, ha, rfl⟩)
    (by intro id hid; simp [StatsFlows.construct] at hid)
  have hlt : sampleArrivals.length < 2 ^ 32 := by simp [sampleArrivals]
  exact ⟨s, fs, tr, hrun, hlt, fun fd hfd =>
    (C26_mean_divisor_not_zero "noname" 65537 (fun _ => []) sampleArrivals s fs tr hrun hlt
      fd hfd).1⟩

/-! ## Columns of the report of all flows in one file -/

/-- Cell `4 + k` of the sample row of the flow with index `j` in single-file mode:
the delay when `j = k`, empty otherwise. -/
theorem sampleRow_cell (time t : Time) (j seqNo k : Nat) :
    (VectorData.sampleRow time t true j seqNo).getD (3 + k) Cell.empty
      = if j = k then Cell.real (Time.micro t) else Cell.empty := by
  have hrow : VectorData.sampleRow time t true j seqNo
      = ([Cell.int j, Cell.real (Time.micro time), Cell.int seqNo]
          ++ List.replicate j Cell.empty) ++ [Cell.real (Time.micro t)] := by
    simp [VectorData.sampleRow]
  have hlen : ([Cell.int j, Cell.real (Time.micro time), Cell.int seqNo]
      ++ List.replicate j Cell.empty).length = 3 + j := by
    rw [List.length_append, List.length_replicate]
    rfl
  rw [hrow, List.getD_eq_getElem?_getD]
  rcases Nat.lt_trichotomy k j with h | h | h
  · rw [if_neg (by omega), List.getElem?_append_left (by rw [hlen]; omega),
      List.getElem?_append_right (by simp), List.getElem?_replicate]
    simp only [List.length_cons, List.length_nil]
    rw [if_pos (by omega)]
    rfl
  · rw [if_pos h.symm, List.getElem?_append_right (by rw [hlen]; omega), hlen]
    have : 3 + k - (3 + j) = 0 := by omega
    rw [this]
    rfl
  · rw [if_neg (by omega), List.getElem?_append_right (by rw [hlen]; omega), hlen]
    have : 3 + k - (3 + j) = (k - j - 1) + 1 := by omega
    rw [this]
    rfl

/-- Column `4 + k` of the rows of a run in single-file mode, when the arrivals
delivered at position `k` are exactly those with the four ids `key`: its non-empty
cells are the delays of those arrivals, in the order of arrival. -/
theorem column_of_rows (k : Nat) (key : Nat × Nat × Nat × Nat) :
    ∀ (as : List Arrival) (tr : List Dispatch), tr.length = as.length →
      (∀ (j : Nat) (a : Arrival) (t : Dispatch), as[j]? = some a → tr[j]? = some t →
        (t.pos = k ↔ a.key = key)) →
      columnCells (List.zipWith (fun a t => a.row t.pos) as tr) (4 + k)
        = (flowDelays as key).map (fun d => Cell.real (Time.micro d)) := by
  intro as
  induction as with
  | nil =>
    intro tr _ _
    rfl
  | cons a rest ih =>
    intro tr hlen hpos
    cases tr with
    | nil => simp at hlen
    | cons t tr2 =>
      have h0 := hpos 0 a t (List.getElem?_cons_zero) (List.getElem?_cons_zero)
      have hrest := ih tr2 (by simpa using hlen)
        (fun j x y hx hy => hpos (j + 1) x y (by simpa using hx) (by simpa using hy))
      have hcell : (a.row t.pos).getD (4 + k - 1) Cell.empty
          = if t.pos = k then Cell.real (Time.micro a.delay) else Cell.empty := by
        have : 4 + k - 1 = 3 + k := by omega
        rw [this]
        exact sampleRow_cell _ _ _ _ _
      unfold columnCells at hrest ⊢
      unfold flowDelays at hrest ⊢
      rw [List.zipWith_cons_cons, List.map_cons, List.filter_cons, List.filter_cons, hcell]
      by_cases hk : t.pos = k
      · have hkey : a.key = key := h0.1 hk
        rw [if_pos hk, if_pos (by simp), if_pos (by simpa using hkey), List.map_cons,
          List.map_cons, hrest]
      · have hkey : ¬ a.key = key := fun h => hk (h0.2 h)
        rw [if_neg hk, if_neg (by simp), if_neg (by simpa using hkey), hrest]

/-- The numbers of a column are the numbers of its non-empty cells. -/
theorem filterMap_value_columnCells (rows : List Line) (col : Nat) :
    rows.filterMap (fun r => (r.getD (col - 1) Cell.empty).value?)
      = (columnCells rows col).filterMap Cell.value? := by
  unfold columnCells
  induction rows with
  | nil => rfl
  | cons r rest ih =>
    rw [List.filterMap_cons, List.map_cons, List.filter_cons, ih]
    by_cases he : r.getD (col - 1) Cell.empty = Cell.empty
    · rw [he, if_neg (by simp)]
      rfl
    · rw [if_pos (by simpa using he), List.filterMap_cons]

/-- Running through the positions of a list is running through the list. -/
theorem filterMap_range {α β : Type} (f : α → Option β) (g : Nat → Option β) :
    ∀ (rows : List α), (∀ (k : Nat) (r : α), rows[k]? = some r → g k = f r) →
      (List.range rows.length).filterMap g = rows.filterMap f := by
  intro rows
  induction rows using List.reverseRecOn with
  | nil => intro _; rfl
  | append_singleton init x ih =>
    intro h
    rw [List.length_append, List.length_singleton, List.range_succ, List.filterMap_append,
      List.filterMap_append]
    have h1 := ih (fun k r hk => h k r (by
      rw [List.getElem?_append_left (List.getElem?_eq_some.1 hk).1]
      exact hk))
    have h2 : g init.length = f x := h init.length x (by
      rw [List.getElem?_append_right (Nat.le_refl _), Nat.sub_self]
      rfl)
    rw [h1]
    simp only [List.filterMap_cons, List.filterMap_nil, h2]

/-- The numbers that a range over the rows 2 to `n + 1` of one column finds in a sheet
that consists of a title row and `n >= 1` further rows: the numbers of that column
in those rows, top to bottom. -/
theorem rangeValues_rows (title : Line) (rows : List Line) (col : Nat) (hcol : 1 ≤ col)
    (hn : 1 ≤ rows.length) :
    Sheet.rangeValues (title :: rows) col 2 (rows.length + 1)
      = rows.filterMap (fun r => (r.getD (col - 1) Cell.empty).value?) := by
  unfold Sheet.rangeValues
  have hmax : max 2 (rows.length + 1) + 1 - min 2 (rows.length + 1) = rows.length := by
    rw [Nat.max_def, Nat.min_def]
    split_ifs <;> omega
  have hmin : min 2 (rows.length + 1) = 2 := by
    rw [Nat.min_def]
    split_ifs <;> omega
  rw [hmax, hmin, List.filterMap_map]
  apply filterMap_range
  intro k r hk
  have hget : (title :: rows).get? (2 + k - 1) = some r := by
    have : 2 + k - 1 = k + 1 := by omega
    rw [this, List.get?_eq_getElem?, List.getElem?_cons_succ]
    exact hk
  simp only [Function.comp, Sheet.cell, hget]
  rw [if_neg (by omega)]

/-- The row that one returning call appends to the one report file: the row of the
arrival for the position at which it was delivered, after the title row if the
registry was empty. -/
theorem packetReceived_row (fn : String) (fuel : Nat) (s : StatsFlows) (fs : FileSystem)
    (a : Arrival) (d : Delivered) (c : Nat) (hinv : s.singleFileInv fn fs c)
    (h : StatsFlows.PacketReceived fuel s fs a = Except.ok d) :
    d.files fn = (if s.m_flowIds = [] then [titleRow] else fs fn) ++ [a.row d.i] := by
  obtain ⟨hw, hsf, hname, hfd, _, _, _⟩ := hinv
  obtain ⟨_, hcase⟩ := packetReceived_cases fuel s fs a d h
  have hlen : s.m_flowData.length = s.m_flowIds.length := by
    rw [← hw.1, List.length_map]
  rcases hcase with ⟨hi, fd, hget, _, hfiles⟩ | ⟨hi, fd, hget, _, hfiles⟩
  · rw [hsf, hname] at hget hfiles
    obtain ⟨c1, c2, c3, _, c5⟩ := construct_single fs { a.fid with index := d.i } fn
    have hfdeq : fd = (FlowData.construct fs { a.fid with index := d.i } fn true).1 := by
      rw [List.getElem?_append_right (by omega)] at hget
      have : d.i - s.m_flowData.length = 0 := by omega
      rw [this] at hget
      exact (Option.some.inj hget).symm
    have he : fd.m_fileWriteEnable = true := by rw [hfdeq]; exact c2
    have hn : fd.m_fileName = fn := by rw [hfdeq]; exact c1
    have hidx : fd.m_flowId.index = d.i := by rw [hfdeq, c3]
    obtain ⟨p1, _, _, _⟩ := packetReceived_files fd
      (FlowData.construct fs { a.fid with index := d.i } fn true).2 a.now a.packet true he
    rw [hfiles, p1, hn, append_same, c5, hidx]
    by_cases hnil : s.m_flowIds = []
    · have h0 : d.i = 0 := by rw [hi, hnil]; rfl
      rw [if_pos hnil, if_pos h0, create_same]
      rfl
    · have h0 : ¬ d.i = 0 := by
        intro h0
        rw [h0] at hi
        exact hnil (List.length_eq_zero.1 hi.symm)
      rw [if_neg hnil, if_neg h0]
      rfl
  · rw [hsf] at hfiles
    have hmem : fd ∈ s.m_flowData := List.getElem?_mem hget
    obtain ⟨hn, he⟩ := hfd fd hmem
    have hidx : fd.m_flowId.index = d.i := by
      have h1 : s.m_flowIds[d.i]? = some fd.m_flowId := by
        rw [← hw.1, List.getElem?_map, hget]
        rfl
      exact hw.2.2.2 d.i fd.m_flowId (by rw [List.get?_eq_getElem?]; exact h1)
    have hnil : s.m_flowIds ≠ [] := by
      intro hnil
      rw [hnil] at hlen
      have := (List.getElem?_eq_some.1 hget).1
      simp only [List.length_nil] at hlen
      omega
    obtain ⟨p1, _, _, _⟩ := packetReceived_files fd fs a.now a.packet true he
    rw [hfiles, p1, hn, append_same, hidx, if_neg hnil]
    rfl

/-- The one report file after a returning run in single-file mode: what it held
before (the title row, if the registry was empty and something arrived), followed by
one row per arrival, each for the position at which the arrival was delivered. -/
theorem run_rows (fn : String) (fuel : Nat) :
    ∀ (as : List Arrival) (s : StatsFlows) (fs : FileSystem) (c : Nat) (s1 : StatsFlows)
      (fs1 : FileSystem) (tr : List Dispatch),
      s.singleFileInv fn fs c → StatsFlows.run fuel s fs as = Except.ok (s1, fs1, tr) →
      fs1 fn = (if as.isEmpty then fs fn else if s.m_flowIds = [] then [titleRow] else fs fn)
        ++ List.zipWith (fun a t => a.row t.pos) as tr := by
  intro as
  induction as with
  | nil =>
    intro s fs c s1 fs1 tr _ h
    simp only [StatsFlows.run, Except.ok.injEq, Prod.mk.injEq] at h
    obtain ⟨_, h2, h3⟩ := h
    subst h2
    subst h3
    simp
  | cons a rest ih =>
    intro s fs c s1 fs1 tr hinv h
    unfold StatsFlows.run at h
    split at h
    · exact absurd h (by simp)
    · rename_i d hd
      split at h
      · exact absurd h (by simp)
      · rename_i s2 fs2 tr2 hrest
        simp only [Except.ok.injEq, Prod.mk.injEq] at h
        obtain ⟨_, h2, h3⟩ := h
        subst h2
        subst h3
        have hinv2 := packetReceived_singleFileInv fn fuel s fs a d c hinv hd
        obtain ⟨_, _, ⟨id, hid, _⟩, _⟩ :=
          packetReceived_wellFormed fuel s fs a d hinv.1 hd
        have hne : d.flows.m_flowIds ≠ [] := by
          intro hnil
          rw [hnil] at hid
          simp at hid
        have hfile := ih d.flows d.files (c + 1) s2 fs2 tr2 hinv2 hrest
        have hbase : (if rest.isEmpty then d.files fn
            else if d.flows.m_flowIds = [] then [titleRow] else d.files fn) = d.files fn := by
          rw [if_neg hne]
          split_ifs <;> rfl
        rw [hfile, hbase, packetReceived_row fn fuel s fs a d c hinv hd,
          List.zipWith_cons_cons, List.append_assoc]
        simp only [List.isEmpty_cons, Bool.false_eq_true, if_false]
        rfl

/-- C24 (as stated, refuted): after the run without any arrival in single-file mode
the report file is empty, not one title row; and after the run of `2 ^ 32` arrivals
of one flow the report file holds the title row and `2 ^ 32` data rows while the
counter `allRxPackets` is 0. -/
theorem C24_no_title_row_without_arrivals_and_counter_wraps :
    (StatsFlows.run 65537 (StatsFlows.construct "all.csv") (fun _ => []) []
        = Except.ok (StatsFlows.construct "all.csv", (fun _ => []), []) ∧
      (StatsFlows.construct "all.csv").m_singleFile = true ∧
      (StatsFlows.construct "all.csv").m_allRxPackets = 0 ∧
      ((fun _ => []) : FileSystem) "all.csv" = [] ∧
      ((fun _ => []) : FileSystem) "all.csv" ≠ [titleRow]) ∧
    (∃ s fs tr, StatsFlows.run 65537 (StatsFlows.construct "all.csv") (fun _ => [])
        (flowRun 4294967295) = Except.ok (s, fs, tr) ∧
      (flowRun 4294967295).length = 4294967296 ∧ s.m_singleFile = true ∧
      s.m_allRxPackets = 0 ∧
      ∃ rows : List Line, fs "all.csv" = titleRow :: rows ∧ rows.length = 4294967296 ∧
        rows.length ≠ s.m_allRxPackets) := by
  refine ⟨⟨rfl, by decide, rfl, rfl, by simp⟩, ?_⟩
  have hw := construct_wellFormed "all.csv"
  obtain ⟨⟨s, fs, tr⟩, hrun⟩ := run_total 65537 (by norm_num) [(0, 0, 1, 0)] (by simp)
    (flowRun 4294967295) (StatsFlows.construct "all.csv") (fun _ => []) hw
    (fun a ha => by rw [flowRun_keys 4294967295 a ha]; exact List.mem_singleton.2 rfl)
    (by intro id hid; simp [StatsFlows.construct] at hid)
  have hlen : (flowRun 4294967295).length = 4294967296 := flowRun_length 4294967295
  have hinv0 := construct_singleFileInv "all.csv" (fun _ => []) (by decide)
  have hinv := run_singleFileInv "all.csv" 65537 (flowRun 4294967295)
    (StatsFlows.construct "all.csv") (fun _ => []) 0 s fs tr hinv0 hrun
  rw [Nat.zero_add, hlen] at hinv
  obtain ⟨_, hsf, _, _, hall, _, _⟩ := hinv
  have hall0 : s.m_allRxPackets = 0 := by
    rw [hall]
    norm_num
  obtain ⟨_, _, htr, _⟩ := run_sound 65537 (flowRun 4294967295)
    (StatsFlows.construct "all.csv") (fun _ => []) s fs tr hw hrun
  have hfile := run_rows "all.csv" 65537 (flowRun 4294967295)
    (StatsFlows.construct "all.csv") (fun _ => []) 0 s fs tr hinv0 hrun
  have hempty : (flowRun 4294967295).isEmpty = false := by
    unfold flowRun
    exact List.isEmpty_cons
  have hids : (StatsFlows.construct "all.csv").m_flowIds = [] := rfl
  rw [hempty, hids] at hfile
  simp only [Bool.false_eq_true, if_false, if_true, List.singleton_append] at hfile
  have hrows : (List.zipWith (fun (a : Arrival) (t : Dispatch) => a.row t.pos)
      (flowRun 4294967295) tr).length = 4294967296 := by
    rw [List.length_zipWith, htr, hlen]
    rfl
  exact ⟨s, fs, tr, hrun, hlen, hsf, hall0, _, hfile, hrows, by rw [hrows, hall0]; norm_num⟩

/-- C24 (amended): in single-file mode, after every returning run of at least one and
fewer than `2 ^ 32 - 1` arrivals from the empty registry, the report file consists of
the title row followed by exactly `allRxPackets` data rows, one per arrival, and for
each flow `k` the non-empty cells of column number `4 + k` within those rows are
exactly the delays of the arrivals of flow `k` in the order of arrival; the last row
of the range in the delay formulas of flow `k` is `allRxPackets + 1`, and the numbers
that a range over rows 2 to `allRxPackets + 1` of column `4 + k` finds in the file
are exactly those delays. -/
theorem C24_combined_file_columns (fn : String) (fuel : Nat) (fs0 : FileSystem)
    (as : List Arrival) (s : StatsFlows) (fs : FileSystem) (tr : List Dispatch)
    (hfn : fn ≠ "noname")
    (hrun : StatsFlows.run fuel (StatsFlows.construct fn) fs0 as = Except.ok (s, fs, tr))
    (hne : as ≠ []) (hlt : as.length + 1 < 2 ^ 32) :
    s.m_singleFile = true ∧ s.m_allRxPackets = as.length ∧
    ∃ rows : List Line, fs fn = titleRow :: rows ∧ rows.length = s.m_allRxPackets ∧
      ∀ (k : Nat) (fd : FlowData), s.m_flowData[k]? = some fd →
        fd.m_flowId.index = k ∧
        columnCells rows (4 + k)
          = (flowDelays as fd.m_flowId.key).map (fun d => Cell.real (Time.micro d)) ∧
        fd.formulaRow true s.m_allRxPackets = s.m_allRxPackets + 1 ∧
        Sheet.rangeValues (fs fn) (4 + k) 2 (fd.formulaRow true s.m_allRxPackets)
          = (flowDelays as fd.m_flowId.key).map Time.micro := by
  have hw0 := construct_wellFormed fn
  have hinv0 := construct_singleFileInv fn fs0 hfn
  have hinv := run_singleFileInv fn fuel as (StatsFlows.construct fn) fs0 0 s fs tr hinv0 hrun
  rw [Nat.zero_add] at hinv
  obtain ⟨hw, hsf, _, _, hall, _, _⟩ := hinv
  have hN : s.m_allRxPackets = as.length := by
    rw [hall, Nat.mod_eq_of_lt (by omega)]
  obtain ⟨_, _, htr, hdisp⟩ := run_sound fuel as (StatsFlows.construct fn) fs0 s fs tr hw0 hrun
  have hfile := run_rows fn fuel as (StatsFlows.construct fn) fs0 0 s fs tr hinv0 hrun
  have hempty : as.isEmpty = false := by
    cases as with
    | nil => exact absurd rfl hne
    | cons a rest => rfl
  have hids : (StatsFlows.construct fn).m_flowIds = [] := rfl
  rw [hempty, hids] at hfile
  simp only [Bool.false_eq_true, if_false, if_true, List.singleton_append] at hfile
  have hrows : (List.zipWith (fun (a : Arrival) (t : Dispatch) => a.row t.pos) as tr).length
      = as.length := by
    rw [List.length_zipWith, htr]
    exact Nat.min_self _
  have hpos : 1 ≤ as.length := List.length_pos.2 hne
  refine ⟨hsf, hN, _, hfile, by rw [hrows, hN], ?_⟩
  intro k fd hk
  have hid : s.m_flowIds[k]? = some fd.m_flowId := by
    rw [← hw.1, List.getElem?_map, hk]
    rfl
  have hindex : fd.m_flowId.index = k :=
    hw.2.2.2 k fd.m_flowId (by rw [List.get?_eq_getElem?]; exact hid)
  have hkeyk : (s.m_flowIds.map NetFlowId.key)[k]? = some fd.m_flowId.key := by
    rw [List.getElem?_map, hid]
    rfl
  have hklt : k < (s.m_flowIds.map NetFlowId.key).length := (List.getElem?_eq_some.1 hkeyk).1
  have hP : ∀ (j : Nat) (a : Arrival) (t : Dispatch), as[j]? = some a → tr[j]? = some t →
      (t.pos = k ↔ a.key = fd.m_flowId.key) := by
    intro j a t ha ht
    obtain ⟨⟨id, hid2, hkey2⟩, _⟩ := hdisp j a t ha ht
    constructor
    · intro hpk
      rw [hpk, hid] at hid2
      rw [← hkey2, ← Option.some.inj hid2]
    · intro hak
      have hkeyt : (s.m_flowIds.map NetFlowId.key)[t.pos]? = some fd.m_flowId.key := by
        rw [List.getElem?_map, hid2, ← hak, ← hkey2]
        rfl
      have htlt : t.pos < (s.m_flowIds.map NetFlowId.key).length :=
        (List.getElem?_eq_some.1 hkeyt).1
      rcases Nat.lt_trichotomy t.pos k with hlt2 | heq | hgt
      · exact absurd (hkeyt.trans hkeyk.symm)
          ((List.nodup_iff_getElem?_ne_getElem?.1 hw.2.2.1) t.pos k hlt2 hklt)
      · exact heq
      · exact absurd (hkeyk.trans hkeyt.symm)
          ((List.nodup_iff_getElem?_ne_getElem?.1 hw.2.2.1) k t.pos hgt htlt)
  have hcol := column_of_rows k fd.m_flowId.key as tr htr hP
  have hrow : fd.formulaRow true s.m_allRxPackets = s.m_allRxPackets + 1 := by
    unfold FlowData.formulaRow
    rw [if_pos rfl, Nat.mod_eq_of_lt (by omega)]
  refine ⟨hindex, hcol, hrow, ?_⟩
  rw [hrow, hN, hfile]
  have h1 := rangeValues_rows titleRow
    (List.zipWith (fun (a : Arrival) (t : Dispatch) => a.row t.pos) as tr) (4 + k) (by omega)
    (by rw [hrows]; exact hpos)
  rw [hrows] at h1
  rw [h1, filterMap_value_columnCells, hcol, List.filterMap_map]
  have hcomp : (Cell.value? ∘ fun (d : Time) => Cell.real (Time.micro d))
      = (some ∘ Time.micro) := rfl
  rw [hcomp, List.filterMap_eq_map]

theorem C24_combined_file_columns_witness :
    ∃ s fs tr, "all.csv" ≠ "noname" ∧
      StatsFlows.run 65537 (StatsFlows.construct "all.csv") (fun _ => []) twoFlowRun
        = Except.ok (s, fs, tr) ∧
      twoFlowRun ≠ [] ∧ twoFlowRun.length + 1 < 2 ^ 32 ∧
      s.m_flowData.length = 2 ∧
      s.m_singleFile = true ∧ s.m_allRxPackets = twoFlowRun.length ∧
      ∃ rows : List Line, fs "all.csv" = titleRow :: rows ∧ rows.length = s.m_allRxPackets ∧
        ∀ (k : Nat) (fd : FlowData), s.m_flowData[k]? = some fd →
          fd.m_flowId.index = k ∧
          columnCells rows (4 + k)
            = (flowDelays twoFlowRun fd.m_flowId.key).map
                (fun d => Cell.real (Time.micro d)) ∧
          fd.formulaRow true s.m_allRxPackets = s.m_allRxPackets + 1 ∧
          Sheet.rangeValues (fs "all.csv") (4 + k) 2 (fd.formulaRow true s.m_allRxPackets)
            = (flowDelays twoFlowRun fd.m_flowId.key).map Time.micro := by
  obtain ⟨s, fs, tr, hrun, _, _, hlen, _⟩ := twoFlowRun_run
  have hne : twoFlowRun ≠ [] := by
    unfold twoFlowRun
    exact List.cons_ne_nil _ _
  have hlt : twoFlowRun.length + 1 < 2 ^ 32 := by
    simp [twoFlowRun]
  obtain ⟨h1, h2, rows, h3, h4, h5⟩ := C24_combined_file_columns "all.csv" 65537 (fun _ => [])
    twoFlowRun s fs tr (by decide) hrun hne hlt
  exact ⟨s, fs, tr, by decide, hrun, hne, hlt, hlen, h1, h2, rows, h3, h4, h5⟩

end ns3
